import Mathlib

/-!
Verification development for the single-file block filesystem
(`src/fs/consts.rs`, `src/fs/layout.rs`, `src/fs/io.rs`,
`src/fs/filesystem.rs`, `src/commands/rmdir.rs`, `src/commands/format.rs`).

The image is modelled as a total byte function `Nat → Nat`; machine
integers are natural numbers (bounds are stated where overflow matters);
fallible operations return `Except FsErr`, and `&mut` parameters are
threaded explicitly.
-/

namespace ZosFs

/-- consts.rs: BLOCK_SIZE = 4 KiB. -/
def BLOCK_SIZE : Nat := 4096

/-- consts.rs: INODE_SIZE = 48 bytes. -/
def INODE_SIZE : Nat := 48

/-- consts.rs: DIR_NAME_LEN = 12. -/
def DIR_NAME_LEN : Nat := 12

/-- consts.rs: DIR_ENTRY_SIZE = 16. -/
def DIR_ENTRY_SIZE : Nat := 16

/-- consts.rs: DIR_INODE_UNUSED = u32::MAX. -/
def DIR_INODE_UNUSED : Nat := 4294967295

/-- Little-endian serialization of a value into `w` bytes
(`u64::to_le_bytes` / `u32::to_le_bytes`). -/
def toLE (w : Nat) (v : Nat) : List Nat :=
  match w with
  | 0 => []
  | w + 1 => v % 256 :: toLE w (v / 256)

/-- Little-endian deserialization (`from_le_bytes`). -/
def fromLE (bs : List Nat) : Nat :=
  match bs with
  | [] => 0
  | b :: t => b + 256 * fromLE t

@[simp] theorem toLE_length (w v : Nat) : (toLE w v).length = w := by
  induction w generalizing v with
  | zero => rfl
  | succ w ih => simp [toLE, ih]

theorem fromLE_toLE_mod (w v : Nat) : fromLE (toLE w v) = v % 256 ^ w := by
  induction w generalizing v with
  | zero => simp [toLE, fromLE, Nat.mod_one]
  | succ w ih =>
    simp only [toLE, fromLE, ih]
    rw [pow_succ, mul_comm (256 ^ w) 256, Nat.mod_mul]

theorem fromLE_toLE (w v : Nat) (h : v < 256 ^ w) : fromLE (toLE w v) = v := by
  rw [fromLE_toLE_mod, Nat.mod_eq_of_lt h]

/-- layout.rs: `Superblock` (fields in on-disk order). -/
structure Superblock where
  fs_size : Nat
  magic : List Nat
  root_inode_id : Nat
  bitmap_start : Nat
  bitmap_count : Nat
  block_start : Nat
  block_count : Nat
  inode_start : Nat
  inode_count : Nat
  deriving DecidableEq

/-- layout.rs: `Inode` (48-byte record). -/
structure Inode where
  file_size : Nat
  id : Nat
  single_directs : List Nat
  single_indirect : Nat
  double_indirect : Nat
  file_type : Nat
  link_count : Nat
  _reserved : List Nat
  deriving DecidableEq

/-- layout.rs `Inode::to_bytes`: fixed little-endian 48-byte layout. -/
def inodeToBytes (ino : Inode) : List Nat :=
  toLE 8 ino.file_size ++ toLE 4 ino.id ++
    (ino.single_directs.map (toLE 4)).flatten ++
    toLE 4 ino.single_indirect ++ toLE 4 ino.double_indirect ++
    [ino.file_type, ino.link_count] ++ ino._reserved

/-- layout.rs `Inode::from_bytes`: decode the fixed 48-byte layout. -/
def inodeFromBytes (buf : List Nat) : Inode :=
  { file_size := fromLE (buf.take 8)
    id := fromLE ((buf.drop 8).take 4)
    single_directs := (List.range 5).map (fun i => fromLE ((buf.drop (12 + 4 * i)).take 4))
    single_indirect := fromLE ((buf.drop 32).take 4)
    double_indirect := fromLE ((buf.drop 36).take 4)
    file_type := buf.getD 40 0
    link_count := buf.getD 41 0
    _reserved := (buf.drop 42).take 6 }

theorem inodeToBytes_length (ino : Inode)
    (h5 : ino.single_directs.length = 5) (h6 : ino._reserved.length = 6) :
    (inodeToBytes ino).length = 48 := by
  obtain ⟨d0, d1, d2, d3, d4, hds⟩ :
      ∃ a b c d e, ino.single_directs = [a, b, c, d, e] := by
    match hl : ino.single_directs, h5 with
    | [a, b, c, d, e], _ => exact ⟨a, b, c, d, e, rfl⟩
  simp [inodeToBytes, hds, h6]

theorem inodeToBytes_explicit (fs id d0 d1 d2 d3 d4 si di ft lc r0 r1 r2 r3 r4 r5 : Nat) :
    inodeToBytes (Inode.mk fs id [d0, d1, d2, d3, d4] si di ft lc [r0, r1, r2, r3, r4, r5]) =
    [fs % 256, fs / 256 % 256, fs / 256 / 256 % 256, fs / 256 / 256 / 256 % 256,
     fs / 256 / 256 / 256 / 256 % 256, fs / 256 / 256 / 256 / 256 / 256 % 256,
     fs / 256 / 256 / 256 / 256 / 256 / 256 % 256,
     fs / 256 / 256 / 256 / 256 / 256 / 256 / 256 % 256,
     id % 256, id / 256 % 256, id / 256 / 256 % 256, id / 256 / 256 / 256 % 256,
     d0 % 256, d0 / 256 % 256, d0 / 256 / 256 % 256, d0 / 256 / 256 / 256 % 256,
     d1 % 256, d1 / 256 % 256, d1 / 256 / 256 % 256, d1 / 256 / 256 / 256 % 256,
     d2 % 256, d2 / 256 % 256, d2 / 256 / 256 % 256, d2 / 256 / 256 / 256 % 256,
     d3 % 256, d3 / 256 % 256, d3 / 256 / 256 % 256, d3 / 256 / 256 / 256 % 256,
     d4 % 256, d4 / 256 % 256, d4 / 256 / 256 % 256, d4 / 256 / 256 / 256 % 256,
     si % 256, si / 256 % 256, si / 256 / 256 % 256, si / 256 / 256 / 256 % 256,
     di % 256, di / 256 % 256, di / 256 / 256 % 256, di / 256 / 256 / 256 % 256,
     ft, lc, r0, r1, r2, r3, r4, r5] := rfl

/-- Bounds making every field of an inode representable in its machine width. -/
def InodeBounded (ino : Inode) : Prop :=
  ino.file_size < 256 ^ 8 ∧ ino.id < 256 ^ 4 ∧
  ino.single_directs.length = 5 ∧ (∀ d ∈ ino.single_directs, d < 256 ^ 4) ∧
  ino.single_indirect < 256 ^ 4 ∧ ino.double_indirect < 256 ^ 4 ∧
  ino.file_type < 256 ∧ ino.link_count < 256 ∧
  ino._reserved.length = 6

instance (ino : Inode) : Decidable (InodeBounded ino) := by
  unfold InodeBounded; infer_instance

/-- 48-byte inode round-trip: decoding an encoded inode restores every field. -/
theorem inode_from_to (ino : Inode) (h : InodeBounded ino) :
    inodeFromBytes (inodeToBytes ino) = ino := by
  obtain ⟨hs, hid, h5, hds, hsi, hdi, hft, hlc, h6⟩ := h
  cases ino with
  | mk fs id sd si di ft lc rv =>
    simp only at hs hid h5 hds hsi hdi h6
    obtain ⟨d0, d1, d2, d3, d4, hdss⟩ : ∃ a b c d e, sd = [a, b, c, d, e] := by
      match hl : sd, h5 with
      | [a, b, c, d, e], _ => exact ⟨a, b, c, d, e, rfl⟩
    obtain ⟨r0, r1, r2, r3, r4, r5, hrs⟩ : ∃ a b c d e f, rv = [a, b, c, d, e, f] := by
      match hl : rv, h6 with
      | [a, b, c, d, e, f], _ => exact ⟨a, b, c, d, e, f, rfl⟩
    subst hdss hrs
    have hd0 : d0 < 256 ^ 4 := hds d0 (by simp)
    have hd1 : d1 < 256 ^ 4 := hds d1 (by simp)
    have hd2 : d2 < 256 ^ 4 := hds d2 (by simp)
    have hd3 : d3 < 256 ^ 4 := hds d3 (by simp)
    have hd4 : d4 < 256 ^ 4 := hds d4 (by simp)
    rw [inodeToBytes_explicit]
    show Inode.mk _ _ _ _ _ _ _ _ = _
    rw [Inode.mk.injEq]
    refine ⟨?_, ?_, ?_, ?_, ?_, rfl, rfl, rfl⟩
    · show fromLE [fs % 256, fs / 256 % 256, fs / 256 / 256 % 256, fs / 256 / 256 / 256 % 256,
        fs / 256 / 256 / 256 / 256 % 256, fs / 256 / 256 / 256 / 256 / 256 % 256,
        fs / 256 / 256 / 256 / 256 / 256 / 256 % 256,
        fs / 256 / 256 / 256 / 256 / 256 / 256 / 256 % 256] = fs
      simp only [fromLE]
      omega
    · show fromLE [id % 256, id / 256 % 256, id / 256 / 256 % 256,
        id / 256 / 256 / 256 % 256] = id
      simp only [fromLE]
      omega
    · show [_, _, _, _, _] = [d0, d1, d2, d3, d4]
      rw [List.cons.injEq, List.cons.injEq, List.cons.injEq, List.cons.injEq, List.cons.injEq]
      refine ⟨?_, ?_, ?_, ?_, ?_, rfl⟩ <;> · simp only [fromLE]
                                             omega
    · show fromLE [si % 256, si / 256 % 256, si / 256 / 256 % 256,
        si / 256 / 256 / 256 % 256] = si
      simp only [fromLE]
      omega
    · show fromLE [di % 256, di / 256 % 256, di / 256 / 256 % 256,
        di / 256 / 256 / 256 % 256] = di
      simp only [fromLE]
      omega
/-- Engine error kinds (each constructor corresponds to one `io::Error` site). -/
inductive FsErr where
  | badMagic
  | inodeOutOfRange
  | blockBeforeData
  | blockBeyondData
  | bitmapLenMismatch
  | readBeyondSize
  | missingBlock
  | fileTooLarge
  | noSpace
  | notADirectory
  | invalidName
  | alreadyExists
  | notFound
  | emptyPath
  | missingName
  | symlinkLoop
  | notASymlink
  deriving DecidableEq

/-- layout.rs: `DirectoryEntry` (12 name bytes + u32 inode id). -/
structure DirEntry where
  name : List Nat
  inode_id : Nat
  deriving DecidableEq

/-- layout.rs `DirectoryEntry::serialize`: name bytes then LE inode id. -/
def entrySerialize (e : DirEntry) : List Nat :=
  e.name ++ toLE 4 e.inode_id

/-- layout.rs `DirectoryEntry::deserialize`. -/
def entryDeserialize (bs : List Nat) : DirEntry :=
  { name := bs.take 12, inode_id := fromLE ((bs.drop 12).take 4) }

/-- layout.rs `DirectoryEntry::is_unused`. -/
def entryIsUnused (e : DirEntry) : Bool :=
  e.inode_id = DIR_INODE_UNUSED

/-- layout.rs `DirectoryEntry::name_str`: name bytes up to the first NUL. -/
def entryNameStr (e : DirEntry) : List Nat :=
  e.name.takeWhile (· ≠ 0)

/-- layout.rs `DirectoryEntry::from_name` (after the caller's validity check):
the name is copied into a zeroed 12-byte buffer. -/
def entryFromName (name : List Nat) (inode_id : Nat) : DirEntry :=
  { name := name ++ List.replicate (12 - name.length) 0, inode_id := inode_id }

theorem entrySerialize_length (e : DirEntry) (h : e.name.length = 12) :
    (entrySerialize e).length = 16 := by
  simp [entrySerialize, h]

theorem entry_deserialize_serialize (e : DirEntry)
    (h : e.name.length = 12) (h32 : e.inode_id < 256 ^ 4) :
    entryDeserialize (entrySerialize e) = e := by
  cases e with
  | mk nm id =>
    simp only at h h32
    simp only [entrySerialize, entryDeserialize]
    rw [List.take_left' h, List.drop_left' h]
    rw [List.take_of_length_le (by simp)]
    rw [fromLE_toLE 4 id h32]

/-- The image file, as a total byte map (reads past the materialized end
of the host file yield zeros; `set_len`/extending writes behave likewise). -/
def Image : Type := Nat → Nat

/-- Overwrite `data.length` bytes of the image starting at `off`
(`seek` + `write_all`). -/
def writeBytes (img : Image) (off : Nat) (data : List Nat) : Image :=
  fun a => if off ≤ a ∧ a < off + data.length then data.getD (a - off) 0 else img a

/-- Read `len` bytes starting at `off` (`seek` + `read_exact`). -/
def readBytes (img : Image) (off len : Nat) : List Nat :=
  (List.range len).map (fun i => img (off + i))

@[simp] theorem readBytes_length (img : Image) (off len : Nat) :
    (readBytes img off len).length = len := by
  simp [readBytes]

theorem readBytes_getD (img : Image) (off len i : Nat) (h : i < len) :
    (readBytes img off len).getD i 0 = img (off + i) := by
  simp [readBytes, List.getD, List.getElem?_range, h]

theorem readBytes_congr {img1 img2 : Image} {o1 o2 : Nat} (len : Nat)
    (h : ∀ i, i < len → img1 (o1 + i) = img2 (o2 + i)) :
    readBytes img1 o1 len = readBytes img2 o2 len := by
  unfold readBytes
  rw [List.map_eq_map_iff]
  intro i hi
  simp only [List.mem_range] at hi
  exact h i hi

theorem readBytes_eq_list (img : Image) (off len : Nat) (l : List Nat)
    (hlen : l.length = len) (h : ∀ i, i < len → img (off + i) = l.getD i 0) :
    readBytes img off len = l := by
  apply List.ext_getElem
  · simp [hlen]
  intro i h1 h2
  have hi : i < len := by simpa using h1
  have := h i hi
  rw [List.getD_eq_getElem?_getD] at this
  rw [List.getElem?_eq_getElem h2] at this
  simp only [Option.getD_some] at this
  rw [← this]
  simp [readBytes, List.getElem_range, hi]

@[simp] theorem writeBytes_apply (img : Image) (off : Nat) (data : List Nat) (a : Nat) :
    writeBytes img off data a =
      if off ≤ a ∧ a < off + data.length then data.getD (a - off) 0 else img a := rfl

theorem readBytes_writeBytes_self (img : Image) (off : Nat) (data : List Nat) :
    readBytes (writeBytes img off data) off data.length = data := by
  apply readBytes_eq_list
  · rfl
  intro i hi
  simp only [writeBytes_apply]
  rw [if_pos (by omega)]
  congr 1
  omega

theorem readBytes_writeBytes_disjoint (img : Image) (off : Nat) (data : List Nat)
    (o2 len : Nat) (h : o2 + len ≤ off ∨ off + data.length ≤ o2) :
    readBytes (writeBytes img off data) o2 len = readBytes img o2 len := by
  apply readBytes_congr
  intro i hi
  simp only [writeBytes_apply]
  rw [if_neg (by omega)]

theorem readBytes_drop (img : Image) (off len a : Nat) :
    (readBytes img off len).drop a = readBytes img (off + a) (len - a) := by
  apply List.ext_getElem
  · simp
  intro i h1 h2
  rw [List.getElem_drop]
  simp only [readBytes, List.getElem_map, List.getElem_range]
  congr 1
  omega

theorem readBytes_take (img : Image) (off len t : Nat) (h : t ≤ len) :
    (readBytes img off len).take t = readBytes img off t := by
  apply List.ext_getElem
  · simp; omega
  intro i h1 h2
  rw [List.getElem_take]
  simp [readBytes]

/-- filesystem.rs: the `FileSystem` facade state (image handle contents,
superblock, in-memory data bitmap, cwd bookkeeping). -/
structure FS where
  img : Image
  sb : Superblock
  data_bitmap : List Nat
  bitmap_dirty : Bool
  cwd_inode : Nat
  cwd_stack : List Nat

/-- Byte offset of inode record `id` (io.rs `read_inode`/`write_inode`). -/
def recOff (sb : Superblock) (id : Nat) : Nat :=
  sb.inode_start * BLOCK_SIZE + id * INODE_SIZE

/-- io.rs `read_inode` via the facade (`FileSystem::read_inode`). -/
def fs_read_inode (fs : FS) (id : Nat) : Except FsErr Inode :=
  if id ≥ fs.sb.inode_count then .error .inodeOutOfRange
  else .ok (inodeFromBytes (readBytes fs.img (recOff fs.sb id) 48))

/-- io.rs `write_inode` via the facade (`FileSystem::write_inode`). -/
def fs_write_inode (fs : FS) (id : Nat) (ino : Inode) : Except FsErr FS :=
  if id ≥ fs.sb.inode_count then .error .inodeOutOfRange
  else .ok { fs with img := writeBytes fs.img (recOff fs.sb id) (inodeToBytes ino) }

/-- io.rs `bitmap_is_set`. -/
def bitmap_is_set (bm : List Nat) (idx : Nat) : Bool :=
  Nat.testBit (bm.getD (idx / 8) 0) (idx % 8)

/-- io.rs `bitmap_set`. -/
def bitmap_set (bm : List Nat) (idx : Nat) : List Nat :=
  bm.set (idx / 8) ((bm.getD (idx / 8) 0) ||| (1 <<< (idx % 8)))

/-- io.rs `bitmap_clear` (`byte &= !(1 << bit)` on a u8). -/
def bitmap_clear (bm : List Nat) (idx : Nat) : List Nat :=
  bm.set (idx / 8) ((bm.getD (idx / 8) 0) &&& (255 ^^^ (1 <<< (idx % 8))))

/-- io.rs `find_free_data_block`, inner bit loop (`for bit in 0..8`);
`some none` encodes the function-level `return None`, `some (some id)` a
found free bit, `none` falling through to the next byte. -/
def scanBits (b base limit : Nat) : List Nat → Option (Option Nat)
  | [] => none
  | bit :: rest =>
    let id := base + bit
    if id ≥ limit then some none
    else if !(Nat.testBit b bit) then some (some id)
    else scanBits b base limit rest

/-- io.rs `find_free_data_block`, outer byte loop. -/
def find_free_loop (limit : Nat) : Nat → List Nat → Option Nat
  | _, [] => none
  | i, b :: rest =>
    if b ≠ 255 then
      match scanBits b (i * 8) limit [0, 1, 2, 3, 4, 5, 6, 7] with
      | some r => r
      | none => find_free_loop limit (i + 1) rest
    else find_free_loop limit (i + 1) rest

/-- io.rs `find_free_data_block`. -/
def find_free_data_block (bm : List Nat) (limit : Nat) : Option Nat :=
  find_free_loop limit 0 bm

/-- io.rs `alloc_data_block`: flip the first free bit, return it with the
absolute block index. -/
def alloc_data_block (bm : List Nat) (sb : Superblock) : Option (List Nat × Nat) :=
  match find_free_data_block bm sb.block_count with
  | some rel => some (bitmap_set bm rel, sb.block_start + rel)
  | none => none

/-- filesystem.rs `FileSystem::alloc_block`. -/
def fs_alloc_block (fs : FS) : FS × Option Nat :=
  match alloc_data_block fs.data_bitmap fs.sb with
  | some (bm, b) => ({ fs with data_bitmap := bm, bitmap_dirty := true }, some b)
  | none => (fs, none)

/-- io.rs `free_data_block`. -/
def free_data_block (bm : List Nat) (sb : Superblock) (abs_block : Nat) :
    Except FsErr (List Nat) :=
  if abs_block < sb.block_start then .error .blockBeforeData
  else
    let rel := abs_block - sb.block_start
    if rel ≥ sb.block_count then .error .blockBeyondData
    else .ok (bitmap_clear bm rel)

/-- filesystem.rs `FileSystem::free_block`. -/
def fs_free_block (fs : FS) (abs_block : Nat) : Except FsErr FS :=
  match free_data_block fs.data_bitmap fs.sb abs_block with
  | .ok bm => .ok { fs with data_bitmap := bm, bitmap_dirty := true }
  | .error e => .error e
/-- filesystem.rs `FileSystem::get_block`: direct pointers only; a zero
slot (or any logical index at or above 5) has no mapping. -/
def get_block (ino : Inode) (logical : Nat) : Option Nat :=
  if logical < 5 then
    if ino.single_directs.getD logical 0 = 0 then none
    else some (ino.single_directs.getD logical 0)
  else none

/-- filesystem.rs `FileSystem::get_or_alloc_block`: allocate and persist
the updated inode before returning the fresh block. -/
def get_or_alloc_block (fs : FS) (ino : Inode) (logical : Nat) :
    FS × Inode × Except FsErr (Option Nat) :=
  if logical ≥ 5 then (fs, ino, .ok none)
  else if ino.single_directs.getD logical 0 = 0 then
    match fs_alloc_block fs with
    | (fs1, some b) =>
      let ino1 := { ino with single_directs := ino.single_directs.set logical b }
      match fs_write_inode fs1 ino1.id ino1 with
      | .ok fs2 => (fs2, ino1, .ok (some b))
      | .error e => (fs1, ino1, .error e)
    | (fs1, none) => (fs1, ino, .ok none)
  else (fs, ino, .ok (some (ino.single_directs.getD logical 0)))

/-- filesystem.rs `FileSystem::read_file_range`, block-by-block loop. -/
def read_loop (fs : FS) (ino : Inode) (cursor remaining : Nat) :
    Except FsErr (List Nat) :=
  if h : remaining = 0 then .ok []
  else
    let logical := cursor / BLOCK_SIZE
    let within := cursor % BLOCK_SIZE
    let to_take := min remaining (BLOCK_SIZE - within)
    match get_block ino logical with
    | none => .error .missingBlock
    | some b =>
      let blk := readBytes fs.img (b * BLOCK_SIZE) BLOCK_SIZE
      let part := (blk.drop within).take to_take
      match read_loop fs ino (cursor + to_take) (remaining - to_take) with
      | .ok rest => .ok (part ++ rest)
      | .error e => .error e
termination_by remaining
decreasing_by
  have h1 : cursor % BLOCK_SIZE < BLOCK_SIZE := Nat.mod_lt _ (by decide)
  simp only [BLOCK_SIZE] at *
  omega

/-- filesystem.rs `FileSystem::read_file_range`: bounds check then loop. -/
def read_file_range (fs : FS) (ino : Inode) (offset len : Nat) :
    Except FsErr (List Nat) :=
  if offset + len > ino.file_size then .error .readBeyondSize
  else read_loop fs ino offset len

/-- filesystem.rs `FileSystem::write_file_range`, per-block loop:
fails `FileTooLarge` at logical index 5, allocates missing blocks,
read-modify-writes existing ones. -/
def write_loop (fs : FS) (ino : Inode) (cursor : Nat) :
    List Nat → FS × Inode × Except FsErr Unit
  | [] => (fs, ino, .ok ())
  | d :: ds =>
    let data := d :: ds
    let logical := cursor / BLOCK_SIZE
    if logical ≥ 5 then (fs, ino, .error .fileTooLarge)
    else
      let within := cursor % BLOCK_SIZE
      let to_write := min data.length (BLOCK_SIZE - within)
      match get_block ino logical with
      | some b =>
        let blk := readBytes fs.img (b * BLOCK_SIZE) BLOCK_SIZE
        let blk1 := blk.take within ++ data.take to_write ++ blk.drop (within + to_write)
        let fs1 := { fs with img := writeBytes fs.img (b * BLOCK_SIZE) blk1 }
        write_loop fs1 ino (cursor + to_write) (data.drop to_write)
      | none =>
        match get_or_alloc_block fs ino logical with
        | (fs1, ino1, .error e) => (fs1, ino1, .error e)
        | (fs1, ino1, .ok none) => (fs1, ino1, .error .noSpace)
        | (fs1, ino1, .ok (some b)) =>
          let blk : List Nat := List.replicate BLOCK_SIZE 0
          let blk1 := blk.take within ++ data.take to_write ++ blk.drop (within + to_write)
          let fs2 := { fs1 with img := writeBytes fs1.img (b * BLOCK_SIZE) blk1 }
          write_loop fs2 ino1 (cursor + to_write) (data.drop to_write)
termination_by l => l.length
decreasing_by
  all_goals
    have h1 : cursor % BLOCK_SIZE < BLOCK_SIZE := Nat.mod_lt _ (by decide)
    simp only [BLOCK_SIZE, List.length_drop, List.length_cons] at *
    omega

/-- filesystem.rs `FileSystem::write_file_range`: loop, then update
`file_size` to `max(old, offset + len)` and persist the inode. -/
def write_file_range (fs : FS) (ino : Inode) (offset : Nat) (data : List Nat) :
    FS × Inode × Except FsErr Unit :=
  match write_loop fs ino offset data with
  | (fs1, ino1, .error e) => (fs1, ino1, .error e)
  | (fs1, ino1, .ok ()) =>
    let new_end := offset + data.length
    if new_end > ino1.file_size then
      let ino2 := { ino1 with file_size := new_end }
      match fs_write_inode fs1 ino2.id ino2 with
      | .ok fs2 => (fs2, ino2, .ok ())
      | .error e => (fs1, ino2, .error e)
    else (fs1, ino1, .ok ())

/-- filesystem.rs `FileSystem::free_inode`, loop over the five direct
pointers: free each non-zero block (propagating errors), zeroing slots. -/
def free_inode_loop (fs : FS) : List Nat → FS × Except FsErr Unit
  | [] => (fs, .ok ())
  | d :: rest =>
    if d ≠ 0 then
      match fs_free_block fs d with
      | .error e => (fs, .error e)
      | .ok fs1 => free_inode_loop fs1 rest
    else free_inode_loop fs rest

/-- filesystem.rs `FileSystem::free_inode`: release direct blocks only
(indirect trees are ignored by this implementation), zero size, type and
link count, persist the record. -/
def fs_free_inode (fs : FS) (inode_id : Nat) : FS × Except FsErr Unit :=
  match fs_read_inode fs inode_id with
  | .error e => (fs, .error e)
  | .ok ino =>
    match free_inode_loop fs ino.single_directs with
    | (fs1, .error e) => (fs1, .error e)
    | (fs1, .ok ()) =>
      let ino1 := { ino with
        single_directs := ino.single_directs.map (fun _ => 0),
        file_size := 0, file_type := 0, link_count := 0 }
      match fs_write_inode fs1 inode_id ino1 with
      | .ok fs2 => (fs2, .ok ())
      | .error e => (fs1, .error e)
/-- filesystem.rs `FileSystem::dir_entry_count`. -/
def dir_entry_count (dir : Inode) : Nat :=
  dir.file_size / DIR_ENTRY_SIZE

/-- filesystem.rs `FileSystem::dir_find`, slot scan (`for i in 0..slots`);
the caller passes the index list `List.range' 0 slots`. -/
def dir_find_go (fs : FS) (dir : Inode) (name : List Nat) :
    List Nat → Except FsErr (Option (Nat × DirEntry))
  | [] => .ok none
  | i :: is =>
    match read_file_range fs dir (i * DIR_ENTRY_SIZE) DIR_ENTRY_SIZE with
    | .error e => .error e
    | .ok bs =>
      let e := entryDeserialize bs
      if ¬ entryIsUnused e ∧ entryNameStr e = name then .ok (some (i, e))
      else dir_find_go fs dir name is

/-- filesystem.rs `FileSystem::dir_find`. -/
def dir_find (fs : FS) (dir : Inode) (name : List Nat) :
    Except FsErr (Option (Nat × DirEntry)) :=
  if dir.file_type ≠ 1 then .error .notADirectory
  else dir_find_go fs dir name (List.range' 0 (dir_entry_count dir))

/-- filesystem.rs `FileSystem::dir_is_empty`, slot scan. -/
def dir_is_empty_go (fs : FS) (dir : Inode) :
    List Nat → Except FsErr Bool
  | [] => .ok true
  | i :: is =>
    match read_file_range fs dir (i * DIR_ENTRY_SIZE) DIR_ENTRY_SIZE with
    | .error e => .error e
    | .ok bs =>
      if ¬ entryIsUnused (entryDeserialize bs) then .ok false
      else dir_is_empty_go fs dir is

/-- filesystem.rs `FileSystem::dir_is_empty`. -/
def dir_is_empty (fs : FS) (dir : Inode) : Except FsErr Bool :=
  dir_is_empty_go fs dir (List.range' 0 (dir_entry_count dir))

/-- filesystem.rs `FileSystem::dir_add_entry`, free-slot scan: `some r`
is an early return from the loop (the write into a reused slot, or a
read/write error), `none` means no free slot was found. -/
def dir_add_go (fs : FS) (dir : Inode) (name : List Nat) (inode_id : Nat) :
    List Nat → Option (FS × Inode × Except FsErr Unit)
  | [] => none
  | i :: is =>
    match read_file_range fs dir (i * DIR_ENTRY_SIZE) DIR_ENTRY_SIZE with
    | .error e => some (fs, dir, .error e)
    | .ok bs =>
      if entryIsUnused (entryDeserialize bs) then
        let new_e := entryFromName name inode_id
        match write_file_range fs dir (i * DIR_ENTRY_SIZE) (entrySerialize new_e) with
        | (fs1, dir1, .ok ()) =>
          match fs_write_inode fs1 dir1.id dir1 with
          | .ok fs2 => some (fs2, dir1, .ok ())
          | .error e => some (fs1, dir1, .error e)
        | (fs1, dir1, .error e) => some (fs1, dir1, .error e)
      else dir_add_go fs dir name inode_id is

/-- filesystem.rs `FileSystem::dir_add_entry`: reject bad names and
duplicates, reuse the lowest free slot, else append a 16-byte slot. -/
def dir_add_entry (fs : FS) (dir : Inode) (name : List Nat) (inode_id : Nat) :
    FS × Inode × Except FsErr Unit :=
  if name.length = 0 ∨ name.length > DIR_NAME_LEN then (fs, dir, .error .invalidName)
  else
    match dir_find fs dir name with
    | .error e => (fs, dir, .error e)
    | .ok (some _) => (fs, dir, .error .alreadyExists)
    | .ok none =>
      match dir_add_go fs dir name inode_id (List.range' 0 (dir_entry_count dir)) with
      | some r => r
      | none =>
        let new_e := entryFromName name inode_id
        let offset := dir.file_size
        match write_file_range fs dir offset (entrySerialize new_e) with
        | (fs1, dir1, .ok ()) =>
          match fs_write_inode fs1 dir1.id dir1 with
          | .ok fs2 => (fs2, dir1, .ok ())
          | .error e => (fs1, dir1, .error e)
        | (fs1, dir1, .error e) => (fs1, dir1, .error e)

/-- filesystem.rs `FileSystem::dir_remove_entry`, slot scan: write a
tombstone over the first live entry with the given name. -/
def dir_remove_go (fs : FS) (dir : Inode) (name : List Nat) :
    List Nat → FS × Inode × Except FsErr Unit
  | [] => (fs, dir, .error .notFound)
  | i :: is =>
    match read_file_range fs dir (i * DIR_ENTRY_SIZE) DIR_ENTRY_SIZE with
    | .error e => (fs, dir, .error e)
    | .ok bs =>
      let e := entryDeserialize bs
      if ¬ entryIsUnused e ∧ entryNameStr e = name then
        let e1 := { e with inode_id := DIR_INODE_UNUSED }
        match write_file_range fs dir (i * DIR_ENTRY_SIZE) (entrySerialize e1) with
        | (fs1, dir1, .ok ()) =>
          match fs_write_inode fs1 dir1.id dir1 with
          | .ok fs2 => (fs2, dir1, .ok ())
          | .error er => (fs1, dir1, .error er)
        | (fs1, dir1, .error er) => (fs1, dir1, .error er)
      else dir_remove_go fs dir name is

/-- filesystem.rs `FileSystem::dir_remove_entry`. -/
def dir_remove_entry (fs : FS) (dir : Inode) (name : List Nat) :
    FS × Inode × Except FsErr Unit :=
  dir_remove_go fs dir name (List.range' 0 (dir_entry_count dir))

/-- filesystem.rs `FileSystem::readlink_target`. -/
def readlink_target (fs : FS) (inode_id : Nat) : Except FsErr (List Nat) :=
  match fs_read_inode fs inode_id with
  | .error e => .error e
  | .ok ino =>
    if ino.file_type ≠ 2 then .error .notASymlink
    else read_file_range fs ino 0 ino.file_size

/-- Rust `str::split('/')` on a byte-level path (byte 47 is the slash);
empty pieces are produced between adjacent separators and at the ends. -/
def splitSlash : List Nat → List (List Nat)
  | [] => [[]]
  | b :: rest =>
    if b = 47 then [] :: splitSlash rest
    else
      match splitSlash rest with
      | piece :: more => (b :: piece) :: more
      | [] => [[b]]

/-- Path components: split on slash, drop empty components
(filesystem.rs `path.split('/').filter(|c| !c.is_empty())`). -/
def pathComponents (path : List Nat) : List (List Nat) :=
  (splitSlash path).filter (fun c => ¬ c = [])

/-- filesystem.rs `FileSystem::resolve_components_with_stack`: walk the
components with a parent stack (head of the list is the top of the Rust
`Vec`), expanding symlinks with a depth counter. The Rust while-loop is
expressed by the same-depth recursive calls; the `depth > max_depth`
guard is re-evaluated but its value unchanged, so the behaviour agrees. -/
def resolveComps (fs : FS) (current : Nat) (parents : List Nat)
    (comps : List (List Nat)) (depth maxDepth : Nat) :
    Except FsErr (Nat × List Nat) :=
  if depth > maxDepth then .error .symlinkLoop
  else
    match comps with
    | [] => .ok (current, parents)
    | comp :: rest =>
      if comp = [46] then
        resolveComps fs current parents rest depth maxDepth
      else if comp = [46, 46] then
        match parents with
        | p :: ps => resolveComps fs p ps rest depth maxDepth
        | [] => resolveComps fs fs.sb.root_inode_id [] rest depth maxDepth
      else
        match fs_read_inode fs current with
        | .error e => .error e
        | .ok cur_ino =>
          if cur_ino.file_type ≠ 1 then .error .notADirectory
          else
            match dir_find fs cur_ino comp with
            | .error e => .error e
            | .ok none => .error .notFound
            | .ok (some (_, entry)) =>
              match fs_read_inode fs entry.inode_id with
              | .error e => .error e
              | .ok next_ino =>
                if next_ino.file_type = 2 then
                  match readlink_target fs entry.inode_id with
                  | .error e => .error e
                  | .ok target =>
                    let new_comps := pathComponents target ++ rest
                    if target.head? = some 47 then
                      resolveComps fs fs.sb.root_inode_id [] new_comps
                        (depth + 1) maxDepth
                    else
                      resolveComps fs current parents new_comps
                        (depth + 1) maxDepth
                else
                  resolveComps fs entry.inode_id (current :: parents) rest
                    depth maxDepth
termination_by (maxDepth + 1 - depth, comps.length)
decreasing_by
  all_goals simp_wf
  all_goals first
    | exact Prod.Lex.right _ (by simp)
    | exact Prod.Lex.left _ _ (by omega)

/-- filesystem.rs `FileSystem::resolve_path_with_stack`. -/
def resolve_path_with_stack (fs : FS) (path : List Nat) :
    Except FsErr (Nat × List Nat) :=
  if path = [] then .error .emptyPath
  else
    let comps := pathComponents path
    let is_abs := path.head? = some 47
    let current := if is_abs then fs.sb.root_inode_id else fs.cwd_inode
    let parents := if is_abs then [] else fs.cwd_stack
    resolveComps fs current parents comps 0 16

/-- filesystem.rs `FileSystem::resolve_path`. -/
def resolve_path (fs : FS) (path : List Nat) : Except FsErr Nat :=
  match resolve_path_with_stack fs path with
  | .ok (id, _) => .ok id
  | .error e => .error e

/-- filesystem.rs `FileSystem::resolve_parent_and_name`: pop the final
component (failing with the missing-name error when there is none) and
resolve the rest. -/
def resolve_parent_and_name (fs : FS) (path : List Nat) :
    Except FsErr (Nat × List Nat) :=
  if path = [] then .error .emptyPath
  else
    let comps := pathComponents path
    match comps.getLast? with
    | none => .error .missingName
    | some name =>
      let comps1 := comps.dropLast
      let is_abs := path.head? = some 47
      let parents : List Nat := if is_abs then [] else fs.cwd_stack
      let start := if is_abs then fs.sb.root_inode_id else fs.cwd_inode
      match resolveComps fs start parents comps1 0 16 with
      | .ok (parent_id, _) => .ok (parent_id, name)
      | .error e => .error e

/-- commands/rmdir.rs `handle_argv`, with the single path argument and an
open filesystem: returns the updated state and the printed reply. -/
def rmdir_run (fs : FS) (path : List Nat) : FS × String :=
  match resolve_path fs path with
  | .error _ => (fs, "FILE NOT FOUND")
  | .ok dir_id =>
    match fs_read_inode fs dir_id with
    | .error _ => (fs, "FILE NOT FOUND")
    | .ok dir_ino =>
      if dir_ino.file_type ≠ 1 then (fs, "FILE NOT FOUND")
      else
        match dir_is_empty fs dir_ino with
        | .error _ => (fs, "FILE NOT FOUND")
        | .ok false => (fs, "NOT EMPTY")
        | .ok true =>
          match resolve_parent_and_name fs path with
          | .error _ => (fs, "FILE NOT FOUND")
          | .ok (parent_id, name) =>
            match fs_read_inode fs parent_id with
            | .error _ => (fs, "FILE NOT FOUND")
            | .ok parent_ino =>
              match dir_remove_entry fs parent_ino name with
              | (fs1, _, .error _) => (fs1, "FILE NOT FOUND")
              | (fs1, _, .ok ()) =>
                match fs_free_inode fs1 dir_id with
                | (fs2, .error _) => (fs2, "FILE NOT FOUND")
                | (fs2, .ok ()) => (fs2, "OK")

/-- commands/format.rs: the root inode written by `format`. -/
def format_root_inode (root_id : Nat) : Inode :=
  { file_size := 0, id := root_id, single_directs := [0, 0, 0, 0, 0],
    single_indirect := 0, double_indirect := 0, file_type := 1,
    link_count := 1, _reserved := [0, 0, 0, 0, 0, 0] }
/-- A block index lying inside the data area. -/
def InData (sb : Superblock) (b : Nat) : Prop :=
  sb.block_start ≤ b ∧ b < sb.block_start + sb.block_count

instance (sb : Superblock) (b : Nat) : Decidable (InData sb b) := by
  unfold InData; infer_instance

/-- Layout sanity from §3 of the spec: the superblock precedes everything
and the inode table ends at or before the data area. -/
def LayoutWF (sb : Superblock) : Prop :=
  1 ≤ sb.block_start ∧
  sb.inode_start * BLOCK_SIZE + sb.inode_count * INODE_SIZE ≤ sb.block_start * BLOCK_SIZE

instance (sb : Superblock) : Decidable (LayoutWF sb) := by
  unfold LayoutWF; infer_instance

/-- Bitmap bit of an absolute data block index. -/
def bitOf (fs : FS) (b : Nat) : Bool :=
  bitmap_is_set fs.data_bitmap (b - fs.sb.block_start)

/-- Pointer sanity of an inode: five direct slots, six reserved bytes,
every non-zero direct pointer inside the data area. -/
def InoPtrOK (sb : Superblock) (ino : Inode) : Prop :=
  ino.single_directs.length = 5 ∧ ino._reserved.length = 6 ∧
  (∀ i, i < 5 → ino.single_directs.getD i 0 ≠ 0 →
    InData sb (ino.single_directs.getD i 0))

instance (sb : Superblock) (ino : Inode) : Decidable (InoPtrOK sb ino) := by
  unfold InoPtrOK; infer_instance

/-- Full inode well-formedness: pointer sanity plus a valid id, bitmap
bits set for every pointed-to block, and pairwise distinct pointers. -/
def WFIno (fs : FS) (ino : Inode) : Prop :=
  InoPtrOK fs.sb ino ∧ ino.id < fs.sb.inode_count ∧
  (∀ i, i < 5 → ino.single_directs.getD i 0 ≠ 0 →
    bitOf fs (ino.single_directs.getD i 0) = true) ∧
  (∀ i, i < 5 → ∀ j, j < 5 → i ≠ j → ino.single_directs.getD i 0 ≠ 0 →
    ino.single_directs.getD j 0 ≠ 0 →
    ino.single_directs.getD i 0 ≠ ino.single_directs.getD j 0)

instance (fs : FS) (ino : Inode) : Decidable (WFIno fs ino) := by
  unfold WFIno
  refine @instDecidableAnd _ _ ?_ (@instDecidableAnd _ _ ?_ (@instDecidableAnd _ _ ?_ ?_))
  · infer_instance
  · infer_instance
  · infer_instance
  · exact Nat.decidableBallLT 5 _

theorem get_block_some_iff (ino : Inode) (L b : Nat) :
    get_block ino L = some b ↔
      L < 5 ∧ ino.single_directs.getD L 0 = b ∧ b ≠ 0 := by
  unfold get_block
  split
  · split
    · simp_all
    · simp_all
      omega
  · simp_all

theorem get_block_none_of_ge (ino : Inode) (L : Nat) (h : 5 ≤ L) :
    get_block ino L = none := by
  unfold get_block
  rw [if_neg (by omega)]

theorem getD_set_self (l : List Nat) (k v : Nat) (h : k < l.length) :
    (l.set k v).getD k 0 = v := by
  simp [List.getD, List.getElem?_set_self', h]

theorem getD_set_ne (l : List Nat) (k v j : Nat) (h : j ≠ k) :
    (l.set k v).getD j 0 = l.getD j 0 := by
  simp [List.getD, List.getElem?_set_ne (by omega : k ≠ j)]

theorem testBit_lor_one_shift (b bit i : Nat) (hb : bit < 8) :
    Nat.testBit (b ||| (1 <<< bit)) i = (Nat.testBit b i || i = bit) := by
  rw [Nat.testBit_or]
  congr 1
  rw [Nat.shiftLeft_eq, one_mul, Nat.testBit_two_pow]
  by_cases h : bit = i <;> simp [h] <;> omega

theorem bitmap_set_length (bm : List Nat) (idx : Nat) :
    (bitmap_set bm idx).length = bm.length := by
  simp [bitmap_set]

theorem bitmap_is_set_set_self (bm : List Nat) (idx : Nat)
    (h : idx / 8 < bm.length) :
    bitmap_is_set (bitmap_set bm idx) idx = true := by
  unfold bitmap_is_set bitmap_set
  rw [getD_set_self _ _ _ h]
  rw [testBit_lor_one_shift _ _ _ (by omega)]
  simp

theorem bitmap_is_set_set_mono (bm : List Nat) (idx x : Nat)
    (h : bitmap_is_set bm x = true) :
    bitmap_is_set (bitmap_set bm idx) x = true := by
  unfold bitmap_is_set bitmap_set at *
  by_cases hx : x / 8 = idx / 8
  · rw [hx, getD_set_self]
    · rw [testBit_lor_one_shift _ _ _ (by omega)]
      rw [← hx, h]
      simp
    · by_cases hl : idx / 8 < bm.length
      · exact hl
      · exfalso
        rw [List.getD_eq_default, Nat.zero_testBit] at h
        · simp at h
        · rw [hx] at *; omega
  · rw [getD_set_ne _ _ _ _ hx]
    exact h
theorem get_block_none_iff_lt (ino : Inode) (L : Nat) (hL : L < 5) :
    get_block ino L = none ↔ ino.single_directs.getD L 0 = 0 := by
  unfold get_block
  rw [if_pos hL]
  split <;> simp_all

theorem scanBits_some_some :
    ∀ (bits : List Nat) (b base limit id : Nat),
      scanBits b base limit bits = some (some id) →
      ∃ bit ∈ bits, id = base + bit ∧ Nat.testBit b bit = false ∧ id < limit := by
  intro bits
  induction bits with
  | nil => intro b base limit id h; simp [scanBits] at h
  | cons bit rest ih =>
    intro b base limit id h
    unfold scanBits at h
    by_cases h1 : base + bit ≥ limit
    · rw [if_pos h1] at h; simp at h
    · rw [if_neg h1] at h
      by_cases h2 : Nat.testBit b bit
      · rw [if_neg (by simp [h2])] at h
        obtain ⟨bit', hmem, hrest⟩ := ih b base limit id h
        exact ⟨bit', by simp [hmem], hrest⟩
      · simp only [Bool.not_eq_true] at h2
        rw [if_pos (by simp [h2])] at h
        simp only [Option.some.injEq] at h
        exact ⟨bit, by simp, by omega, h2, by omega⟩

theorem find_free_loop_some :
    ∀ (n : Nat) (limit : Nat) (bm : List Nat) (i rel : Nat), bm.length - i ≤ n →
      find_free_loop limit i (bm.drop i) = some rel →
      rel < limit ∧ rel / 8 < bm.length ∧ bitmap_is_set bm rel = false := by
  intro n
  induction n with
  | zero =>
    intro limit bm i rel hn h
    have : bm.drop i = [] := by
      apply List.drop_eq_nil_of_le
      omega
    rw [this] at h
    simp [find_free_loop] at h
  | succ n ih =>
    intro limit bm i rel hn h
    by_cases hi : i < bm.length
    · have hdrop : bm.drop i = bm.getD i 0 :: bm.drop (i + 1) := by
        rw [List.getD_eq_getElem _ _ hi]
        exact List.drop_eq_getElem_cons hi
      rw [hdrop] at h
      unfold find_free_loop at h
      by_cases hb : bm.getD i 0 ≠ 255
      · rw [if_pos hb] at h
        cases hscan : scanBits (bm.getD i 0) (i * 8) limit [0, 1, 2, 3, 4, 5, 6, 7] with
        | none =>
          rw [hscan] at h
          exact ih limit bm (i + 1) rel (by omega) h
        | some r =>
          rw [hscan] at h
          have h : r = some rel := h
          subst h
          obtain ⟨bit, hmem, hid, htb, hlim⟩ :=
            scanBits_some_some _ _ _ _ _ hscan
          have hbit : bit < 8 := by
            simp only [List.mem_cons, List.not_mem_nil, or_false] at hmem
            omega
          have hdiv : rel / 8 = i ∧ rel % 8 = bit := by omega
          refine ⟨hlim, by omega, ?_⟩
          unfold bitmap_is_set
          rw [hdiv.1, hdiv.2, htb]
      · rw [if_neg hb] at h
        exact ih limit bm (i + 1) rel (by omega) h
    · have : bm.drop i = [] := List.drop_eq_nil_of_le (by omega)
      rw [this] at h
      simp [find_free_loop] at h

theorem fs_alloc_block_some (fs fs' : FS) (b : Nat)
    (h : fs_alloc_block fs = (fs', some b)) :
    fs'.img = fs.img ∧ fs'.sb = fs.sb ∧ fs'.cwd_inode = fs.cwd_inode ∧
    fs'.cwd_stack = fs.cwd_stack ∧
    fs'.data_bitmap.length = fs.data_bitmap.length ∧
    InData fs.sb b ∧ bitOf fs b = false ∧
    bitmap_is_set fs'.data_bitmap (b - fs.sb.block_start) = true ∧
    (∀ x, bitmap_is_set fs.data_bitmap x = true →
      bitmap_is_set fs'.data_bitmap x = true) := by
  unfold fs_alloc_block alloc_data_block find_free_data_block at h
  cases hf : find_free_loop fs.sb.block_count 0 fs.data_bitmap with
  | none => rw [hf] at h; simp at h
  | some rel =>
    rw [hf] at h
    simp only [Prod.mk.injEq, Option.some.injEq] at h
    obtain ⟨hfs, hb⟩ := h
    have hspec := find_free_loop_some fs.data_bitmap.length fs.sb.block_count
      fs.data_bitmap 0 rel (by omega) (by simpa using hf)
    obtain ⟨hlim, hlen, hbit⟩ := hspec
    subst hfs
    refine ⟨rfl, rfl, rfl, rfl, bitmap_set_length _ _, ?_, ?_, ?_, ?_⟩
    · unfold InData; omega
    · unfold bitOf
      have : b - fs.sb.block_start = rel := by omega
      rw [this]
      exact hbit
    · have : b - fs.sb.block_start = rel := by omega
      rw [this]
      exact bitmap_is_set_set_self _ _ hlen
    · intro x hx
      exact bitmap_is_set_set_mono _ _ _ hx

theorem fs_alloc_block_none (fs fs' : FS)
    (h : fs_alloc_block fs = (fs', none)) : fs' = fs := by
  unfold fs_alloc_block alloc_data_block find_free_data_block at h
  cases hf : find_free_loop fs.sb.block_count 0 fs.data_bitmap with
  | none => rw [hf] at h; simp only [Prod.mk.injEq] at h; exact h.1.symm
  | some rel => rw [hf] at h; simp at h
theorem write_loop_nil (fs : FS) (ino : Inode) (cursor : Nat) :
    write_loop fs ino cursor [] = (fs, ino, .ok ()) := by
  rw [write_loop]

theorem write_loop_cons_large (fs : FS) (ino : Inode) (cursor d : Nat) (ds : List Nat)
    (hL : cursor / BLOCK_SIZE ≥ 5) :
    write_loop fs ino cursor (d :: ds) = (fs, ino, .error .fileTooLarge) := by
  rw [write_loop]
  simp only [if_pos hL]

theorem write_loop_cons_existing (fs : FS) (ino : Inode) (cursor d : Nat) (ds : List Nat)
    (b : Nat) (hL : cursor / BLOCK_SIZE < 5)
    (hgb : get_block ino (cursor / BLOCK_SIZE) = some b) :
    write_loop fs ino cursor (d :: ds) =
      write_loop
        { fs with img :=
            (writeBytes fs.img (b * BLOCK_SIZE)
              ((readBytes fs.img (b * BLOCK_SIZE) BLOCK_SIZE).take (cursor % BLOCK_SIZE) ++
                (d :: ds).take (min (d :: ds).length (BLOCK_SIZE - cursor % BLOCK_SIZE)) ++
                (readBytes fs.img (b * BLOCK_SIZE) BLOCK_SIZE).drop
                  (cursor % BLOCK_SIZE +
                    min (d :: ds).length (BLOCK_SIZE - cursor % BLOCK_SIZE)))) }
        ino (cursor + min (d :: ds).length (BLOCK_SIZE - cursor % BLOCK_SIZE))
        ((d :: ds).drop (min (d :: ds).length (BLOCK_SIZE - cursor % BLOCK_SIZE))) := by
  conv_lhs => rw [write_loop]
  simp only [if_neg (by omega : ¬ cursor / BLOCK_SIZE ≥ 5), hgb]

theorem write_loop_cons_alloc_fail (fs fs1 : FS) (ino : Inode) (cursor d : Nat)
    (ds : List Nat) (hL : cursor / BLOCK_SIZE < 5)
    (hz : ino.single_directs.getD (cursor / BLOCK_SIZE) 0 = 0)
    (halloc : fs_alloc_block fs = (fs1, none)) :
    write_loop fs ino cursor (d :: ds) = (fs1, ino, .error .noSpace) := by
  conv_lhs => rw [write_loop]
  have hgb : get_block ino (cursor / BLOCK_SIZE) = none :=
    (get_block_none_iff_lt _ _ hL).mpr hz
  simp only [if_neg (by omega : ¬ cursor / BLOCK_SIZE ≥ 5), hgb]
  unfold get_or_alloc_block
  simp only [if_neg (by omega : ¬ cursor / BLOCK_SIZE ≥ 5), if_pos hz, halloc]

theorem write_loop_cons_alloc_werr (fs fs1 : FS) (ino : Inode) (cursor d : Nat)
    (ds : List Nat) (b : Nat) (hL : cursor / BLOCK_SIZE < 5)
    (hz : ino.single_directs.getD (cursor / BLOCK_SIZE) 0 = 0)
    (halloc : fs_alloc_block fs = (fs1, some b))
    (hid : ¬ ino.id < fs1.sb.inode_count) :
    write_loop fs ino cursor (d :: ds) =
      (fs1, { ino with single_directs := (ino.single_directs.set (cursor / BLOCK_SIZE) b) },
       .error .inodeOutOfRange) := by
  conv_lhs => rw [write_loop]
  have hgb : get_block ino (cursor / BLOCK_SIZE) = none :=
    (get_block_none_iff_lt _ _ hL).mpr hz
  simp only [if_neg (by omega : ¬ cursor / BLOCK_SIZE ≥ 5), hgb]
  unfold get_or_alloc_block fs_write_inode
  simp only [if_neg (by omega : ¬ cursor / BLOCK_SIZE ≥ 5), if_pos hz, halloc,
    if_pos (by omega : ino.id ≥ fs1.sb.inode_count)]

theorem write_loop_cons_alloc_ok (fs fs1 : FS) (ino : Inode) (cursor d : Nat)
    (ds : List Nat) (b : Nat) (hL : cursor / BLOCK_SIZE < 5)
    (hz : ino.single_directs.getD (cursor / BLOCK_SIZE) 0 = 0)
    (halloc : fs_alloc_block fs = (fs1, some b))
    (hid : ino.id < fs1.sb.inode_count) :
    write_loop fs ino cursor (d :: ds) =
      write_loop
        { fs1 with img :=
            (writeBytes
              (writeBytes fs1.img (recOff fs1.sb ino.id)
                (inodeToBytes { ino with single_directs :=
                  (ino.single_directs.set (cursor / BLOCK_SIZE) b) }))
              (b * BLOCK_SIZE)
              ((List.replicate BLOCK_SIZE 0).take (cursor % BLOCK_SIZE) ++
                (d :: ds).take (min (d :: ds).length (BLOCK_SIZE - cursor % BLOCK_SIZE)) ++
                (List.replicate BLOCK_SIZE 0).drop
                  (cursor % BLOCK_SIZE +
                    min (d :: ds).length (BLOCK_SIZE - cursor % BLOCK_SIZE)))) }
        { ino with single_directs := (ino.single_directs.set (cursor / BLOCK_SIZE) b) }
        (cursor + min (d :: ds).length (BLOCK_SIZE - cursor % BLOCK_SIZE))
        ((d :: ds).drop (min (d :: ds).length (BLOCK_SIZE - cursor % BLOCK_SIZE))) := by
  conv_lhs => rw [write_loop]
  have hgb : get_block ino (cursor / BLOCK_SIZE) = none :=
    (get_block_none_iff_lt _ _ hL).mpr hz
  simp only [if_neg (by omega : ¬ cursor / BLOCK_SIZE ≥ 5), hgb]
  unfold get_or_alloc_block fs_write_inode
  simp only [if_neg (by omega : ¬ cursor / BLOCK_SIZE ≥ 5), if_pos hz, halloc,
    if_neg (by omega : ¬ ino.id ≥ fs1.sb.inode_count)]
theorem overlay_length (blk data : List Nat) (w tw : Nat)
    (hblk : blk.length = BLOCK_SIZE) (hw : w < BLOCK_SIZE)
    (htw : tw = min data.length (BLOCK_SIZE - w)) :
    (blk.take w ++ data.take tw ++ blk.drop (w + tw)).length = BLOCK_SIZE := by
  simp only [List.length_append, List.length_take, List.length_drop, hblk]
  omega

theorem InoPtrOK_set (sb : Superblock) (ino : Inode) (L b : Nat)
    (h : InoPtrOK sb ino) (hL : L < 5) (hb : InData sb b) :
    InoPtrOK sb { ino with single_directs := (ino.single_directs.set L b) } := by
  obtain ⟨h5, h6, hr⟩ := h
  refine ⟨by simp [h5], h6, ?_⟩
  intro i hi hnz
  by_cases hiL : i = L
  · subst hiL
    rw [getD_set_self _ _ _ (by omega)] at *
    exact hb
  · rw [getD_set_ne _ _ _ _ hiL] at *
    exact hr i hi hnz

/-- Effects of the write loop common to all outcomes: the superblock is
unchanged, the inode keeps every field except the direct pointers (which
stay inside the data area), bytes outside the data area and the inode's
own record are untouched, and the record region is either untouched or
holds a serialized inode with the original size and type. -/
theorem write_loop_effects :
    ∀ (n : Nat) (data : List Nat) (fs : FS) (ino : Inode) (cursor : Nat),
      data.length ≤ n → LayoutWF fs.sb → InoPtrOK fs.sb ino →
      (write_loop fs ino cursor data).1.sb = fs.sb ∧
      ((write_loop fs ino cursor data).2.1.id = ino.id ∧
        (write_loop fs ino cursor data).2.1.file_size = ino.file_size ∧
        (write_loop fs ino cursor data).2.1.file_type = ino.file_type ∧
        (write_loop fs ino cursor data).2.1.link_count = ino.link_count ∧
        (write_loop fs ino cursor data).2.1.single_indirect = ino.single_indirect ∧
        (write_loop fs ino cursor data).2.1.double_indirect = ino.double_indirect ∧
        (write_loop fs ino cursor data).2.1._reserved = ino._reserved) ∧
      InoPtrOK fs.sb (write_loop fs ino cursor data).2.1 ∧
      (∀ a, (a < fs.sb.block_start * BLOCK_SIZE ∨
             (fs.sb.block_start + fs.sb.block_count) * BLOCK_SIZE ≤ a) →
        (a < recOff fs.sb ino.id ∨ recOff fs.sb ino.id + 48 ≤ a) →
        (write_loop fs ino cursor data).1.img a = fs.img a) ∧
      (ino.id < fs.sb.inode_count →
        readBytes (write_loop fs ino cursor data).1.img (recOff fs.sb ino.id) 48 =
          readBytes fs.img (recOff fs.sb ino.id) 48 ∨
        (∃ inoX, readBytes (write_loop fs ino cursor data).1.img
            (recOff fs.sb ino.id) 48 = inodeToBytes inoX ∧
          inoX.file_size = ino.file_size ∧ inoX.file_type = ino.file_type ∧
          inoX.single_directs.length = 5 ∧ inoX._reserved.length = 6)) := by
  intro n
  induction n with
  | zero =>
    intro data fs ino cursor hn hlay hptr
    have hdata : data = [] := by
      cases data with
      | nil => rfl
      | cons d ds => simp at hn
    subst hdata
    rw [write_loop_nil]
    exact ⟨rfl, ⟨rfl, rfl, rfl, rfl, rfl, rfl, rfl⟩, hptr, fun a _ _ => rfl,
      fun _ => Or.inl rfl⟩
  | succ n ih =>
    intro data fs ino cursor hn hlay hptr
    cases data with
    | nil =>
      rw [write_loop_nil]
      exact ⟨rfl, ⟨rfl, rfl, rfl, rfl, rfl, rfl, rfl⟩, hptr, fun a _ _ => rfl,
        fun _ => Or.inl rfl⟩
    | cons d ds =>
      by_cases hL : cursor / BLOCK_SIZE ≥ 5
      · rw [write_loop_cons_large _ _ _ _ _ hL]
        exact ⟨rfl, ⟨rfl, rfl, rfl, rfl, rfl, rfl, rfl⟩, hptr, fun a _ _ => rfl,
          fun _ => Or.inl rfl⟩
      · push_neg at hL
        set tw := min (d :: ds).length (BLOCK_SIZE - cursor % BLOCK_SIZE) with htw
        have htw1 : 1 ≤ tw := by
          rw [htw]
          have : cursor % BLOCK_SIZE < BLOCK_SIZE := Nat.mod_lt _ (by decide)
          simp only [List.length_cons, BLOCK_SIZE] at *
          omega
        have hlendrop : ((d :: ds).drop tw).length ≤ n := by
          simp only [List.length_drop, List.length_cons] at *
          omega
        cases hgb : get_block ino (cursor / BLOCK_SIZE) with
        | some b =>
          have hbnz : b ≠ 0 ∧ ino.single_directs.getD (cursor / BLOCK_SIZE) 0 = b := by
            have := (get_block_some_iff ino (cursor / BLOCK_SIZE) b).mp hgb
            exact ⟨this.2.2, this.2.1⟩
          have hbd : InData fs.sb b := by
            have := hptr.2.2 (cursor / BLOCK_SIZE) hL (by rw [hbnz.2]; exact hbnz.1)
            rwa [hbnz.2] at this
          set blk1 := ((readBytes fs.img (b * BLOCK_SIZE) BLOCK_SIZE).take
              (cursor % BLOCK_SIZE) ++ (d :: ds).take tw ++
              (readBytes fs.img (b * BLOCK_SIZE) BLOCK_SIZE).drop
                (cursor % BLOCK_SIZE + tw)) with hblk1
          set fs2 : FS := { fs with img := (writeBytes fs.img (b * BLOCK_SIZE) blk1) }
            with hfs2
          have heq : write_loop fs ino cursor (d :: ds) =
              write_loop fs2 ino (cursor + tw) ((d :: ds).drop tw) :=
            write_loop_cons_existing fs ino cursor d ds b hL hgb
          rw [heq]
          have hlen1 : blk1.length = BLOCK_SIZE := by
            rw [hblk1]
            exact overlay_length _ _ _ _ (readBytes_length _ _ _)
              (Nat.mod_lt _ (by decide)) htw
          obtain ⟨ih1, ih2, ih3, ih4, ih5⟩ :=
            ih ((d :: ds).drop tw) fs2 ino (cursor + tw) hlendrop hlay hptr
          have hb1 : fs.sb.block_start * BLOCK_SIZE ≤ b * BLOCK_SIZE :=
            Nat.mul_le_mul_right _ hbd.1
          have hb2 : (b + 1) * BLOCK_SIZE ≤
              (fs.sb.block_start + fs.sb.block_count) * BLOCK_SIZE :=
            Nat.mul_le_mul_right _ (by have := hbd.2; omega)
          refine ⟨ih1, ih2, ih3, ?_, ?_⟩
          · intro a ha hrec
            rw [ih4 a ha hrec]
            have hcond : ¬ (b * BLOCK_SIZE ≤ a ∧ a < b * BLOCK_SIZE + blk1.length) := by
              rw [hlen1]
              simp only [BLOCK_SIZE] at *
              omega
            show writeBytes fs.img (b * BLOCK_SIZE) blk1 a = fs.img a
            rw [writeBytes_apply, if_neg hcond]
          · intro hid
            have hrecb : recOff fs.sb ino.id + 48 ≤ b * BLOCK_SIZE := by
              obtain ⟨hlay1, hlay2⟩ := hlay
              unfold recOff BLOCK_SIZE INODE_SIZE at *
              omega
            have hfs2rec : readBytes fs2.img (recOff fs.sb ino.id) 48 =
                readBytes fs.img (recOff fs.sb ino.id) 48 := by
              show readBytes (writeBytes fs.img (b * BLOCK_SIZE) blk1)
                (recOff fs.sb ino.id) 48 = _
              apply readBytes_writeBytes_disjoint
              rw [hlen1]
              left
              exact hrecb
            rcases ih5 hid with h5a | h5b
            · left
              rw [h5a, hfs2rec]
            · right
              exact h5b
        | none =>
          have hz : ino.single_directs.getD (cursor / BLOCK_SIZE) 0 = 0 :=
            (get_block_none_iff_lt _ _ hL).mp hgb
          cases halloc : fs_alloc_block fs with
          | mk fs1 ob =>
            cases ob with
            | none =>
              have hfs1 : fs1 = fs := fs_alloc_block_none _ _ halloc
              rw [write_loop_cons_alloc_fail fs fs1 ino cursor d ds hL hz halloc, hfs1]
              exact ⟨rfl, ⟨rfl, rfl, rfl, rfl, rfl, rfl, rfl⟩, hptr, fun a _ _ => rfl,
                fun _ => Or.inl rfl⟩
            | some b =>
              obtain ⟨himg1, hsb1, _, _, _, hbd, hfree, hset, hmono⟩ :=
                fs_alloc_block_some fs fs1 b halloc
              set ino1 : Inode := { ino with single_directs :=
                (ino.single_directs.set (cursor / BLOCK_SIZE) b) } with hino1
              have hptr1 : InoPtrOK fs.sb ino1 := InoPtrOK_set _ _ _ _ hptr hL hbd
              have hidq : ino1.id = ino.id := rfl
              by_cases hid : ino.id < fs1.sb.inode_count
              · set blkz := ((List.replicate BLOCK_SIZE 0).take (cursor % BLOCK_SIZE) ++
                  (d :: ds).take tw ++
                  (List.replicate BLOCK_SIZE 0).drop (cursor % BLOCK_SIZE + tw))
                  with hblkz
                set fs3 : FS := { fs1 with img :=
                  (writeBytes
                    (writeBytes fs1.img (recOff fs1.sb ino.id) (inodeToBytes ino1))
                    (b * BLOCK_SIZE) blkz) } with hfs3
                have heq : write_loop fs ino cursor (d :: ds) =
                    write_loop fs3 ino1 (cursor + tw) ((d :: ds).drop tw) :=
                  write_loop_cons_alloc_ok fs fs1 ino cursor d ds b hL hz halloc hid
                rw [heq]
                have hsb3 : fs3.sb = fs.sb := hsb1
                have hlenz : blkz.length = BLOCK_SIZE := by
                  rw [hblkz]
                  exact overlay_length _ _ _ _ (List.length_replicate _ _)
                    (Nat.mod_lt _ (by decide)) htw
                have hlen5a : ino1.single_directs.length = 5 := by
                  rw [hino1]
                  simp [hptr.1]
                have hlen48 : (inodeToBytes ino1).length = 48 :=
                  inodeToBytes_length _ hlen5a hptr.2.1
                have hrecb : recOff fs.sb ino.id + 48 ≤ b * BLOCK_SIZE := by
                  have hb1 : fs.sb.block_start * BLOCK_SIZE ≤ b * BLOCK_SIZE :=
                    Nat.mul_le_mul_right _ hbd.1
                  rw [hsb1] at hid
                  obtain ⟨hlay1, hlay2⟩ := hlay
                  unfold recOff BLOCK_SIZE INODE_SIZE at *
                  omega
                have hrec1 : recOff fs1.sb ino.id = recOff fs.sb ino.id := by
                  rw [hsb1]
                obtain ⟨ih1, ih2, ih3, ih4, ih5⟩ :=
                  ih ((d :: ds).drop tw) fs3 ino1 (cursor + tw) hlendrop
                    (hsb3.symm ▸ hlay) (hsb3.symm ▸ hptr1)
                rw [hsb3] at ih1 ih3
                rw [hsb3, hidq] at ih4 ih5
                have hb1 : fs.sb.block_start * BLOCK_SIZE ≤ b * BLOCK_SIZE :=
                  Nat.mul_le_mul_right _ hbd.1
                have hb2 : (b + 1) * BLOCK_SIZE ≤
                    (fs.sb.block_start + fs.sb.block_count) * BLOCK_SIZE :=
                  Nat.mul_le_mul_right _ (by have := hbd.2; omega)
                refine ⟨ih1, ?_, ih3, ?_, ?_⟩
                · exact ⟨ih2.1, ih2.2.1, ih2.2.2.1, ih2.2.2.2.1, ih2.2.2.2.2.1,
                    ih2.2.2.2.2.2.1, ih2.2.2.2.2.2.2⟩
                · intro a ha hrec
                  rw [ih4 a ha hrec]
                  have hcond1 : ¬ (b * BLOCK_SIZE ≤ a ∧
                      a < b * BLOCK_SIZE + blkz.length) := by
                    rw [hlenz]
                    simp only [BLOCK_SIZE] at *
                    omega
                  have hcond2 : ¬ (recOff fs1.sb ino.id ≤ a ∧
                      a < recOff fs1.sb ino.id + (inodeToBytes ino1).length) := by
                    rw [hlen48, hrec1]
                    omega
                  show writeBytes
                    (writeBytes fs1.img (recOff fs1.sb ino.id) (inodeToBytes ino1))
                    (b * BLOCK_SIZE) blkz a = fs.img a
                  rw [writeBytes_apply, if_neg hcond1, writeBytes_apply, if_neg hcond2,
                    himg1]
                · intro hid0
                  have hrec3 : readBytes fs3.img (recOff fs.sb ino.id) 48 =
                      inodeToBytes ino1 := by
                    show readBytes (writeBytes
                      (writeBytes fs1.img (recOff fs1.sb ino.id) (inodeToBytes ino1))
                      (b * BLOCK_SIZE) blkz) (recOff fs.sb ino.id) 48 = _
                    rw [readBytes_writeBytes_disjoint _ _ _ _ _
                      (by rw [hlenz]; left; exact hrecb)]
                    rw [hrec1]
                    have : readBytes (writeBytes fs1.img (recOff fs.sb ino.id)
                        (inodeToBytes ino1)) (recOff fs.sb ino.id)
                        (inodeToBytes ino1).length = inodeToBytes ino1 :=
                      readBytes_writeBytes_self _ _ _
                    rwa [hlen48] at this
                  rcases ih5 hid0 with h5a | h5b
                  · right
                    refine ⟨ino1, by rw [h5a, hrec3], rfl, rfl, hlen5a, hptr.2.1⟩
                  · right
                    obtain ⟨inoX, hx1, hx2, hx3, hx4, hx5⟩ := h5b
                    exact ⟨inoX, hx1, hx2, hx3, hx4, hx5⟩
              · rw [write_loop_cons_alloc_werr fs fs1 ino cursor d ds b hL hz halloc hid]
                refine ⟨hsb1, ⟨rfl, rfl, rfl, rfl, rfl, rfl, rfl⟩, hptr1, ?_, ?_⟩
                · intro a _ _
                  show fs1.img a = fs.img a
                  rw [himg1]
                · intro hid0
                  left
                  show readBytes fs1.img (recOff fs.sb ino.id) 48 = _
                  rw [himg1]
/-- Effects of `write_file_range`: the loop effects, plus the final
`file_size ← max(old, offset+len)` update and its persistence. -/
theorem write_file_range_effects (fs : FS) (ino : Inode) (offset : Nat) (data : List Nat)
    (hlay : LayoutWF fs.sb) (hptr : InoPtrOK fs.sb ino) :
    (write_file_range fs ino offset data).1.sb = fs.sb ∧
    ((write_file_range fs ino offset data).2.1.id = ino.id ∧
      (write_file_range fs ino offset data).2.1.file_type = ino.file_type ∧
      (write_file_range fs ino offset data).2.1.link_count = ino.link_count ∧
      (write_file_range fs ino offset data).2.1.single_indirect = ino.single_indirect ∧
      (write_file_range fs ino offset data).2.1.double_indirect = ino.double_indirect ∧
      (write_file_range fs ino offset data).2.1._reserved = ino._reserved) ∧
    InoPtrOK fs.sb (write_file_range fs ino offset data).2.1 ∧
    (∀ a, (a < fs.sb.block_start * BLOCK_SIZE ∨
           (fs.sb.block_start + fs.sb.block_count) * BLOCK_SIZE ≤ a) →
      (a < recOff fs.sb ino.id ∨ recOff fs.sb ino.id + 48 ≤ a) →
      (write_file_range fs ino offset data).1.img a = fs.img a) ∧
    (ino.id < fs.sb.inode_count →
      readBytes (write_file_range fs ino offset data).1.img (recOff fs.sb ino.id) 48 =
        readBytes fs.img (recOff fs.sb ino.id) 48 ∨
      (∃ inoX, readBytes (write_file_range fs ino offset data).1.img
          (recOff fs.sb ino.id) 48 = inodeToBytes inoX ∧
        (inoX.file_size = ino.file_size ∨ inoX.file_size = offset + data.length) ∧
        inoX.file_type = ino.file_type ∧
        inoX.single_directs.length = 5 ∧ inoX._reserved.length = 6)) ∧
    ((write_file_range fs ino offset data).2.2 = .ok () →
      (write_file_range fs ino offset data).2.1.file_size =
        max ino.file_size (offset + data.length)) ∧
    ((write_file_range fs ino offset data).2.1.file_size = ino.file_size ∨
      (write_file_range fs ino offset data).2.1.file_size =
        offset + data.length) := by
  obtain ⟨e1, e2, e3, e4, e5⟩ :=
    write_loop_effects data.length data fs ino offset le_rfl hlay hptr
  unfold write_file_range
  cases hloop : write_loop fs ino offset data with
  | mk fs1 p =>
    cases p with
    | mk ino1 r =>
      rw [hloop] at e1 e2 e3 e4 e5
      simp only at e1 e2 e3 e4 e5
      cases r with
      | error e =>
        simp only
        refine ⟨e1, ⟨e2.1, e2.2.2.1, e2.2.2.2.1, e2.2.2.2.2.1, e2.2.2.2.2.2.1,
          e2.2.2.2.2.2.2⟩, e3, e4, ?_, by intro h; simp at h,
          Or.inl e2.2.1⟩
        intro hid
        rcases e5 hid with h | ⟨inoX, hx1, hx2, hx3, hx4, hx5⟩
        · exact Or.inl h
        · exact Or.inr ⟨inoX, hx1, Or.inl hx2, hx3, hx4, hx5⟩
      | ok u =>
        cases u
        simp only
        by_cases hgrow : offset + data.length > ino1.file_size
        · rw [if_pos hgrow]
          unfold fs_write_inode
          have hid1 : ino1.id = ino.id := e2.1
          have hsb1 : fs1.sb = fs.sb := e1
          by_cases hid : ino.id < fs.sb.inode_count
          · rw [if_neg (by simp only [hid1, hsb1]; omega :
              ¬ ({ ino1 with file_size := offset + data.length } : Inode).id ≥
                fs1.sb.inode_count)]
            simp only
            have hlen5 : ino1.single_directs.length = 5 := e3.1
            have hlen6 : ino1._reserved.length = 6 := e3.2.1
            have hlen48 : (inodeToBytes { ino1 with file_size :=
                offset + data.length }).length = 48 :=
              inodeToBytes_length _ hlen5 hlen6
            refine ⟨hsb1, ⟨hid1, e2.2.2.1, e2.2.2.2.1, e2.2.2.2.2.1, e2.2.2.2.2.2.1,
              e2.2.2.2.2.2.2⟩, ⟨hlen5, hlen6, e3.2.2⟩, ?_, ?_, fun _ => by omega,
              Or.inr trivial⟩
            · intro a ha hrec
              show writeBytes fs1.img (recOff fs1.sb ino1.id) _ a = fs.img a
              rw [writeBytes_apply, if_neg, e4 a ha hrec]
              rw [hlen48, hsb1, hid1]
              omega
            · intro _
              right
              refine ⟨{ ino1 with file_size := offset + data.length }, ?_,
                Or.inr rfl, e2.2.2.1, hlen5, hlen6⟩
              show readBytes (writeBytes fs1.img (recOff fs1.sb ino1.id) _)
                (recOff fs.sb ino.id) 48 = _
              rw [hsb1, hid1]
              have hself := readBytes_writeBytes_self fs1.img (recOff fs.sb ino.id)
                (inodeToBytes { ino1 with file_size := offset + data.length })
              rw [hlen48] at hself
              rw [hid1] at hself
              exact hself
          · rw [if_pos (by simp only [hid1, hsb1]; omega :
              ({ ino1 with file_size := offset + data.length } : Inode).id ≥
                fs1.sb.inode_count)]
            simp only
            refine ⟨hsb1, ⟨hid1, e2.2.2.1, e2.2.2.2.1, e2.2.2.2.2.1, e2.2.2.2.2.2.1,
              e2.2.2.2.2.2.2⟩, ⟨e3.1, e3.2.1, e3.2.2⟩, e4, ?_,
              by intro h; simp at h, Or.inr trivial⟩
            intro hid0
            exact absurd hid0 hid
        · rw [if_neg hgrow]
          simp only
          refine ⟨e1, ⟨e2.1, e2.2.2.1, e2.2.2.2.1, e2.2.2.2.2.1, e2.2.2.2.2.2.1,
            e2.2.2.2.2.2.2⟩, e3, e4, ?_, ?_, Or.inl e2.2.1⟩
          · intro hid
            rcases e5 hid with h | ⟨inoX, hx1, hx2, hx3, hx4, hx5⟩
            · exact Or.inl h
            · exact Or.inr ⟨inoX, hx1, Or.inl hx2, hx3, hx4, hx5⟩
          · intro _
            have := e2.2.1
            omega
theorem readBytes_writeBytes_prefix (img : Image) (off : Nat) (l : List Nat) (t : Nat)
    (h : t ≤ l.length) :
    readBytes (writeBytes img off l) off t = l.take t := by
  apply readBytes_eq_list
  · simp; omega
  intro i hi
  simp only [writeBytes_apply]
  rw [if_pos (by omega)]
  have h1 : (l.take t).getD i 0 = l.getD i 0 := by
    rw [List.getD_eq_getElem?_getD, List.getD_eq_getElem?_getD, List.getElem?_take_of_lt hi]
  rw [h1]
  congr 1
  omega

theorem take_min_length (l : List Nat) (t : Nat) :
    l.take (min l.length t) = l.take t := by
  rw [List.take_eq_take]
  omega

theorem readBytes_take_of_eq {img1 img2 : Image} {off : Nat} (len t : Nat)
    (h : readBytes img1 off len = readBytes img2 off len) (ht : t ≤ len) :
    readBytes img1 off t = readBytes img2 off t := by
  have h1 := congrArg (List.take t) h
  rwa [readBytes_take _ _ _ _ ht, readBytes_take _ _ _ _ ht] at h1
theorem get_block_set_ne (ino : Inode) (k b j : Nat) (h : j ≠ k) :
    get_block { ino with single_directs := (ino.single_directs.set k b) } j =
      get_block ino j := by
  unfold get_block
  rw [getD_set_ne _ _ _ _ h]

/-- Content lemma for block-aligned writes (`cursor = BLOCK_SIZE * k`):
full well-formedness is preserved, pointers below `k` are untouched, the
inode record mirrors the in-memory inode, allocated blocks not pointed to
at index `k` or later keep their bytes, and a prefix of `m` blocks ends
up holding the written data (all blocks on success). -/
theorem write_loop_aligned :
    ∀ (n : Nat) (data : List Nat) (fs : FS) (ino : Inode) (k : Nat),
      data.length ≤ n → LayoutWF fs.sb → WFIno fs ino →
      WFIno (write_loop fs ino (BLOCK_SIZE * k) data).1
        (write_loop fs ino (BLOCK_SIZE * k) data).2.1 ∧
      (∀ j, j < k →
        (write_loop fs ino (BLOCK_SIZE * k) data).2.1.single_directs.getD j 0 =
          ino.single_directs.getD j 0) ∧
      (readBytes fs.img (recOff fs.sb ino.id) 48 = inodeToBytes ino →
        readBytes (write_loop fs ino (BLOCK_SIZE * k) data).1.img
          (recOff fs.sb ino.id) 48 =
          inodeToBytes (write_loop fs ino (BLOCK_SIZE * k) data).2.1) ∧
      (∀ b0, InData fs.sb b0 → bitOf fs b0 = true →
        (∀ j, k ≤ j → j < 5 → get_block ino j ≠ some b0) →
        readBytes (write_loop fs ino (BLOCK_SIZE * k) data).1.img (b0 * BLOCK_SIZE)
          BLOCK_SIZE = readBytes fs.img (b0 * BLOCK_SIZE) BLOCK_SIZE) ∧
      (∃ m, ((write_loop fs ino (BLOCK_SIZE * k) data).2.2 = .ok () →
          data.length ≤ BLOCK_SIZE * m) ∧
        (∀ j, k ≤ j → j < k + m →
          ∃ b, get_block (write_loop fs ino (BLOCK_SIZE * k) data).2.1 j = some b ∧
            InData fs.sb b ∧
            readBytes (write_loop fs ino (BLOCK_SIZE * k) data).1.img (b * BLOCK_SIZE)
              (min BLOCK_SIZE (data.length - BLOCK_SIZE * (j - k))) =
            (data.drop (BLOCK_SIZE * (j - k))).take BLOCK_SIZE) ∧
        (∀ j, k + m ≤ j →
          (write_loop fs ino (BLOCK_SIZE * k) data).2.1.single_directs.getD j 0 =
            ino.single_directs.getD j 0)) := by
  intro n
  induction n with
  | zero =>
    intro data fs ino k hn hlay hwf
    have hdata : data = [] := by
      cases data with
      | nil => rfl
      | cons d ds => simp at hn
    subst hdata
    rw [write_loop_nil]
    exact ⟨hwf, fun j _ => rfl, fun h => by rw [h], fun b0 _ _ _ => rfl,
      ⟨0, fun _ => by simp, fun j h1 h2 => absurd h2 (by omega), fun j _ => rfl⟩⟩
  | succ n ih =>
    intro data fs ino k hn hlay hwf
    cases data with
    | nil =>
      rw [write_loop_nil]
      exact ⟨hwf, fun j _ => rfl, fun h => by rw [h], fun b0 _ _ _ => rfl,
        ⟨0, fun _ => by simp, fun j h1 h2 => absurd h2 (by omega), fun j _ => rfl⟩⟩
    | cons d ds =>
      have hdiv : BLOCK_SIZE * k / BLOCK_SIZE = k :=
        Nat.mul_div_cancel_left k (by decide)
      have hmod : BLOCK_SIZE * k % BLOCK_SIZE = 0 := Nat.mul_mod_right _ _
      by_cases hk : k ≥ 5
      · rw [write_loop_cons_large _ _ _ _ _ (by rw [hdiv]; exact hk)]
        exact ⟨hwf, fun j _ => rfl, fun h => by rw [h], fun b0 _ _ _ => rfl,
          ⟨0, fun h => by simp at h, fun j h1 h2 => absurd h2 (by omega),
            fun j _ => rfl⟩⟩
      · push_neg at hk
        obtain ⟨⟨h5, h6, hrange⟩, hidlt, hbits, hinj⟩ := hwf
        set tw := min (d :: ds).length BLOCK_SIZE with htw
        have htw1 : 1 ≤ tw := by
          rw [htw]
          simp only [List.length_cons, BLOCK_SIZE]
          omega
        have htwB : tw ≤ BLOCK_SIZE := by rw [htw]; omega
        have hlendrop : ((d :: ds).drop tw).length ≤ n := by
          simp only [List.length_drop, List.length_cons] at *
          omega
        have hrecgeo : recOff fs.sb ino.id + 48 ≤ fs.sb.block_start * BLOCK_SIZE := by
          obtain ⟨hlay1, hlay2⟩ := hlay
          unfold recOff BLOCK_SIZE INODE_SIZE at *
          omega
        cases hgb : get_block ino k with
        | some b =>
          have hsome := (get_block_some_iff ino k b).mp hgb
          have hbd : InData fs.sb b := by
            have := hrange k hk (by rw [hsome.2.1]; exact hsome.2.2)
            rwa [hsome.2.1] at this
          have hbbit : bitOf fs b = true := by
            have := hbits k hk (by rw [hsome.2.1]; exact hsome.2.2)
            rwa [hsome.2.1] at this
          have heq := write_loop_cons_existing fs ino (BLOCK_SIZE * k) d ds b
            (by rw [hdiv]; exact hk) (by rw [hdiv]; exact hgb)
          rw [hmod] at heq
          simp only [List.take_zero, List.nil_append, Nat.sub_zero, Nat.zero_add] at heq
          rw [← htw] at heq
          set blk1 := ((d :: ds).take tw ++
            (readBytes fs.img (b * BLOCK_SIZE) BLOCK_SIZE).drop tw) with hblk1
          set fs2 : FS := { fs with img := (writeBytes fs.img (b * BLOCK_SIZE) blk1) }
            with hfs2
          have hlen1 : blk1.length = BLOCK_SIZE := by
            rw [hblk1]
            simp only [List.length_append, List.length_take, List.length_drop,
              readBytes_length]
            omega
          have hre : write_loop fs2 ino (BLOCK_SIZE * k + tw) ((d :: ds).drop tw) =
              write_loop fs2 ino (BLOCK_SIZE * (k + 1)) ((d :: ds).drop tw) := by
            by_cases hcase : BLOCK_SIZE ≤ (d :: ds).length
            · have : tw = BLOCK_SIZE := by rw [htw]; omega
              rw [this, show BLOCK_SIZE * k + BLOCK_SIZE = BLOCK_SIZE * (k + 1) from
                by ring]
            · have hdropnil : (d :: ds).drop tw = [] := by
                apply List.drop_eq_nil_of_le
                rw [htw]; omega
              rw [hdropnil, write_loop_nil, write_loop_nil]
          rw [heq, hre]
          have hwf2 : WFIno fs2 ino := ⟨⟨h5, h6, hrange⟩, hidlt, hbits, hinj⟩
          obtain ⟨ihwf, ihptr, ihrec, ihframe, m, ihok, ihcontent, ihstab⟩ :=
            ih ((d :: ds).drop tw) fs2 ino (k + 1) hlendrop hlay hwf2
          have hrecdisj : readBytes fs2.img (recOff fs.sb ino.id) 48 =
              readBytes fs.img (recOff fs.sb ino.id) 48 := by
            show readBytes (writeBytes fs.img (b * BLOCK_SIZE) blk1) _ 48 = _
            apply readBytes_writeBytes_disjoint
            rw [hlen1]
            left
            have hb1 : fs.sb.block_start * BLOCK_SIZE ≤ b * BLOCK_SIZE :=
              Nat.mul_le_mul_right _ hbd.1
            omega
          refine ⟨ihwf, ?_, ?_, ?_, ?_⟩
          · intro j hj
            exact ihptr j (by omega)
          · intro hrec0
            exact ihrec (by rw [hrecdisj, hrec0])
          · intro b0 hb0d hb0bit hb0ptr
            have hb0ne : b0 ≠ b := by
              intro hcontra
              exact hb0ptr k le_rfl hk (by rw [hcontra]; exact hgb)
            have hstep : readBytes fs2.img (b0 * BLOCK_SIZE) BLOCK_SIZE =
                readBytes fs.img (b0 * BLOCK_SIZE) BLOCK_SIZE := by
              show readBytes (writeBytes fs.img (b * BLOCK_SIZE) blk1) _ _ = _
              apply readBytes_writeBytes_disjoint
              rw [hlen1]
              have hx : b0 < b ∨ b < b0 := by omega
              rcases hx with hx | hx
              · left
                have := Nat.mul_le_mul_right BLOCK_SIZE (by omega : b0 + 1 ≤ b)
                simp only [Nat.add_mul, one_mul] at this
                omega
              · right
                have := Nat.mul_le_mul_right BLOCK_SIZE (by omega : b + 1 ≤ b0)
                simp only [Nat.add_mul, one_mul] at this
                omega
            rw [← hstep]
            apply ihframe b0 hb0d hb0bit
            intro j hj1 hj2
            exact hb0ptr j (by omega) hj2
          · refine ⟨m + 1, ?_, ?_, ?_⟩
            · intro hok2
              have hbnd := ihok hok2
              simp only [List.length_drop, List.length_cons, BLOCK_SIZE] at hbnd htwB hn ⊢
              omega
            · intro j hj1 hj2
              by_cases hjk : j = k
              · subst hjk
                have hptrj : (write_loop fs2 ino (BLOCK_SIZE * (j + 1))
                    ((d :: ds).drop tw)).2.1.single_directs.getD j 0 =
                    ino.single_directs.getD j 0 := ihptr j (by omega)
                refine ⟨b, ?_, hbd, ?_⟩
                · rw [get_block_some_iff]
                  exact ⟨hk, by rw [hptrj]; exact hsome.2.1, hsome.2.2⟩
                · have huntouched : readBytes (write_loop fs2 ino
                      (BLOCK_SIZE * (j + 1)) ((d :: ds).drop tw)).1.img
                      (b * BLOCK_SIZE) BLOCK_SIZE =
                      readBytes fs2.img (b * BLOCK_SIZE) BLOCK_SIZE := by
                    apply ihframe b hbd hbbit
                    intro j2 hj21 hj22 hcontra
                    have h1 := (get_block_some_iff ino j2 b).mp hcontra
                    have hne1 : ino.single_directs.getD j2 0 ≠ 0 := by
                      rw [h1.2.1]
                      exact h1.2.2
                    have hne2 : ino.single_directs.getD j 0 ≠ 0 := by
                      rw [hsome.2.1]
                      exact hsome.2.2
                    exact hinj j2 hj22 j hk (by omega) hne1 hne2
                      (by rw [h1.2.1, hsome.2.1])
                  have hmin : min BLOCK_SIZE ((d :: ds).length - BLOCK_SIZE * (j - j)) ≤
                      BLOCK_SIZE := by omega
                  rw [readBytes_take_of_eq BLOCK_SIZE _ huntouched hmin]
                  have hpref : readBytes fs2.img (b * BLOCK_SIZE)
                      (min BLOCK_SIZE ((d :: ds).length - BLOCK_SIZE * (j - j))) =
                      blk1.take (min BLOCK_SIZE ((d :: ds).length - BLOCK_SIZE * (j - j))) := by
                    show readBytes (writeBytes fs.img (b * BLOCK_SIZE) blk1) _ _ = _
                    apply readBytes_writeBytes_prefix
                    rw [hlen1]
                    omega
                  rw [hpref]
                  have hsub : j - j = 0 := by omega
                  rw [hsub]
                  simp only [Nat.mul_zero, Nat.sub_zero, List.drop_zero]
                  rw [hblk1]
                  have htake : ((d :: ds).take tw ++
                      (readBytes fs.img (b * BLOCK_SIZE) BLOCK_SIZE).drop tw).take
                      (min BLOCK_SIZE (d :: ds).length) =
                      ((d :: ds).take tw).take (min BLOCK_SIZE (d :: ds).length) := by
                    apply List.take_append_of_le_length
                    simp only [List.length_take]
                    omega
                  rw [htake, List.take_take]
                  rw [show min (min BLOCK_SIZE (d :: ds).length) tw = min (d :: ds).length
                    BLOCK_SIZE from by omega]
                  rw [take_min_length]
              · obtain ⟨bj, hbj1, hbj2, hbj3⟩ := ihcontent j (by omega) (by omega)
                refine ⟨bj, hbj1, hbj2, ?_⟩
                by_cases hcase : BLOCK_SIZE ≤ (d :: ds).length
                · have htwB2 : tw = BLOCK_SIZE := by rw [htw]; omega
                  have e1 : min BLOCK_SIZE (((d :: ds).drop tw).length -
                      BLOCK_SIZE * (j - (k + 1))) =
                      min BLOCK_SIZE ((d :: ds).length - BLOCK_SIZE * (j - k)) := by
                    simp only [List.length_drop]
                    have hmul : BLOCK_SIZE * (j - k) =
                        BLOCK_SIZE + BLOCK_SIZE * (j - (k + 1)) := by
                      have hjj : j - k = (j - (k + 1)) + 1 := by omega
                      rw [hjj]
                      ring
                    omega
                  have e2 : ((d :: ds).drop tw).drop (BLOCK_SIZE * (j - (k + 1))) =
                      (d :: ds).drop (BLOCK_SIZE * (j - k)) := by
                    rw [List.drop_drop]
                    have hmul : BLOCK_SIZE * (j - k) =
                        BLOCK_SIZE + BLOCK_SIZE * (j - (k + 1)) := by
                      have hjj : j - k = (j - (k + 1)) + 1 := by omega
                      rw [hjj]
                      ring
                    rw [hmul, htwB2]
                  rw [e1, e2] at hbj3
                  exact hbj3
                · push_neg at hcase
                  have htarget : min BLOCK_SIZE ((d :: ds).length -
                      BLOCK_SIZE * (j - k)) = 0 := by
                    have : BLOCK_SIZE ≤ BLOCK_SIZE * (j - k) :=
                      Nat.le_mul_of_pos_right _ (by omega)
                    omega
                  rw [htarget]
                  have hdropnil2 : (d :: ds).drop (BLOCK_SIZE * (j - k)) = [] := by
                    apply List.drop_eq_nil_of_le
                    have : BLOCK_SIZE ≤ BLOCK_SIZE * (j - k) :=
                      Nat.le_mul_of_pos_right _ (by omega)
                    simp only [List.length_cons] at *
                    omega
                  rw [hdropnil2]
                  simp [readBytes]
            · intro j hj
              exact ihstab j (by omega)
        | none =>
          have hz : ino.single_directs.getD k 0 = 0 :=
            (get_block_none_iff_lt _ _ hk).mp hgb
          cases halloc : fs_alloc_block fs with
          | mk fs1 ob =>
            cases ob with
            | none =>
              have hfs1 : fs1 = fs := fs_alloc_block_none _ _ halloc
              rw [write_loop_cons_alloc_fail fs fs1 ino (BLOCK_SIZE * k) d ds
                (by rw [hdiv]; exact hk) (by rw [hdiv]; exact hz) halloc, hfs1]
              exact ⟨⟨⟨h5, h6, hrange⟩, hidlt, hbits, hinj⟩, fun j _ => rfl,
                fun h => by rw [h], fun b0 _ _ _ => rfl,
                ⟨0, fun h => by simp at h, fun j h1 h2 => absurd h2 (by omega),
                  fun j _ => rfl⟩⟩
            | some b =>
              obtain ⟨himg1, hsb1, _, _, hbmlen, hbd, hfree, hset, hmono⟩ :=
                fs_alloc_block_some fs fs1 b halloc
              have hid : ino.id < fs1.sb.inode_count := by rw [hsb1]; exact hidlt
              set ino1 : Inode := { ino with single_directs :=
                (ino.single_directs.set k b) } with hino1
              have hidq : ino1.id = ino.id := rfl
              have hbnz : b ≠ 0 := by
                have := hbd.1
                obtain ⟨hlay1, _⟩ := hlay
                omega
              have hptrk : ino1.single_directs.getD k 0 = b := by
                rw [hino1]
                exact getD_set_self _ _ _ (by rw [h5]; exact hk)
              have hptrne : ∀ j, j ≠ k → ino1.single_directs.getD j 0 =
                  ino.single_directs.getD j 0 := by
                intro j hj
                rw [hino1]
                exact getD_set_ne _ _ _ _ hj
              have heq := write_loop_cons_alloc_ok fs fs1 ino (BLOCK_SIZE * k) d ds b
                (by rw [hdiv]; exact hk) (by rw [hdiv]; exact hz) halloc hid
              rw [hmod, hdiv] at heq
              simp only [List.take_zero, List.nil_append, Nat.sub_zero, Nat.zero_add] at heq
              rw [← htw] at heq
              set blkz := ((d :: ds).take tw ++
                (List.replicate BLOCK_SIZE 0).drop tw) with hblkz
              set fs3 : FS := { fs1 with img :=
                (writeBytes
                  (writeBytes fs1.img (recOff fs1.sb ino.id) (inodeToBytes ino1))
                  (b * BLOCK_SIZE) blkz) } with hfs3
              have hsb3 : fs3.sb = fs.sb := hsb1
              have hlenz : blkz.length = BLOCK_SIZE := by
                rw [hblkz]
                simp only [List.length_append, List.length_take, List.length_drop,
                  List.length_replicate]
                omega
              have hlen5a : ino1.single_directs.length = 5 := by
                rw [hino1]; simp [h5]
              have hlen48 : (inodeToBytes ino1).length = 48 :=
                inodeToBytes_length _ hlen5a h6
              have hrec1 : recOff fs1.sb ino.id = recOff fs.sb ino.id := by rw [hsb1]
              have hwf3 : WFIno fs3 ino1 := by
                refine ⟨⟨hlen5a, h6, ?_⟩, ?_, ?_, ?_⟩
                · intro i hi hnz
                  by_cases hik : i = k
                  · subst hik
                    rw [hptrk] at *
                    show InData fs3.sb b
                    rw [hsb3]
                    exact hbd
                  · rw [hptrne i hik] at *
                    show InData fs3.sb _
                    rw [hsb3]
                    exact hrange i hi hnz
                · show ino1.id < fs3.sb.inode_count
                  rw [hidq, hsb3]
                  exact hidlt
                · intro i hi hnz
                  show bitOf fs3 _ = true
                  unfold bitOf
                  have hbm3 : fs3.data_bitmap = fs1.data_bitmap := rfl
                  have hbs3 : fs3.sb.block_start = fs.sb.block_start := by rw [hsb3]
                  rw [hbm3, hbs3]
                  by_cases hik : i = k
                  · subst hik
                    rw [hptrk] at *
                    exact hset
                  · rw [hptrne i hik] at *
                    exact hmono _ (hbits i hi hnz)
                · intro i hi j hj hij hnzi hnzj
                  by_cases hik : i = k
                  · subst hik
                    rw [hptrk, hptrne j (by omega)] at *
                    intro hcontra
                    have : bitOf fs b = true := by rw [hcontra]; exact hbits j hj hnzj
                    rw [hfree] at this
                    simp at this
                  · by_cases hjk : j = k
                    · subst hjk
                      rw [hptrk, hptrne i hik] at *
                      intro hcontra
                      have : bitOf fs b = true := by rw [← hcontra]; exact hbits i hi hnzi
                      rw [hfree] at this
                      simp at this
                    · rw [hptrne i hik, hptrne j hjk] at *
                      exact hinj i hi j hj hij hnzi hnzj
              have hre : write_loop fs3 ino1 (BLOCK_SIZE * k + tw) ((d :: ds).drop tw) =
                  write_loop fs3 ino1 (BLOCK_SIZE * (k + 1)) ((d :: ds).drop tw) := by
                by_cases hcase : BLOCK_SIZE ≤ (d :: ds).length
                · have : tw = BLOCK_SIZE := by rw [htw]; omega
                  rw [this, show BLOCK_SIZE * k + BLOCK_SIZE = BLOCK_SIZE * (k + 1) from
                    by ring]
                · have hdropnil : (d :: ds).drop tw = [] := by
                    apply List.drop_eq_nil_of_le
                    rw [htw]; omega
                  rw [hdropnil, write_loop_nil, write_loop_nil]
              rw [heq, hre]
              obtain ⟨ihwf, ihptr, ihrec, ihframe, m, ihok, ihcontent, ihstab⟩ :=
                ih ((d :: ds).drop tw) fs3 ino1 (k + 1) hlendrop (hsb3.symm ▸ hlay) hwf3
              rw [hsb3] at ihframe
              rw [hsb3, hidq] at ihrec
              have hrecfs3 : readBytes fs3.img (recOff fs.sb ino.id) 48 =
                  inodeToBytes ino1 := by
                show readBytes (writeBytes
                  (writeBytes fs1.img (recOff fs1.sb ino.id) (inodeToBytes ino1))
                  (b * BLOCK_SIZE) blkz) _ 48 = _
                rw [readBytes_writeBytes_disjoint _ _ _ _ _ (by
                  rw [hlenz]
                  left
                  have hb1 : fs.sb.block_start * BLOCK_SIZE ≤ b * BLOCK_SIZE :=
                    Nat.mul_le_mul_right _ hbd.1
                  omega)]
                rw [hrec1]
                have := readBytes_writeBytes_self fs1.img (recOff fs.sb ino.id)
                  (inodeToBytes ino1)
                rwa [hlen48] at this
              have hwfgoal : WFIno (write_loop fs3 ino1 (BLOCK_SIZE * (k + 1))
                  ((d :: ds).drop tw)).1 (write_loop fs3 ino1 (BLOCK_SIZE * (k + 1))
                  ((d :: ds).drop tw)).2.1 := ihwf
              refine ⟨hwfgoal, ?_, ?_, ?_, ?_⟩
              · intro j hj
                rw [ihptr j (by omega), hptrne j (by omega)]
              · intro _
                exact ihrec hrecfs3
              · intro b0 hb0d hb0bit hb0ptr
                have hb0ne : b0 ≠ b := by
                  intro hcontra
                  rw [hcontra] at hb0bit
                  rw [hfree] at hb0bit
                  simp at hb0bit
                have hb0bit1 : bitmap_is_set fs1.data_bitmap
                    (b0 - fs.sb.block_start) = true := hmono _ hb0bit
                have hb0bit3 : bitOf fs3 b0 = true := by
                  show bitmap_is_set fs3.data_bitmap (b0 - fs3.sb.block_start) = true
                  have e1 : fs3.data_bitmap = fs1.data_bitmap := rfl
                  have e2 : fs3.sb.block_start = fs.sb.block_start := by rw [hsb3]
                  rw [e1, e2]
                  exact hb0bit1
                have hstep : readBytes fs3.img (b0 * BLOCK_SIZE) BLOCK_SIZE =
                    readBytes fs.img (b0 * BLOCK_SIZE) BLOCK_SIZE := by
                  show readBytes (writeBytes
                    (writeBytes fs1.img (recOff fs1.sb ino.id) (inodeToBytes ino1))
                    (b * BLOCK_SIZE) blkz) (b0 * BLOCK_SIZE) BLOCK_SIZE = _
                  rw [readBytes_writeBytes_disjoint _ _ _ _ _ (by
                    rw [hlenz]
                    have hx : b0 < b ∨ b < b0 := by omega
                    rcases hx with hx | hx
                    · left
                      have := Nat.mul_le_mul_right BLOCK_SIZE (by omega : b0 + 1 ≤ b)
                      simp only [Nat.add_mul, one_mul] at this
                      omega
                    · right
                      have := Nat.mul_le_mul_right BLOCK_SIZE (by omega : b + 1 ≤ b0)
                      simp only [Nat.add_mul, one_mul] at this
                      omega)]
                  rw [readBytes_writeBytes_disjoint _ _ _ _ _ (by
                    rw [hlen48, hrec1]
                    have hb1 : fs.sb.block_start * BLOCK_SIZE ≤ b0 * BLOCK_SIZE :=
                      Nat.mul_le_mul_right _ hb0d.1
                    right
                    omega)]
                  rw [himg1]
                rw [← hstep]
                apply ihframe b0 hb0d hb0bit3
                intro j hj1 hj2
                rw [get_block_set_ne ino k b j (by omega)]
                exact hb0ptr j (by omega) hj2
              · refine ⟨m + 1, ?_, ?_, ?_⟩
                · intro hok2
                  have hbnd := ihok hok2
                  simp only [List.length_drop, List.length_cons, BLOCK_SIZE] at hbnd htwB hn ⊢
                  omega
                · intro j hj1 hj2
                  by_cases hjk : j = k
                  · subst hjk
                    have hptrj : (write_loop fs3 ino1 (BLOCK_SIZE * (j + 1))
                        ((d :: ds).drop tw)).2.1.single_directs.getD j 0 =
                        ino1.single_directs.getD j 0 := ihptr j (by omega)
                    have hbbit3 : bitOf fs3 b = true := by
                      show bitmap_is_set fs3.data_bitmap (b - fs3.sb.block_start) = true
                      have e1 : fs3.data_bitmap = fs1.data_bitmap := rfl
                      have e2 : fs3.sb.block_start = fs.sb.block_start := by rw [hsb3]
                      rw [e1, e2]
                      exact hset
                    refine ⟨b, ?_, hbd, ?_⟩
                    · rw [get_block_some_iff]
                      exact ⟨hk, by rw [hptrj]; exact hptrk, hbnz⟩
                    · have hbd3 : InData fs3.sb b := by rw [hsb3]; exact hbd
                      have huntouched : readBytes (write_loop fs3 ino1
                          (BLOCK_SIZE * (j + 1)) ((d :: ds).drop tw)).1.img
                          (b * BLOCK_SIZE) BLOCK_SIZE =
                          readBytes fs3.img (b * BLOCK_SIZE) BLOCK_SIZE := by
                        apply ihframe b hbd hbbit3
                        intro j2 hj21 hj22 hcontra
                        rw [get_block_set_ne ino j b j2 (by omega)] at hcontra
                        have := (get_block_some_iff ino j2 b).mp hcontra
                        have hbits2 : bitOf fs b = true := by
                          rw [← this.2.1]
                          exact hbits j2 hj22 (by rw [this.2.1]; exact this.2.2)
                        rw [hfree] at hbits2
                        simp at hbits2
                      have hmin : min BLOCK_SIZE ((d :: ds).length -
                          BLOCK_SIZE * (j - j)) ≤ BLOCK_SIZE := by omega
                      rw [readBytes_take_of_eq BLOCK_SIZE _ huntouched hmin]
                      have hpref : readBytes fs3.img (b * BLOCK_SIZE)
                          (min BLOCK_SIZE ((d :: ds).length - BLOCK_SIZE * (j - j))) =
                          blkz.take (min BLOCK_SIZE ((d :: ds).length -
                            BLOCK_SIZE * (j - j))) := by
                        show readBytes (writeBytes
                          (writeBytes fs1.img (recOff fs1.sb ino.id)
                            (inodeToBytes ino1)) (b * BLOCK_SIZE) blkz)
                          (b * BLOCK_SIZE) _ = _
                        apply readBytes_writeBytes_prefix
                        rw [hlenz]
                        omega
                      rw [hpref]
                      have hsub : j - j = 0 := by omega
                      rw [hsub]
                      simp only [Nat.mul_zero, Nat.sub_zero, List.drop_zero]
                      rw [hblkz]
                      have htake : ((d :: ds).take tw ++
                          (List.replicate BLOCK_SIZE 0).drop tw).take
                          (min BLOCK_SIZE (d :: ds).length) =
                          ((d :: ds).take tw).take (min BLOCK_SIZE (d :: ds).length) := by
                        apply List.take_append_of_le_length
                        simp only [List.length_take]
                        omega
                      rw [htake, List.take_take]
                      rw [show min (min BLOCK_SIZE (d :: ds).length) tw =
                        min (d :: ds).length BLOCK_SIZE from by omega]
                      rw [take_min_length]
                  · obtain ⟨bj, hbj1, hbj2, hbj3⟩ := ihcontent j (by omega) (by omega)
                    have hbj2' : InData fs.sb bj := by rw [← hsb3]; exact hbj2
                    refine ⟨bj, hbj1, hbj2', ?_⟩
                    by_cases hcase : BLOCK_SIZE ≤ (d :: ds).length
                    · have htwB2 : tw = BLOCK_SIZE := by rw [htw]; omega
                      have e1 : min BLOCK_SIZE (((d :: ds).drop tw).length -
                          BLOCK_SIZE * (j - (k + 1))) =
                          min BLOCK_SIZE ((d :: ds).length - BLOCK_SIZE * (j - k)) := by
                        simp only [List.length_drop]
                        have hmul : BLOCK_SIZE * (j - k) =
                            BLOCK_SIZE + BLOCK_SIZE * (j - (k + 1)) := by
                          have hjj : j - k = (j - (k + 1)) + 1 := by omega
                          rw [hjj]
                          ring
                        omega
                      have e2 : ((d :: ds).drop tw).drop
                          (BLOCK_SIZE * (j - (k + 1))) =
                          (d :: ds).drop (BLOCK_SIZE * (j - k)) := by
                        rw [List.drop_drop]
                        have hmul : BLOCK_SIZE * (j - k) =
                            BLOCK_SIZE + BLOCK_SIZE * (j - (k + 1)) := by
                          have hjj : j - k = (j - (k + 1)) + 1 := by omega
                          rw [hjj]
                          ring
                        rw [hmul, htwB2]
                      rw [e1, e2] at hbj3
                      exact hbj3
                    · push_neg at hcase
                      have htarget : min BLOCK_SIZE ((d :: ds).length -
                          BLOCK_SIZE * (j - k)) = 0 := by
                        have : BLOCK_SIZE ≤ BLOCK_SIZE * (j - k) :=
                          Nat.le_mul_of_pos_right _ (by omega)
                        omega
                      rw [htarget]
                      have hdropnil2 : (d :: ds).drop (BLOCK_SIZE * (j - k)) = [] := by
                        apply List.drop_eq_nil_of_le
                        have : BLOCK_SIZE ≤ BLOCK_SIZE * (j - k) :=
                          Nat.le_mul_of_pos_right _ (by omega)
                        simp only [List.length_cons] at *
                        omega
                      rw [hdropnil2]
                      simp [readBytes]
                · intro j hj
                  rw [ihstab j (by omega)]
                  exact hptrne j (by omega)

theorem read_loop_zero (fs : FS) (ino : Inode) (cursor : Nat) :
    read_loop fs ino cursor 0 = .ok [] := by
  rw [read_loop]
  rfl

theorem read_loop_pos (fs : FS) (ino : Inode) (cursor remaining b : Nat)
    (hr : remaining ≠ 0) (hgb : get_block ino (cursor / BLOCK_SIZE) = some b) :
    read_loop fs ino cursor remaining =
      match read_loop fs ino
          (cursor + min remaining (BLOCK_SIZE - cursor % BLOCK_SIZE))
          (remaining - min remaining (BLOCK_SIZE - cursor % BLOCK_SIZE)) with
      | .ok rest => .ok
          (((readBytes fs.img (b * BLOCK_SIZE) BLOCK_SIZE).drop
              (cursor % BLOCK_SIZE)).take
            (min remaining (BLOCK_SIZE - cursor % BLOCK_SIZE)) ++ rest)
      | .error e => .error e := by
  conv_lhs => rw [read_loop]
  simp only [dif_neg hr, hgb]

theorem read_loop_ok :
    ∀ (n : Nat) (D : List Nat) (fs : FS) (ino : Inode) (k : Nat),
      D.length ≤ n →
      (∀ j, k ≤ j → BLOCK_SIZE * (j - k) < D.length →
        ∃ b, get_block ino j = some b ∧
          readBytes fs.img (b * BLOCK_SIZE)
            (min BLOCK_SIZE (D.length - BLOCK_SIZE * (j - k))) =
          (D.drop (BLOCK_SIZE * (j - k))).take BLOCK_SIZE) →
      read_loop fs ino (BLOCK_SIZE * k) D.length = .ok D := by
  intro n
  induction n with
  | zero =>
    intro D fs ino k hn hyp
    have hD : D = [] := by
      cases D with
      | nil => rfl
      | cons d ds => simp at hn
    subst hD
    exact read_loop_zero _ _ _
  | succ n ih =>
    intro D fs ino k hn hyp
    cases D with
    | nil => exact read_loop_zero _ _ _
    | cons d ds =>
      have hdiv : BLOCK_SIZE * k / BLOCK_SIZE = k :=
        Nat.mul_div_cancel_left _ (by decide)
      have hmod : BLOCK_SIZE * k % BLOCK_SIZE = 0 := Nat.mul_mod_right _ _
      obtain ⟨b, hgb, hcontent⟩ := hyp k le_rfl
        (by simp [Nat.sub_self])
      simp only [Nat.sub_self, Nat.mul_zero, Nat.sub_zero, List.drop_zero]
        at hcontent
      rw [read_loop_pos fs ino (BLOCK_SIZE * k) (d :: ds).length b
        (by simp) (by rw [hdiv]; exact hgb)]
      rw [hmod]
      simp only [Nat.sub_zero, List.drop_zero]
      by_cases hcase : (d :: ds).length ≤ BLOCK_SIZE
      · rw [min_eq_left hcase, Nat.sub_self, read_loop_zero]
        show Except.ok
            ((readBytes fs.img (b * BLOCK_SIZE) BLOCK_SIZE).take
              (d :: ds).length ++ ([] : List Nat)) = Except.ok (d :: ds)
        rw [List.append_nil, readBytes_take _ _ _ _ hcase]
        rw [min_eq_right hcase] at hcontent
        rw [List.take_of_length_le hcase] at hcontent
        rw [hcontent]
      · push_neg at hcase
        rw [min_eq_right hcase.le]
        have harith : BLOCK_SIZE * k + BLOCK_SIZE = BLOCK_SIZE * (k + 1) := by
          ring
        have hlen2 : (d :: ds).length - BLOCK_SIZE =
            ((d :: ds).drop BLOCK_SIZE).length := by
          simp [List.length_drop]
        rw [harith, hlen2]
        have hihyp : ∀ j, k + 1 ≤ j →
            BLOCK_SIZE * (j - (k + 1)) < ((d :: ds).drop BLOCK_SIZE).length →
            ∃ b2, get_block ino j = some b2 ∧
              readBytes fs.img (b2 * BLOCK_SIZE)
                (min BLOCK_SIZE (((d :: ds).drop BLOCK_SIZE).length -
                  BLOCK_SIZE * (j - (k + 1)))) =
              (((d :: ds).drop BLOCK_SIZE).drop
                (BLOCK_SIZE * (j - (k + 1)))).take BLOCK_SIZE := by
          intro j hj hjlen
          have hmul : BLOCK_SIZE * (j - k) =
              BLOCK_SIZE + BLOCK_SIZE * (j - (k + 1)) := by
            have hjj : j - k = (j - (k + 1)) + 1 := by omega
            rw [hjj]
            ring
          simp only [List.length_drop] at hjlen
          obtain ⟨b2, hb2, hc2⟩ := hyp j (by omega) (by omega)
          refine ⟨b2, hb2, ?_⟩
          have e1 : min BLOCK_SIZE (((d :: ds).drop BLOCK_SIZE).length -
              BLOCK_SIZE * (j - (k + 1))) =
              min BLOCK_SIZE ((d :: ds).length - BLOCK_SIZE * (j - k)) := by
            simp only [List.length_drop]
            omega
          have e2 : ((d :: ds).drop BLOCK_SIZE).drop
              (BLOCK_SIZE * (j - (k + 1))) =
              (d :: ds).drop (BLOCK_SIZE * (j - k)) := by
            rw [List.drop_drop, ← hmul]
          rw [e1, e2]
          exact hc2
        have hih := ih ((d :: ds).drop BLOCK_SIZE) fs ino (k + 1)
          (by
            simp only [List.length_drop, List.length_cons, BLOCK_SIZE] at hn ⊢
            omega) hihyp
        rw [hih]
        show Except.ok
            ((readBytes fs.img (b * BLOCK_SIZE) BLOCK_SIZE).take BLOCK_SIZE ++
              (d :: ds).drop BLOCK_SIZE) = Except.ok (d :: ds)
        rw [readBytes_take _ _ _ _ le_rfl]
        rw [min_eq_left hcase.le] at hcontent
        rw [hcontent, List.take_append_drop]

theorem get_block_size_update (ino : Inode) (s j : Nat) :
    get_block { ino with file_size := s } j = get_block ino j := rfl

/-- C3: write-then-read round-trip. If `write_file_range` at offset 0 with
buffer `D` succeeds on a well-formed inode, then `read_file_range` over
`[0, |D|)` on the resulting state and inode succeeds and returns exactly
`D` (filesystem.rs `write_file_range` / `read_file_range`). -/
theorem c3_write_read_roundtrip (fs : FS) (ino : Inode) (data : List Nat)
    (hlay : LayoutWF fs.sb) (hwf : WFIno fs ino)
    (hok : (write_file_range fs ino 0 data).2.2 = .ok ()) :
    read_file_range (write_file_range fs ino 0 data).1
      (write_file_range fs ino 0 data).2.1 0 data.length = .ok data := by
  have hal := write_loop_aligned data.length data fs ino 0 le_rfl hlay hwf
  have hef := write_loop_effects data.length data fs ino 0 le_rfl hlay hwf.1
  simp only [Nat.mul_zero, Nat.sub_zero, Nat.zero_add] at hal
  obtain ⟨hwfW, _, _, _, m, hmok, hcontent, _⟩ := hal
  obtain ⟨hsbW, _, _, _, _⟩ := hef
  unfold write_file_range at hok ⊢
  cases hloop : write_loop fs ino 0 data with
  | mk fs1 p =>
    cases p with
    | mk ino1 r =>
      rw [hloop] at hok hwfW hmok hcontent hsbW
      simp only at hok hwfW hmok hcontent hsbW
      cases r with
      | error e => simp at hok
      | ok u =>
        cases u
        simp only at hok ⊢
        have hmlen : data.length ≤ BLOCK_SIZE * m := hmok rfl
        have hid1 : ino1.id < fs1.sb.inode_count := hwfW.2.1
        have hhyp : ∀ (fsR : FS), fsR.img = fs1.img →
            ∀ j, 0 ≤ j → BLOCK_SIZE * (j - 0) < data.length →
            ∃ b, get_block ino1 j = some b ∧
              readBytes fsR.img (b * BLOCK_SIZE)
                (min BLOCK_SIZE (data.length - BLOCK_SIZE * (j - 0))) =
              (data.drop (BLOCK_SIZE * (j - 0))).take BLOCK_SIZE := by
          intro fsR hfsR j _ hjlen
          simp only [Nat.sub_zero] at hjlen ⊢
          have hjm : j < m := by
            by_contra hcon
            push_neg at hcon
            have : BLOCK_SIZE * m ≤ BLOCK_SIZE * j :=
              Nat.mul_le_mul_left _ hcon
            omega
          obtain ⟨b, hgb, _, hbytes⟩ := hcontent j (Nat.zero_le j) hjm
          exact ⟨b, hgb, by rw [hfsR]; exact hbytes⟩
        by_cases hgrow : 0 + data.length > ino1.file_size
        · rw [if_pos hgrow]
          unfold fs_write_inode
          rw [if_neg (by
            show ¬ ino1.id ≥ fs1.sb.inode_count
            omega)]
          simp only
          unfold read_file_range
          rw [if_neg (by
            show ¬ 0 + data.length >
              ({ ino1 with file_size := 0 + data.length } : Inode).file_size
            exact lt_irrefl _)]
          have hlen5 : ino1.single_directs.length = 5 := hwfW.1.1
          have hlen6 : ino1._reserved.length = 6 := hwfW.1.2.1
          have hlen48 : (inodeToBytes
              { ino1 with file_size := 0 + data.length }).length = 48 :=
            inodeToBytes_length _ hlen5 hlen6
          have hcore := read_loop_ok data.length data
            { fs1 with img := (writeBytes fs1.img
                (recOff fs1.sb ({ ino1 with file_size := 0 + data.length} : Inode).id)
                (inodeToBytes { ino1 with file_size := 0 + data.length })) }
            { ino1 with file_size := 0 + data.length } 0 le_rfl ?_
          · rw [Nat.mul_zero] at hcore
            exact hcore
          · intro j hj hjlen
            simp only [Nat.sub_zero] at hjlen ⊢
            have hjm : j < m := by
              by_contra hcon
              push_neg at hcon
              have : BLOCK_SIZE * m ≤ BLOCK_SIZE * j :=
                Nat.mul_le_mul_left _ hcon
              omega
            obtain ⟨b, hgb, hbInData, hbytes⟩ := hcontent j (Nat.zero_le j) hjm
            refine ⟨b, by rw [get_block_size_update]; exact hgb, ?_⟩
            have hgeo : recOff fs.sb ino1.id + 48 ≤ b * BLOCK_SIZE := by
              have h1 : fs.sb.block_start * BLOCK_SIZE ≤ b * BLOCK_SIZE :=
                Nat.mul_le_mul_right _ hbInData.1
              have h2 := hlay.2
              have h3 : ino1.id < fs.sb.inode_count := by rw [← hsbW]; exact hid1
              unfold recOff INODE_SIZE BLOCK_SIZE at *
              omega
            show readBytes (writeBytes fs1.img (recOff fs1.sb ino1.id)
                (inodeToBytes { ino1 with file_size := 0 + data.length })) _ _ = _
            rw [readBytes_writeBytes_disjoint _ _ _ _ _
              (Or.inr (by rw [hlen48, hsbW]; exact hgeo))]
            exact hbytes
        · rw [if_neg hgrow]
          simp only
          unfold read_file_range
          rw [if_neg hgrow]
          have hcore := read_loop_ok data.length data fs1 ino1 0 le_rfl
            (hhyp fs1 rfl)
          rw [Nat.mul_zero] at hcore
          exact hcore

def sbC3 : Superblock :=
  { fs_size := 40960, magic := [122, 111, 115, 33], root_inode_id := 0,
    bitmap_start := 0, bitmap_count := 1, block_start := 1, block_count := 8,
    inode_start := 0, inode_count := 1 }

def inoC3 : Inode :=
  { file_size := 0, id := 0, single_directs := [1, 0, 0, 0, 0],
    single_indirect := 0, double_indirect := 0, file_type := 0,
    link_count := 1, _reserved := [0, 0, 0, 0, 0, 0] }

def fsC3 : FS :=
  { img := fun _ => 0, sb := sbC3, data_bitmap := [1], bitmap_dirty := false,
    cwd_inode := 0, cwd_stack := [] }

theorem c3_hok : (write_file_range fsC3 inoC3 0 [9]).2.2 = .ok () := by
  unfold write_file_range
  rw [write_loop_cons_existing fsC3 inoC3 0 9 [] 1 (by decide) (by decide)]
  rw [show (9 :: ([] : List Nat)).drop
      (min (9 :: ([] : List Nat)).length (BLOCK_SIZE - 0 % BLOCK_SIZE)) = []
    from by decide]
  rw [write_loop_nil]
  rfl

theorem c3_write_read_roundtrip_witness :
    LayoutWF fsC3.sb ∧ WFIno fsC3 inoC3 ∧
    (write_file_range fsC3 inoC3 0 [9]).2.2 = .ok () ∧
    read_file_range (write_file_range fsC3 inoC3 0 [9]).1
      (write_file_range fsC3 inoC3 0 [9]).2.1 0 (9 :: ([] : List Nat)).length =
      .ok [9] :=
  ⟨by decide, by decide, c3_hok,
    c3_write_read_roundtrip fsC3 inoC3 [9] (by decide) (by decide) c3_hok⟩

/-- C4: when `write_file_range` fails with `NoSpace` because block
allocation is exhausted mid-write, the data-block writes performed before
the failure remain in the image, the returned inode carries the block
pointers assigned so far (pointers beyond the failure point are
untouched), and the on-disk inode record reflects the returned inode
(filesystem.rs `get_or_alloc_block` persists each new pointer before the
data block is written). -/
theorem c4_nospace_partial_writes_persist (fs : FS) (ino : Inode)
    (data : List Nat) (hlay : LayoutWF fs.sb) (hwf : WFIno fs ino)
    (hrec : readBytes fs.img (recOff fs.sb ino.id) 48 = inodeToBytes ino)
    (herr : (write_file_range fs ino 0 data).2.2 = .error .noSpace) :
    readBytes (write_file_range fs ino 0 data).1.img
        (recOff fs.sb ino.id) 48 =
      inodeToBytes (write_file_range fs ino 0 data).2.1 ∧
    ∃ m, (∀ j, j < m →
        ∃ b, get_block (write_file_range fs ino 0 data).2.1 j = some b ∧
          InData fs.sb b ∧
          readBytes (write_file_range fs ino 0 data).1.img (b * BLOCK_SIZE)
            (min BLOCK_SIZE (data.length - BLOCK_SIZE * j)) =
          (data.drop (BLOCK_SIZE * j)).take BLOCK_SIZE) ∧
      (∀ j, m ≤ j →
        (write_file_range fs ino 0 data).2.1.single_directs.getD j 0 =
          ino.single_directs.getD j 0) := by
  have hal := write_loop_aligned data.length data fs ino 0 le_rfl hlay hwf
  simp only [Nat.mul_zero, Nat.sub_zero, Nat.zero_add] at hal
  obtain ⟨_, _, hrecW, _, m, _, hcontent, hstab⟩ := hal
  unfold write_file_range at herr ⊢
  cases hloop : write_loop fs ino 0 data with
  | mk fs1 p =>
    cases p with
    | mk ino1 r =>
      rw [hloop] at herr hrecW hcontent hstab
      simp only at herr hrecW hcontent hstab
      cases r with
      | ok u =>
        cases u
        exfalso
        simp only at herr
        by_cases hgrow : 0 + data.length > ino1.file_size
        · rw [if_pos hgrow] at herr
          unfold fs_write_inode at herr
          by_cases hc : ({ ino1 with file_size := 0 + data.length } : Inode).id ≥
              fs1.sb.inode_count
          · rw [if_pos hc] at herr
            simp at herr
          · rw [if_neg hc] at herr
            simp at herr
        · rw [if_neg hgrow] at herr
          simp at herr
      | error e =>
        simp only
        refine ⟨hrecW hrec, m, ?_, ?_⟩
        · intro j hj
          exact hcontent j (Nat.zero_le j) hj
        · intro j hj
          exact hstab j hj

def sbC4 : Superblock :=
  { fs_size := 40960, magic := [122, 111, 115, 33], root_inode_id := 0,
    bitmap_start := 0, bitmap_count := 1, block_start := 1, block_count := 8,
    inode_start := 0, inode_count := 1 }

def inoC4 : Inode :=
  { file_size := 0, id := 0, single_directs := [0, 0, 0, 0, 0],
    single_indirect := 0, double_indirect := 0, file_type := 0,
    link_count := 1, _reserved := [0, 0, 0, 0, 0, 0] }

def fsC4 : FS :=
  { img := fun a => if a = 41 then 1 else 0, sb := sbC4,
    data_bitmap := [255], bitmap_dirty := false, cwd_inode := 0,
    cwd_stack := [] }

theorem c4_herr : (write_file_range fsC4 inoC4 0 [9]).2.2 = .error .noSpace := by
  unfold write_file_range
  rw [write_loop_cons_alloc_fail fsC4 fsC4 inoC4 0 9 [] (by decide) (by decide)
    rfl]

theorem c4_nospace_partial_writes_persist_witness :
    LayoutWF fsC4.sb ∧ WFIno fsC4 inoC4 ∧
    readBytes fsC4.img (recOff fsC4.sb inoC4.id) 48 = inodeToBytes inoC4 ∧
    (write_file_range fsC4 inoC4 0 [9]).2.2 = .error .noSpace ∧
    (readBytes (write_file_range fsC4 inoC4 0 [9]).1.img
        (recOff fsC4.sb inoC4.id) 48 =
      inodeToBytes (write_file_range fsC4 inoC4 0 [9]).2.1 ∧
    ∃ m, (∀ j, j < m →
        ∃ b, get_block (write_file_range fsC4 inoC4 0 [9]).2.1 j = some b ∧
          InData fsC4.sb b ∧
          readBytes (write_file_range fsC4 inoC4 0 [9]).1.img (b * BLOCK_SIZE)
            (min BLOCK_SIZE ((9 :: ([] : List Nat)).length - BLOCK_SIZE * j)) =
          ((9 :: ([] : List Nat)).drop (BLOCK_SIZE * j)).take BLOCK_SIZE) ∧
      (∀ j, m ≤ j →
        (write_file_range fsC4 inoC4 0 [9]).2.1.single_directs.getD j 0 =
          inoC4.single_directs.getD j 0)) :=
  ⟨by decide, by decide, by decide, c4_herr,
    c4_nospace_partial_writes_persist fsC4 inoC4 [9] (by decide) (by decide)
      (by decide) c4_herr⟩

/-- C5: the 48-byte little-endian inode record round-trips — for every
inode whose fields fit their machine widths (u64 size, u32 id/pointers,
u8 type and link count, five directs, six reserved bytes), serializing
(layout.rs `Inode::to_bytes`) and deserializing (`Inode::from_bytes`)
restores every field, and the record is exactly 48 bytes. -/
theorem c5_inode_record_roundtrip (ino : Inode) (h : InodeBounded ino) :
    (inodeToBytes ino).length = 48 ∧ inodeFromBytes (inodeToBytes ino) = ino :=
  ⟨inodeToBytes_length ino h.2.2.1 h.2.2.2.2.2.2.2.2, inode_from_to ino h⟩

def inoC5 : Inode :=
  { file_size := 123456789, id := 7, single_directs := [5, 6, 0, 4294967295, 8],
    single_indirect := 300, double_indirect := 70000, file_type := 2,
    link_count := 9, _reserved := [1, 2, 3, 4, 5, 6] }

theorem c5_inode_record_roundtrip_witness :
    InodeBounded inoC5 ∧ ((inodeToBytes inoC5).length = 48 ∧
      inodeFromBytes (inodeToBytes inoC5) = inoC5) :=
  ⟨by decide, c5_inode_record_roundtrip inoC5 (by decide)⟩

/-- C1 (amended): the block mapping of the file engine is
direct-blocks-only. `get_block` maps `L < 5` to `single_directs[L]`
(zero meaning unmapped) and every `L ≥ 5` to `none` — there is no
single- or double-indirect lookup — and `write_file_range` fails with
`FileTooLarge` as soon as the write cursor reaches logical block 5,
i.e. at byte offset `5 * 4096`, not at `5 + P + P²` blocks
(filesystem.rs `get_block` / `write_file_range`). -/
theorem c1_direct_blocks_only :
    (∀ ino : Inode, ∀ L, L < 5 →
      get_block ino L = (if ino.single_directs.getD L 0 = 0 then none
        else some (ino.single_directs.getD L 0))) ∧
    (∀ ino : Inode, ∀ L, 5 ≤ L → get_block ino L = none) ∧
    (∀ (fs : FS) (ino : Inode) (offset : Nat) (data : List Nat),
      5 * BLOCK_SIZE ≤ offset → data ≠ [] →
      (write_file_range fs ino offset data).2.2 = .error .fileTooLarge) := by
  refine ⟨?_, ?_, ?_⟩
  · intro ino L hL
    unfold get_block
    rw [if_pos hL]
  · intro ino L hL
    exact get_block_none_of_ge ino L hL
  · intro fs ino offset data h5 hne
    cases data with
    | nil => exact absurd rfl hne
    | cons d ds =>
      unfold write_file_range
      rw [write_loop_cons_large fs ino offset d ds (by
        rw [ge_iff_le, Nat.le_div_iff_mul_le (by decide : 0 < BLOCK_SIZE)]
        omega)]

def inoC1 : Inode :=
  { file_size := 20480, id := 0, single_directs := [1, 2, 3, 4, 5],
    single_indirect := 6, double_indirect := 0, file_type := 0,
    link_count := 1, _reserved := [0, 0, 0, 0, 0, 0] }

def fsC1 : FS :=
  { img := fun _ => 0,
    sb := { fs_size := 40960, magic := [122, 111, 115, 33],
            root_inode_id := 0, bitmap_start := 0, bitmap_count := 1,
            block_start := 1, block_count := 8, inode_start := 0,
            inode_count := 1 },
    data_bitmap := [255], bitmap_dirty := false, cwd_inode := 0,
    cwd_stack := [] }

theorem c1_direct_blocks_only_counterexample :
    inoC1.single_indirect ≠ 0 ∧ get_block inoC1 5 = none ∧
    (write_file_range fsC1 inoC1 (5 * BLOCK_SIZE) [9]).2.2 =
      .error .fileTooLarge := by
  refine ⟨by decide, by decide, ?_⟩
  unfold write_file_range
  rw [write_loop_cons_large fsC1 inoC1 (5 * BLOCK_SIZE) 9 [] (by decide)]

theorem c1_direct_blocks_only_witness :
    5 * BLOCK_SIZE ≤ 20480 ∧ (9 :: ([] : List Nat)) ≠ [] ∧
    (write_file_range fsC1 inoC1 20480 [9]).2.2 = .error .fileTooLarge :=
  ⟨by decide, by decide,
    c1_direct_blocks_only.2.2 fsC1 inoC1 20480 [9] (by decide) (by decide)⟩

theorem testBit_clear_mask (b bit i : Nat) (hi : i < 8) :
    Nat.testBit (b &&& (255 ^^^ (1 <<< bit))) i =
      (Nat.testBit b i && !(i == bit)) := by
  rw [Nat.testBit_and, Nat.testBit_xor]
  have h255 : Nat.testBit 255 i = true := by
    have h8 : (255 : Nat) = 2 ^ 8 - 1 := by norm_num
    rw [h8, Nat.testBit_two_pow_sub_one]
    simp [hi]
  have hsh : Nat.testBit (1 <<< bit) i = decide (i = bit) := by
    rw [Nat.shiftLeft_eq, one_mul, Nat.testBit_two_pow]
    by_cases h : bit = i <;> simp [h, eq_comm]
  rw [h255, hsh]
  cases hbi : Nat.testBit b i <;> by_cases h : i = bit <;> simp [h]

theorem bitmap_is_set_clear (bm : List Nat) (i j : Nat) :
    bitmap_is_set (bitmap_clear bm i) j =
      (bitmap_is_set bm j && !(j == i)) := by
  unfold bitmap_is_set bitmap_clear
  by_cases hb : j / 8 = i / 8
  · rw [hb]
    by_cases hlen : i / 8 < bm.length
    · rw [getD_set_self _ _ _ hlen]
      rw [testBit_clear_mask _ _ _ (Nat.mod_lt _ (by decide))]
      have hiff : (j % 8 = i % 8) ↔ (j = i) := by omega
      by_cases hji : j = i
      · simp [hji]
      · have hmm : ¬ j % 8 = i % 8 := fun h => hji (hiff.mp h)
        have e1 : (j % 8 == i % 8) = false := beq_eq_false_iff_ne.mpr hmm
        have e2 : (j == i) = false := beq_eq_false_iff_ne.mpr hji
        rw [e1, e2]
    · push_neg at hlen
      have h1 : (bm.set (i / 8)
          ((bm.getD (i / 8) 0) &&& (255 ^^^ (1 <<< (i % 8))))).getD (i / 8) 0
          = 0 := by
        rw [List.getD_eq_getElem?_getD, List.getElem?_eq_none (by simpa using hlen)]
        rfl
      have h2 : bm.getD (i / 8) 0 = 0 := by
        rw [List.getD_eq_getElem?_getD, List.getElem?_eq_none hlen]
        rfl
      rw [h1, h2]
      simp [Nat.zero_testBit]
  · rw [getD_set_ne _ _ _ _ hb]
    have hne : j ≠ i := fun h => hb (by rw [h])
    simp [hne]

theorem free_inode_loop_ok :
    ∀ (l : List Nat) (fs : FS), 1 ≤ fs.sb.block_start →
      (∀ d ∈ l, d ≠ 0 → InData fs.sb d) →
      (free_inode_loop fs l).2 = .ok () ∧
      (free_inode_loop fs l).1.img = fs.img ∧
      (free_inode_loop fs l).1.sb = fs.sb ∧
      (free_inode_loop fs l).1.data_bitmap.length = fs.data_bitmap.length ∧
      (∀ b, InData fs.sb b →
        bitOf (free_inode_loop fs l).1 b =
          (bitOf fs b && !(l.contains b))) := by
  intro l
  induction l with
  | nil =>
    intro fs hbs hmem
    exact ⟨rfl, rfl, rfl, rfl, fun b _ => by simp [free_inode_loop]⟩
  | cons d rest ih =>
    intro fs hbs hmem
    by_cases hd : d = 0
    · subst hd
      show (free_inode_loop fs (0 :: rest)).2 = _ ∧ _
      unfold free_inode_loop
      rw [if_neg (by simp)]
      obtain ⟨i1, i2, i3, i4, i5⟩ := ih fs hbs
        (fun x hx hne => hmem x (List.mem_cons_of_mem _ hx) hne)
      refine ⟨i1, i2, i3, i4, ?_⟩
      intro b hbd
      rw [i5 b hbd]
      have hbne : ¬ b = 0 := by
        have := hbd.1
        omega
      simp [hbne]
    · have hInD : InData fs.sb d := hmem d (List.mem_cons_self _ _) hd
      unfold free_inode_loop
      rw [if_pos hd]
      have hfree : fs_free_block fs d = .ok
          { fs with data_bitmap := (bitmap_clear fs.data_bitmap
              (d - fs.sb.block_start)), bitmap_dirty := true } := by
        unfold fs_free_block free_data_block
        rw [if_neg (by have := hInD.1; omega : ¬ d < fs.sb.block_start)]
        rw [if_neg (by have := hInD.1; have := hInD.2; omega :
          ¬ d - fs.sb.block_start ≥ fs.sb.block_count)]
      rw [hfree]
      set fs1 : FS := { fs with data_bitmap := (bitmap_clear fs.data_bitmap
          (d - fs.sb.block_start)), bitmap_dirty := true } with hfs1
      have hsb1 : fs1.sb = fs.sb := rfl
      obtain ⟨i1, i2, i3, i4, i5⟩ := ih fs1 hbs
        (fun x hx hne => hmem x (List.mem_cons_of_mem _ hx) hne)
      refine ⟨i1, i2, i3, ?_, ?_⟩
      · rw [i4]
        show (bitmap_clear fs.data_bitmap _).length = _
        simp [bitmap_clear]
      · intro b hbd
        rw [i5 b hbd]
        have hb1 : bitOf fs1 b = (bitOf fs b && !(b == d)) := by
          show bitmap_is_set (bitmap_clear fs.data_bitmap
            (d - fs.sb.block_start)) (b - fs.sb.block_start) = _
          rw [bitmap_is_set_clear]
          have hiff : (b - fs.sb.block_start = d - fs.sb.block_start) ↔
              (b = d) := by
            have := hbd.1
            have := hInD.1
            omega
          by_cases hbd2 : b = d
          · simp [hbd2]
          · have hmm : ¬ b - fs.sb.block_start = d - fs.sb.block_start :=
              fun h => hbd2 (hiff.mp h)
            have e1 : (b - fs.sb.block_start == d - fs.sb.block_start) = false :=
              beq_eq_false_iff_ne.mpr hmm
            have e2 : (b == d) = false := beq_eq_false_iff_ne.mpr hbd2
            rw [e1, e2]
            rfl
        rw [hb1]
        by_cases hbd2 : b = d
        · simp [hbd2, List.contains_cons]
        · have e2 : (b == d) = false := beq_eq_false_iff_ne.mpr hbd2
          simp [List.contains_cons, e2, hbd2]

/-- C2 (amended): for a valid inode id, `free_inode` releases (clears the
bitmap bit of) exactly the non-zero blocks listed in the five DIRECT
pointers — the single- and double-indirect trees are NOT traversed and
their blocks stay allocated — then zeroes the direct slots, `file_size`,
`file_type` and `link_count` and persists the record, with the
`single_indirect` and `double_indirect` fields carried over unchanged
(filesystem.rs `FileSystem::free_inode`). -/
theorem c2_free_inode_directs_only (fs : FS) (id : Nat) (ino : Inode)
    (hlay : LayoutWF fs.sb) (hread : fs_read_inode fs id = .ok ino)
    (hptr : InoPtrOK fs.sb ino) :
    (fs_free_inode fs id).2 = .ok () ∧
    (fs_free_inode fs id).1.sb = fs.sb ∧
    (∀ b, InData fs.sb b →
      bitOf (fs_free_inode fs id).1 b =
        (bitOf fs b && !(ino.single_directs.contains b))) ∧
    readBytes (fs_free_inode fs id).1.img (recOff fs.sb id) 48 =
      inodeToBytes { ino with
        single_directs := (ino.single_directs.map (fun _ => 0)),
        file_size := 0, file_type := 0, link_count := 0 } := by
  have hid : id < fs.sb.inode_count := by
    by_contra hcon
    push_neg at hcon
    unfold fs_read_inode at hread
    rw [if_pos (by omega : id ≥ fs.sb.inode_count)] at hread
    simp at hread
  have hmem : ∀ d ∈ ino.single_directs, d ≠ 0 → InData fs.sb d := by
    intro d hdmem hdne
    obtain ⟨i, hi, hget⟩ := List.mem_iff_getElem.mp hdmem
    have hi5 : i < 5 := by rw [hptr.1] at hi; exact hi
    have hgd : ino.single_directs.getD i 0 = d := by
      rw [List.getD_eq_getElem?_getD, List.getElem?_eq_getElem hi, hget]
      rfl
    rw [← hgd]
    exact hptr.2.2 i hi5 (by rw [hgd]; exact hdne)
  obtain ⟨i1, i2, i3, i4, i5⟩ :=
    free_inode_loop_ok ino.single_directs fs hlay.1 hmem
  unfold fs_free_inode
  rw [hread]
  simp only
  cases hloop : free_inode_loop fs ino.single_directs with
  | mk fs1 r =>
    rw [hloop] at i1 i2 i3 i4 i5
    simp only at i1 i2 i3 i4 i5
    subst i1
    simp only
    unfold fs_write_inode
    rw [if_neg (by rw [i3]; omega : ¬ id ≥ fs1.sb.inode_count)]
    simp only
    have hlen48 : (inodeToBytes { ino with
        single_directs := (ino.single_directs.map (fun _ => 0)),
        file_size := 0, file_type := 0, link_count := 0 }).length = 48 := by
      apply inodeToBytes_length
      · simp [hptr.1]
      · exact hptr.2.1
    refine ⟨trivial, i3, ?_, ?_⟩
    · intro b hbd
      show bitOf fs1 b = _
      exact i5 b hbd
    · show readBytes (writeBytes fs1.img (recOff fs1.sb id) _) _ 48 = _
      rw [i3, ← hlen48]
      exact readBytes_writeBytes_self _ _ _

def inoC2 : Inode :=
  { file_size := 4096, id := 0, single_directs := [3, 0, 0, 0, 0],
    single_indirect := 2, double_indirect := 0, file_type := 0,
    link_count := 1, _reserved := [0, 0, 0, 0, 0, 0] }

def fsC2 : FS :=
  { img := writeBytes (fun _ => 0) 0 (inodeToBytes inoC2),
    sb := { fs_size := 40960, magic := [122, 111, 115, 33],
            root_inode_id := 0, bitmap_start := 0, bitmap_count := 1,
            block_start := 1, block_count := 8, inode_start := 0,
            inode_count := 1 },
    data_bitmap := [6], bitmap_dirty := false, cwd_inode := 0,
    cwd_stack := [] }

theorem c2_free_inode_directs_only_counterexample :
    inoC2.single_indirect = 2 ∧ bitOf fsC2 2 = true ∧ bitOf fsC2 3 = true ∧
    (fs_free_inode fsC2 0).2 = .ok () ∧
    bitOf (fs_free_inode fsC2 0).1 3 = false ∧
    bitOf (fs_free_inode fsC2 0).1 2 = true ∧
    (inodeFromBytes (readBytes (fs_free_inode fsC2 0).1.img 0 48)).single_indirect
      = 2 :=
  ⟨by decide, by decide, by decide, rfl, by decide, by decide, by decide⟩

theorem c2_free_inode_directs_only_witness :
    LayoutWF fsC2.sb ∧ fs_read_inode fsC2 0 = .ok inoC2 ∧
    InoPtrOK fsC2.sb inoC2 ∧
    ((fs_free_inode fsC2 0).2 = .ok () ∧
     (fs_free_inode fsC2 0).1.sb = fsC2.sb ∧
     (∀ b, InData fsC2.sb b →
       bitOf (fs_free_inode fsC2 0).1 b =
         (bitOf fsC2 b && !(inoC2.single_directs.contains b))) ∧
     readBytes (fs_free_inode fsC2 0).1.img (recOff fsC2.sb 0) 48 =
       inodeToBytes { inoC2 with
         single_directs := (inoC2.single_directs.map (fun _ => 0)),
         file_size := 0, file_type := 0, link_count := 0 }) :=
  ⟨by decide, rfl, by decide,
    c2_free_inode_directs_only fsC2 0 inoC2 (by decide) rfl (by decide)⟩

theorem pathComponents_all_slash :
    ∀ (p : List Nat), (∀ b ∈ p, b = 47) → pathComponents p = [] := by
  intro p
  induction p with
  | nil => intro h; rfl
  | cons b rest ih =>
    intro h
    have hb : b = 47 := h b (List.mem_cons_self _ _)
    subst hb
    have hrest := ih (fun x hx => h x (List.mem_cons_of_mem _ hx))
    unfold pathComponents at hrest ⊢
    unfold splitSlash
    rw [if_pos rfl, List.filter_cons]
    rw [if_neg (by decide)]
    exact hrest

theorem rpn_all_slash (fs : FS) (path : List Nat) (hne : path ≠ [])
    (hall : ∀ b ∈ path, b = 47) :
    resolve_parent_and_name fs path = .error .missingName := by
  unfold resolve_parent_and_name
  rw [if_neg hne, pathComponents_all_slash path hall]
  rfl

/-- C10: a path whose split-on-slash components are all empty (such as
"/" ) has no final name component, so `resolve_parent_and_name` fails
with `MissingName`; consequently `rmdir` applied to "/" leaves the
filesystem state unchanged and never reports OK
(filesystem.rs `resolve_parent_and_name`, commands/rmdir.rs). -/
theorem c10_root_cannot_be_named :
    (∀ (fs : FS) (path : List Nat), path ≠ [] → (∀ b ∈ path, b = 47) →
      resolve_parent_and_name fs path = .error .missingName) ∧
    (∀ fs : FS, (rmdir_run fs [47]).1 = fs ∧ (rmdir_run fs [47]).2 ≠ "OK") := by
  have hne1 : ("FILE NOT FOUND" : String) ≠ "OK" := by decide
  have hne2 : ("NOT EMPTY" : String) ≠ "OK" := by decide
  refine ⟨rpn_all_slash, ?_⟩
  intro fs
  unfold rmdir_run
  cases hrp : resolve_path fs [47] with
  | error e => exact ⟨rfl, hne1⟩
  | ok dir_id =>
    simp only
    cases hri : fs_read_inode fs dir_id with
    | error e => exact ⟨rfl, hne1⟩
    | ok dir_ino =>
      simp only
      by_cases hft : dir_ino.file_type ≠ 1
      · rw [if_pos hft]
        exact ⟨rfl, hne1⟩
      · rw [if_neg hft]
        cases hde : dir_is_empty fs dir_ino with
        | error e => exact ⟨rfl, hne1⟩
        | ok bempty =>
          cases bempty with
          | false => exact ⟨rfl, hne2⟩
          | true =>
            rw [rpn_all_slash fs [47] (by decide) (by decide)]
            exact ⟨rfl, hne1⟩

def fsC10 : FS :=
  { img := fun _ => 0,
    sb := { fs_size := 40960, magic := [122, 111, 115, 33],
            root_inode_id := 0, bitmap_start := 0, bitmap_count := 1,
            block_start := 1, block_count := 8, inode_start := 0,
            inode_count := 1 },
    data_bitmap := [0], bitmap_dirty := false, cwd_inode := 0,
    cwd_stack := [] }

theorem c10_root_cannot_be_named_witness :
    ((47 :: ([] : List Nat)) ≠ [] ∧ (∀ b ∈ (47 :: ([] : List Nat)), b = 47)) ∧
    resolve_parent_and_name fsC10 [47] = .error .missingName ∧
    ((rmdir_run fsC10 [47]).1 = fsC10 ∧ (rmdir_run fsC10 [47]).2 ≠ "OK") :=
  ⟨⟨by decide, by decide⟩,
    c10_root_cannot_be_named.1 fsC10 [47] (by decide) (by decide),
    c10_root_cannot_be_named.2 fsC10⟩

theorem getD_take_lt (l : List Nat) (w i : Nat) (h : i < w) :
    (l.take w).getD i 0 = l.getD i 0 := by
  simp [List.getD, List.getElem?_take, h]

theorem getD_drop_add (l : List Nat) (k i : Nat) :
    (l.drop k).getD i 0 = l.getD (k + i) 0 := by
  simp [List.getD, List.getElem?_drop]

set_option maxRecDepth 4000 in
theorem writeBytes_rmw (img : Image) (base w : Nat) (data : List Nat)
    (hwlen : w + data.length ≤ BLOCK_SIZE) :
    writeBytes img base
      ((readBytes img base BLOCK_SIZE).take w ++ data ++
        (readBytes img base BLOCK_SIZE).drop (w + data.length)) =
    writeBytes img (base + w) data := by
  have hblk : (readBytes img base BLOCK_SIZE).length = BLOCK_SIZE :=
    readBytes_length _ _ _
  have hl1 : ((readBytes img base BLOCK_SIZE).take w).length = w := by
    rw [List.length_take]
    omega
  have hham : ((readBytes img base BLOCK_SIZE).take w ++ data ++
      (readBytes img base BLOCK_SIZE).drop (w + data.length)).length =
      BLOCK_SIZE := by
    simp only [List.length_append, List.length_drop, hl1, hblk]
    omega
  funext a
  simp only [writeBytes_apply]
  rw [hham]
  by_cases hin : base ≤ a ∧ a < base + BLOCK_SIZE
  · rw [if_pos hin]
    by_cases h2 : a - base < w
    · rw [if_neg (by omega : ¬ (base + w ≤ a ∧ a < base + w + data.length))]
      rw [List.getD_append _ _ _ _ (by rw [List.length_append, hl1]; omega)]
      rw [List.getD_append _ _ _ _ (by rw [hl1]; omega)]
      rw [getD_take_lt _ _ _ h2, readBytes_getD _ _ _ _ (by omega)]
      rw [show base + (a - base) = a from by omega]
    · push_neg at h2
      by_cases h3 : a - base < w + data.length
      · rw [if_pos (by omega : base + w ≤ a ∧ a < base + w + data.length)]
        rw [List.getD_append _ _ _ _ (by rw [List.length_append, hl1]; omega)]
        rw [List.getD_append_right _ _ _ _ (by rw [hl1]; omega)]
        rw [hl1]
        rw [show a - base - w = a - (base + w) from by omega]
      · push_neg at h3
        rw [if_neg (by omega : ¬ (base + w ≤ a ∧ a < base + w + data.length))]
        rw [List.getD_append_right _ _ _ _
          (by rw [List.length_append, hl1]; omega)]
        rw [List.length_append, hl1]
        rw [getD_drop_add, readBytes_getD _ _ _ _ (by omega)]
        rw [show base + (w + data.length + (a - base - (w + data.length))) = a
          from by omega]
  · rw [if_neg hin]
    rw [if_neg (by omega : ¬ (base + w ≤ a ∧ a < base + w + data.length))]

theorem read_loop_none (fs : FS) (ino : Inode) (cursor remaining : Nat)
    (hr : remaining ≠ 0) (hgb : get_block ino (cursor / BLOCK_SIZE) = none) :
    read_loop fs ino cursor remaining = .error .missingBlock := by
  rw [read_loop]
  simp only [dif_neg hr, hgb]

theorem read_file_range_single (fs : FS) (ino : Inode) (o len b : Nat)
    (hlen : len ≠ 0) (hfit : o % BLOCK_SIZE + len ≤ BLOCK_SIZE)
    (hsz : o + len ≤ ino.file_size)
    (hb : get_block ino (o / BLOCK_SIZE) = some b) :
    read_file_range fs ino o len =
      .ok (readBytes fs.img (b * BLOCK_SIZE + o % BLOCK_SIZE) len) := by
  unfold read_file_range
  rw [if_neg (by omega : ¬ o + len > ino.file_size)]
  rw [read_loop_pos fs ino o len b hlen hb]
  have htt : min len (BLOCK_SIZE - o % BLOCK_SIZE) = len := by omega
  rw [htt, Nat.sub_self, read_loop_zero]
  show Except.ok (((readBytes fs.img (b * BLOCK_SIZE) BLOCK_SIZE).drop
    (o % BLOCK_SIZE)).take len ++ ([] : List Nat)) = _
  rw [List.append_nil, readBytes_drop, readBytes_take _ _ _ _ (by omega)]

theorem write_file_range_single (fs : FS) (ino : Inode) (o : Nat)
    (data : List Nat) (b : Nat) (hne : data ≠ [])
    (hfit : o % BLOCK_SIZE + data.length ≤ BLOCK_SIZE)
    (hsz : o + data.length ≤ ino.file_size)
    (hb : get_block ino (o / BLOCK_SIZE) = some b) :
    write_file_range fs ino o data =
      ({ fs with img := (writeBytes fs.img
          (b * BLOCK_SIZE + o % BLOCK_SIZE) data) }, ino, .ok ()) := by
  cases data with
  | nil => exact absurd rfl hne
  | cons d ds =>
    unfold write_file_range
    have hL : o / BLOCK_SIZE < 5 := by
      by_contra hcon
      push_neg at hcon
      rw [get_block_none_of_ge ino _ hcon] at hb
      exact Option.noConfusion hb
    rw [write_loop_cons_existing fs ino o d ds b hL hb]
    have htw : min (d :: ds).length (BLOCK_SIZE - o % BLOCK_SIZE) =
        (d :: ds).length := by
      simp only [List.length_cons] at *
      omega
    rw [htw, List.drop_length, write_loop_nil]
    simp only
    rw [if_neg (by omega : ¬ o + (d :: ds).length > ino.file_size)]
    rw [List.take_length]
    rw [writeBytes_rmw _ _ _ _ (by omega)]

theorem dir_remove_go_spec :
    ∀ (is : List Nat) (fs : FS) (dir : Inode) (name : List Nat),
      LayoutWF fs.sb → WFIno fs dir →
      (∀ i ∈ is, (i + 1) * DIR_ENTRY_SIZE ≤ dir.file_size) →
      (dir_remove_go fs dir name is).2.2 = .ok () →
      (dir_remove_go fs dir name is).2.1 = dir ∧
      ∃ i ∈ is, ∃ bs,
        read_file_range fs dir (i * DIR_ENTRY_SIZE) DIR_ENTRY_SIZE = .ok bs ∧
        ¬ entryIsUnused (entryDeserialize bs) = true ∧
        entryNameStr (entryDeserialize bs) = name ∧
        read_file_range (dir_remove_go fs dir name is).1 dir
          (i * DIR_ENTRY_SIZE) DIR_ENTRY_SIZE =
          .ok (entrySerialize { entryDeserialize bs with
            inode_id := DIR_INODE_UNUSED }) ∧
        (∀ j, (j + 1) * DIR_ENTRY_SIZE ≤ dir.file_size → j ≠ i →
          read_file_range (dir_remove_go fs dir name is).1 dir
            (j * DIR_ENTRY_SIZE) DIR_ENTRY_SIZE =
          read_file_range fs dir (j * DIR_ENTRY_SIZE) DIR_ENTRY_SIZE) := by
  intro is
  induction is with
  | nil =>
    intro fs dir name hlay hwf his hok
    simp [dir_remove_go] at hok
  | cons i is ih =>
    intro fs dir name hlay hwf his hok
    have hisz : (i + 1) * DIR_ENTRY_SIZE ≤ dir.file_size :=
      his i (List.mem_cons_self _ _)
    unfold dir_remove_go at hok ⊢
    simp only at hok ⊢
    cases hread : read_file_range fs dir (i * DIR_ENTRY_SIZE) DIR_ENTRY_SIZE with
    | error e =>
      rw [hread] at hok
      simp at hok
    | ok bs =>
      rw [hread] at hok
      simp only at hok ⊢
      by_cases hc : ¬ entryIsUnused (entryDeserialize bs) = true ∧
          entryNameStr (entryDeserialize bs) = name
      · rw [if_pos hc] at hok ⊢
        cases hgb : get_block dir ((i * DIR_ENTRY_SIZE) / BLOCK_SIZE) with
        | none =>
          exfalso
          have hbad : read_file_range fs dir (i * DIR_ENTRY_SIZE)
              DIR_ENTRY_SIZE = .error .missingBlock := by
            unfold read_file_range
            rw [if_neg (by unfold DIR_ENTRY_SIZE at *; omega :
              ¬ i * DIR_ENTRY_SIZE + DIR_ENTRY_SIZE > dir.file_size)]
            exact read_loop_none _ _ _ _ (by decide) hgb
          rw [hbad] at hread
          exact Except.noConfusion hread
        | some b =>
          have hLi : i * DIR_ENTRY_SIZE / BLOCK_SIZE < 5 ∧
              dir.single_directs.getD (i * DIR_ENTRY_SIZE / BLOCK_SIZE) 0 = b ∧
              b ≠ 0 := (get_block_some_iff _ _ _).mp hgb
          have hbInD : InData fs.sb b := by
            rw [← hLi.2.1]
            exact hwf.1.2.2 _ hLi.1 (by rw [hLi.2.1]; exact hLi.2.2)
          have hfit16 : (i * DIR_ENTRY_SIZE) % BLOCK_SIZE + DIR_ENTRY_SIZE ≤
              BLOCK_SIZE := by
            unfold DIR_ENTRY_SIZE BLOCK_SIZE
            omega
          have hsz16 : i * DIR_ENTRY_SIZE + DIR_ENTRY_SIZE ≤ dir.file_size := by
            unfold DIR_ENTRY_SIZE at *
            omega
          have hsingle := read_file_range_single fs dir (i * DIR_ENTRY_SIZE)
            DIR_ENTRY_SIZE b (by decide) hfit16 hsz16 hgb
          rw [hread] at hsingle
          have hb16 : bs = readBytes fs.img
              (b * BLOCK_SIZE + (i * DIR_ENTRY_SIZE) % BLOCK_SIZE)
              DIR_ENTRY_SIZE := Except.ok.inj hsingle
          have hlenbs : bs.length = DIR_ENTRY_SIZE := by
            rw [hb16]
            exact readBytes_length _ _ _
          have hlentomb : (entrySerialize { entryDeserialize bs with
              inode_id := DIR_INODE_UNUSED }).length = 16 := by
            apply entrySerialize_length
            show (bs.take 12).length = 12
            rw [List.length_take]
            unfold DIR_ENTRY_SIZE at hlenbs
            omega
          have htombne : entrySerialize { entryDeserialize bs with
              inode_id := DIR_INODE_UNUSED } ≠ [] := by
            intro hc0
            rw [hc0] at hlentomb
            simp at hlentomb
          have hfitw : (i * DIR_ENTRY_SIZE) % BLOCK_SIZE +
              (entrySerialize { entryDeserialize bs with
                inode_id := DIR_INODE_UNUSED }).length ≤ BLOCK_SIZE := by
            rw [hlentomb]
            unfold DIR_ENTRY_SIZE BLOCK_SIZE at *
            omega
          have hszw : i * DIR_ENTRY_SIZE +
              (entrySerialize { entryDeserialize bs with
                inode_id := DIR_INODE_UNUSED }).length ≤ dir.file_size := by
            rw [hlentomb]
            unfold DIR_ENTRY_SIZE at *
            omega
          rw [write_file_range_single fs dir (i * DIR_ENTRY_SIZE) _ b htombne
            hfitw hszw hgb] at hok ⊢
          simp only at hok ⊢
          unfold fs_write_inode at hok ⊢
          have hid : dir.id < fs.sb.inode_count := hwf.2.1
          rw [if_neg (by show ¬ dir.id ≥ fs.sb.inode_count; omega)] at hok ⊢
          simp only at hok ⊢
          have hlen48 : (inodeToBytes dir).length = 48 :=
            inodeToBytes_length dir hwf.1.1 hwf.1.2.1
          have hgeo : recOff fs.sb dir.id + 48 ≤ b * BLOCK_SIZE := by
            have h1 : fs.sb.block_start * BLOCK_SIZE ≤ b * BLOCK_SIZE :=
              Nat.mul_le_mul_right _ hbInD.1
            have h2 := hlay.2
            unfold recOff INODE_SIZE BLOCK_SIZE at *
            omega
          refine ⟨trivial, i, List.mem_cons_self _ _, bs, hread, hc.1, hc.2,
            ?_, ?_⟩
          · rw [read_file_range_single _ dir (i * DIR_ENTRY_SIZE)
              DIR_ENTRY_SIZE b (by decide) hfit16 hsz16 hgb]
            show Except.ok (readBytes (writeBytes (writeBytes fs.img _ _)
              (recOff fs.sb dir.id) (inodeToBytes dir)) _ _) = _
            rw [readBytes_writeBytes_disjoint _ _ _ _ _ (Or.inr (by
              rw [hlen48]
              unfold DIR_ENTRY_SIZE BLOCK_SIZE at *
              omega))]
            have hds : DIR_ENTRY_SIZE = (entrySerialize { entryDeserialize bs
                with inode_id := DIR_INODE_UNUSED }).length := by
              rw [hlentomb]
              rfl
            rw [hds, readBytes_writeBytes_self]
          · intro j hj hjne
            cases hgbj : get_block dir ((j * DIR_ENTRY_SIZE) / BLOCK_SIZE) with
            | none =>
              have hbadp : ∀ (fsX : FS), read_file_range fsX dir
                  (j * DIR_ENTRY_SIZE) DIR_ENTRY_SIZE =
                  .error .missingBlock := by
                intro fsX
                unfold read_file_range
                rw [if_neg (by unfold DIR_ENTRY_SIZE at *; omega :
                  ¬ j * DIR_ENTRY_SIZE + DIR_ENTRY_SIZE > dir.file_size)]
                exact read_loop_none _ _ _ _ (by decide) hgbj
              rw [hbadp, hbadp]
            | some bj =>
              have hLj : j * DIR_ENTRY_SIZE / BLOCK_SIZE < 5 ∧
                  dir.single_directs.getD (j * DIR_ENTRY_SIZE / BLOCK_SIZE) 0
                    = bj ∧ bj ≠ 0 := (get_block_some_iff _ _ _).mp hgbj
              have hbjInD : InData fs.sb bj := by
                rw [← hLj.2.1]
                exact hwf.1.2.2 _ hLj.1 (by rw [hLj.2.1]; exact hLj.2.2)
              have hfitj : (j * DIR_ENTRY_SIZE) % BLOCK_SIZE + DIR_ENTRY_SIZE ≤
                  BLOCK_SIZE := by
                unfold DIR_ENTRY_SIZE BLOCK_SIZE
                omega
              have hszj : j * DIR_ENTRY_SIZE + DIR_ENTRY_SIZE ≤
                  dir.file_size := by
                unfold DIR_ENTRY_SIZE at *
                omega
              rw [read_file_range_single _ dir (j * DIR_ENTRY_SIZE)
                DIR_ENTRY_SIZE bj (by decide) hfitj hszj hgbj]
              rw [read_file_range_single fs dir (j * DIR_ENTRY_SIZE)
                DIR_ENTRY_SIZE bj (by decide) hfitj hszj hgbj]
              have hgeoj : recOff fs.sb dir.id + 48 ≤ bj * BLOCK_SIZE := by
                have h1 : fs.sb.block_start * BLOCK_SIZE ≤ bj * BLOCK_SIZE :=
                  Nat.mul_le_mul_right _ hbjInD.1
                have h2 := hlay.2
                unfold recOff INODE_SIZE BLOCK_SIZE at *
                omega
              show Except.ok (readBytes (writeBytes (writeBytes fs.img _ _)
                (recOff fs.sb dir.id) (inodeToBytes dir)) _ _) = _
              rw [readBytes_writeBytes_disjoint _ _ _ _ _ (Or.inr (by
                rw [hlen48]
                unfold DIR_ENTRY_SIZE BLOCK_SIZE at *
                omega))]
              have hdis2 : bj * BLOCK_SIZE + (j * DIR_ENTRY_SIZE) % BLOCK_SIZE
                    + DIR_ENTRY_SIZE ≤
                    b * BLOCK_SIZE + (i * DIR_ENTRY_SIZE) % BLOCK_SIZE ∨
                  b * BLOCK_SIZE + (i * DIR_ENTRY_SIZE) % BLOCK_SIZE +
                    (entrySerialize { entryDeserialize bs with
                      inode_id := DIR_INODE_UNUSED }).length ≤
                    bj * BLOCK_SIZE + (j * DIR_ENTRY_SIZE) % BLOCK_SIZE := by
                rw [hlentomb]
                by_cases hLL : j * DIR_ENTRY_SIZE / BLOCK_SIZE =
                    i * DIR_ENTRY_SIZE / BLOCK_SIZE
                · have hbb : bj = b := by
                    rw [← hLj.2.1, hLL, hLi.2.1]
                  rw [hbb]
                  unfold DIR_ENTRY_SIZE BLOCK_SIZE at *
                  omega
                · have hbb : bj ≠ b := by
                    rw [← hLj.2.1, ← hLi.2.1]
                    exact hwf.2.2.2 _ hLj.1 _ hLi.1 hLL
                      (by rw [hLj.2.1]; exact hLj.2.2)
                      (by rw [hLi.2.1]; exact hLi.2.2)
                  unfold DIR_ENTRY_SIZE BLOCK_SIZE at *
                  rcases Nat.lt_or_ge bj b with h | h
                  · left
                    have : bj + 1 ≤ b := h
                    omega
                  · right
                    have : b + 1 ≤ bj := by omega
                    omega
              rw [readBytes_writeBytes_disjoint _ _ _ _ _ hdis2]
      · rw [if_neg hc] at hok ⊢
        obtain ⟨r1, i0, hmem0, bs0, hr0, hu0, hn0, hpost0, hframe0⟩ :=
          ih fs dir name hlay hwf
            (fun x hx => his x (List.mem_cons_of_mem _ hx)) hok
        exact ⟨r1, i0, List.mem_cons_of_mem _ hmem0, bs0, hr0, hu0, hn0,
          hpost0, hframe0⟩

/-- C8: after a successful `dir_remove_entry(dir, name)`, the returned
directory inode is unchanged (in particular `file_size` is unchanged —
the directory file never shrinks), the slot that held the named entry
reads back as the same entry with `inode_id = 0xFFFFFFFF` (tombstone,
name bytes kept), and every other slot's bytes are unchanged
(filesystem.rs `dir_remove_entry`, layout.rs `DirectoryEntry::mark_unused`). -/
theorem c8_remove_entry_tombstone (fs : FS) (dir : Inode) (name : List Nat)
    (hlay : LayoutWF fs.sb) (hwf : WFIno fs dir)
    (hok : (dir_remove_entry fs dir name).2.2 = .ok ()) :
    (dir_remove_entry fs dir name).2.1 = dir ∧
    (dir_remove_entry fs dir name).2.1.file_size = dir.file_size ∧
    ∃ i < dir_entry_count dir, ∃ bs,
      read_file_range fs dir (i * DIR_ENTRY_SIZE) DIR_ENTRY_SIZE = .ok bs ∧
      ¬ entryIsUnused (entryDeserialize bs) = true ∧
      entryNameStr (entryDeserialize bs) = name ∧
      read_file_range (dir_remove_entry fs dir name).1 dir
        (i * DIR_ENTRY_SIZE) DIR_ENTRY_SIZE =
        .ok (entrySerialize { entryDeserialize bs with
          inode_id := DIR_INODE_UNUSED }) ∧
      (∀ j < dir_entry_count dir, j ≠ i →
        read_file_range (dir_remove_entry fs dir name).1 dir
          (j * DIR_ENTRY_SIZE) DIR_ENTRY_SIZE =
        read_file_range fs dir (j * DIR_ENTRY_SIZE) DIR_ENTRY_SIZE) := by
  have hrange : ∀ x ∈ List.range' 0 (dir_entry_count dir),
      (x + 1) * DIR_ENTRY_SIZE ≤ dir.file_size := by
    intro x hx
    have hx2 := List.mem_range'_1.mp hx
    unfold dir_entry_count DIR_ENTRY_SIZE at *
    omega
  have hspec := dir_remove_go_spec (List.range' 0 (dir_entry_count dir)) fs dir
    name hlay hwf hrange hok
  obtain ⟨h1, i, hmem, bs, h2, h3, h4, h5, h6⟩ := hspec
  have hilt : i < dir_entry_count dir := by
    have hx2 := List.mem_range'_1.mp hmem
    omega
  refine ⟨h1, by unfold dir_remove_entry; rw [h1], i, hilt, bs, h2, h3, h4,
    h5, ?_⟩
  intro j hj hjne
  exact h6 j (by unfold dir_entry_count DIR_ENTRY_SIZE at *; omega) hjne

def dirC8 : Inode :=
  { file_size := 16, id := 0, single_directs := [1, 0, 0, 0, 0],
    single_indirect := 0, double_indirect := 0, file_type := 1,
    link_count := 1, _reserved := [0, 0, 0, 0, 0, 0] }

def fsC8 : FS :=
  { img := writeBytes (fun _ => 0) 4096 (entrySerialize (entryFromName [97] 5)),
    sb := { fs_size := 40960, magic := [122, 111, 115, 33],
            root_inode_id := 0, bitmap_start := 0, bitmap_count := 1,
            block_start := 1, block_count := 8, inode_start := 0,
            inode_count := 1 },
    data_bitmap := [1], bitmap_dirty := false, cwd_inode := 0,
    cwd_stack := [] }

theorem c8_hok : (dir_remove_entry fsC8 dirC8 [97]).2.2 = .ok () := by
  unfold dir_remove_entry
  rw [show List.range' 0 (dir_entry_count dirC8) = [0] from rfl]
  unfold dir_remove_go
  simp only
  rw [read_file_range_single fsC8 dirC8 (0 * DIR_ENTRY_SIZE) DIR_ENTRY_SIZE 1
    (by decide) (by decide) (by decide) (by decide)]
  simp only
  rw [if_pos (by decide)]
  rw [write_file_range_single fsC8 dirC8 (0 * DIR_ENTRY_SIZE) _ 1 (by decide)
    (by decide) (by decide) (by decide)]
  rfl

theorem c8_remove_entry_tombstone_witness :
    LayoutWF fsC8.sb ∧ WFIno fsC8 dirC8 ∧
    (dir_remove_entry fsC8 dirC8 [97]).2.2 = .ok () ∧
    ((dir_remove_entry fsC8 dirC8 [97]).2.1 = dirC8 ∧
     (dir_remove_entry fsC8 dirC8 [97]).2.1.file_size = dirC8.file_size ∧
     ∃ i < dir_entry_count dirC8, ∃ bs,
       read_file_range fsC8 dirC8 (i * DIR_ENTRY_SIZE) DIR_ENTRY_SIZE =
         .ok bs ∧
       ¬ entryIsUnused (entryDeserialize bs) = true ∧
       entryNameStr (entryDeserialize bs) = [97] ∧
       read_file_range (dir_remove_entry fsC8 dirC8 [97]).1 dirC8
         (i * DIR_ENTRY_SIZE) DIR_ENTRY_SIZE =
         .ok (entrySerialize { entryDeserialize bs with
           inode_id := DIR_INODE_UNUSED }) ∧
       (∀ j < dir_entry_count dirC8, j ≠ i →
         read_file_range (dir_remove_entry fsC8 dirC8 [97]).1 dirC8
           (j * DIR_ENTRY_SIZE) DIR_ENTRY_SIZE =
         read_file_range fsC8 dirC8 (j * DIR_ENTRY_SIZE) DIR_ENTRY_SIZE)) :=
  ⟨by decide, by decide, c8_hok,
    c8_remove_entry_tombstone fsC8 dirC8 [97] (by decide) (by decide) c8_hok⟩

theorem entryFromName_length (name : List Nat) (inode_id : Nat)
    (h : name.length ≤ 12) :
    (entrySerialize (entryFromName name inode_id)).length = 16 := by
  apply entrySerialize_length
  show (name ++ List.replicate (12 - name.length) 0).length = 12
  simp only [List.length_append, List.length_replicate]
  omega

theorem dir_add_go_none :
    ∀ (is : List Nat) (fs : FS) (dir : Inode) (name : List Nat)
      (inode_id : Nat),
      (∀ k ∈ is, ∃ bsk,
        read_file_range fs dir (k * DIR_ENTRY_SIZE) DIR_ENTRY_SIZE = .ok bsk ∧
        entryIsUnused (entryDeserialize bsk) = false) →
      dir_add_go fs dir name inode_id is = none := by
  intro is
  induction is with
  | nil => intro fs dir name inode_id _; rfl
  | cons k is ih =>
    intro fs dir name inode_id hall
    obtain ⟨bsk, hrk, huk⟩ := hall k (List.mem_cons_self _ _)
    unfold dir_add_go
    rw [hrk]
    simp only
    rw [if_neg (by rw [huk]; exact Bool.false_ne_true)]
    exact ih fs dir name inode_id
      (fun x hx => hall x (List.mem_cons_of_mem _ hx))

theorem dir_add_go_spec :
    ∀ (cnt s : Nat) (fs : FS) (dir : Inode) (name : List Nat)
      (inode_id : Nat) (i : Nat),
      LayoutWF fs.sb → WFIno fs dir → name.length ≤ DIR_NAME_LEN →
      (∀ k ∈ List.range' s cnt, (k + 1) * DIR_ENTRY_SIZE ≤ dir.file_size) →
      s ≤ i → i < s + cnt →
      (∀ k, s ≤ k → k < i → ∃ bsk,
        read_file_range fs dir (k * DIR_ENTRY_SIZE) DIR_ENTRY_SIZE = .ok bsk ∧
        entryIsUnused (entryDeserialize bsk) = false) →
      (∃ bsi, read_file_range fs dir (i * DIR_ENTRY_SIZE) DIR_ENTRY_SIZE =
        .ok bsi ∧ entryIsUnused (entryDeserialize bsi) = true) →
      ∃ fsR, dir_add_go fs dir name inode_id (List.range' s cnt) =
          some (fsR, dir, .ok ()) ∧
        read_file_range fsR dir (i * DIR_ENTRY_SIZE) DIR_ENTRY_SIZE =
          .ok (entrySerialize (entryFromName name inode_id)) ∧
        (∀ j, (j + 1) * DIR_ENTRY_SIZE ≤ dir.file_size → j ≠ i →
          read_file_range fsR dir (j * DIR_ENTRY_SIZE) DIR_ENTRY_SIZE =
          read_file_range fs dir (j * DIR_ENTRY_SIZE) DIR_ENTRY_SIZE) := by
  intro cnt
  induction cnt with
  | zero =>
    intro s fs dir name inode_id i _ _ _ _ hsi hicnt _ _
    omega
  | succ cnt ih =>
    intro s fs dir name inode_id i hlay hwf hname hrange hsi hicnt hlive hfree
    have hstep : List.range' s (cnt + 1) = s :: List.range' (s + 1) cnt := rfl
    rw [hstep] at hrange ⊢
    unfold dir_add_go
    by_cases hseqi : s = i
    · subst hseqi
      obtain ⟨bsi, hri, hui⟩ := hfree
      rw [hri]
      simp only
      rw [if_pos hui]
      have hisz : (s + 1) * DIR_ENTRY_SIZE ≤ dir.file_size :=
        hrange s (List.mem_cons_self _ _)
      cases hgb : get_block dir ((s * DIR_ENTRY_SIZE) / BLOCK_SIZE) with
      | none =>
        exfalso
        have hbad : read_file_range fs dir (s * DIR_ENTRY_SIZE)
            DIR_ENTRY_SIZE = .error .missingBlock := by
          unfold read_file_range
          rw [if_neg (by unfold DIR_ENTRY_SIZE at *; omega :
            ¬ s * DIR_ENTRY_SIZE + DIR_ENTRY_SIZE > dir.file_size)]
          exact read_loop_none _ _ _ _ (by decide) hgb
        rw [hbad] at hri
        exact Except.noConfusion hri
      | some b =>
        have hLi : s * DIR_ENTRY_SIZE / BLOCK_SIZE < 5 ∧
            dir.single_directs.getD (s * DIR_ENTRY_SIZE / BLOCK_SIZE) 0 = b ∧
            b ≠ 0 := (get_block_some_iff _ _ _).mp hgb
        have hbInD : InData fs.sb b := by
          rw [← hLi.2.1]
          exact hwf.1.2.2 _ hLi.1 (by rw [hLi.2.1]; exact hLi.2.2)
        have hfit16 : (s * DIR_ENTRY_SIZE) % BLOCK_SIZE + DIR_ENTRY_SIZE ≤
            BLOCK_SIZE := by
          unfold DIR_ENTRY_SIZE BLOCK_SIZE
          omega
        have hsz16 : s * DIR_ENTRY_SIZE + DIR_ENTRY_SIZE ≤ dir.file_size := by
          unfold DIR_ENTRY_SIZE at *
          omega
        have hlennew : (entrySerialize (entryFromName name inode_id)).length
            = 16 := entryFromName_length name inode_id
            (by unfold DIR_NAME_LEN at hname; omega)
        have hnewne : entrySerialize (entryFromName name inode_id) ≠ [] := by
          intro hc0
          rw [hc0] at hlennew
          simp at hlennew
        have hfitw : (s * DIR_ENTRY_SIZE) % BLOCK_SIZE +
            (entrySerialize (entryFromName name inode_id)).length ≤
            BLOCK_SIZE := by
          rw [hlennew]
          unfold DIR_ENTRY_SIZE BLOCK_SIZE at *
          omega
        have hszw : s * DIR_ENTRY_SIZE +
            (entrySerialize (entryFromName name inode_id)).length ≤
            dir.file_size := by
          rw [hlennew]
          unfold DIR_ENTRY_SIZE at *
          omega
        rw [write_file_range_single fs dir (s * DIR_ENTRY_SIZE) _ b hnewne
          hfitw hszw hgb]
        simp only
        unfold fs_write_inode
        have hid : dir.id < fs.sb.inode_count := hwf.2.1
        rw [if_neg (by show ¬ dir.id ≥ fs.sb.inode_count; omega)]
        simp only
        have hlen48 : (inodeToBytes dir).length = 48 :=
          inodeToBytes_length dir hwf.1.1 hwf.1.2.1
        have hgeo : recOff fs.sb dir.id + 48 ≤ b * BLOCK_SIZE := by
          have h1 : fs.sb.block_start * BLOCK_SIZE ≤ b * BLOCK_SIZE :=
            Nat.mul_le_mul_right _ hbInD.1
          have h2 := hlay.2
          unfold recOff INODE_SIZE BLOCK_SIZE at *
          omega
        refine ⟨_, rfl, ?_, ?_⟩
        · rw [read_file_range_single _ dir (s * DIR_ENTRY_SIZE)
            DIR_ENTRY_SIZE b (by decide) hfit16 hsz16 hgb]
          show Except.ok (readBytes (writeBytes (writeBytes fs.img _ _)
            (recOff fs.sb dir.id) (inodeToBytes dir)) _ _) = _
          rw [readBytes_writeBytes_disjoint _ _ _ _ _ (Or.inr (by
            rw [hlen48]
            unfold DIR_ENTRY_SIZE BLOCK_SIZE at *
            omega))]
          have hds : DIR_ENTRY_SIZE =
              (entrySerialize (entryFromName name inode_id)).length := by
            rw [hlennew]
            rfl
          rw [hds, readBytes_writeBytes_self]
        · intro j hj hjne
          cases hgbj : get_block dir ((j * DIR_ENTRY_SIZE) / BLOCK_SIZE) with
          | none =>
            have hbadp : ∀ (fsX : FS), read_file_range fsX dir
                (j * DIR_ENTRY_SIZE) DIR_ENTRY_SIZE =
                .error .missingBlock := by
              intro fsX
              unfold read_file_range
              rw [if_neg (by unfold DIR_ENTRY_SIZE at *; omega :
                ¬ j * DIR_ENTRY_SIZE + DIR_ENTRY_SIZE > dir.file_size)]
              exact read_loop_none _ _ _ _ (by decide) hgbj
            rw [hbadp, hbadp]
          | some bj =>
            have hLj : j * DIR_ENTRY_SIZE / BLOCK_SIZE < 5 ∧
                dir.single_directs.getD (j * DIR_ENTRY_SIZE / BLOCK_SIZE) 0
                  = bj ∧ bj ≠ 0 := (get_block_some_iff _ _ _).mp hgbj
            have hbjInD : InData fs.sb bj := by
              rw [← hLj.2.1]
              exact hwf.1.2.2 _ hLj.1 (by rw [hLj.2.1]; exact hLj.2.2)
            have hfitj : (j * DIR_ENTRY_SIZE) % BLOCK_SIZE + DIR_ENTRY_SIZE ≤
                BLOCK_SIZE := by
              unfold DIR_ENTRY_SIZE BLOCK_SIZE
              omega
            have hszj : j * DIR_ENTRY_SIZE + DIR_ENTRY_SIZE ≤
                dir.file_size := by
              unfold DIR_ENTRY_SIZE at *
              omega
            rw [read_file_range_single _ dir (j * DIR_ENTRY_SIZE)
              DIR_ENTRY_SIZE bj (by decide) hfitj hszj hgbj]
            rw [read_file_range_single fs dir (j * DIR_ENTRY_SIZE)
              DIR_ENTRY_SIZE bj (by decide) hfitj hszj hgbj]
            have hgeoj : recOff fs.sb dir.id + 48 ≤ bj * BLOCK_SIZE := by
              have h1 : fs.sb.block_start * BLOCK_SIZE ≤ bj * BLOCK_SIZE :=
                Nat.mul_le_mul_right _ hbjInD.1
              have h2 := hlay.2
              unfold recOff INODE_SIZE BLOCK_SIZE at *
              omega
            show Except.ok (readBytes (writeBytes (writeBytes fs.img _ _)
              (recOff fs.sb dir.id) (inodeToBytes dir)) _ _) = _
            rw [readBytes_writeBytes_disjoint _ _ _ _ _ (Or.inr (by
              rw [hlen48]
              unfold DIR_ENTRY_SIZE BLOCK_SIZE at *
              omega))]
            have hdis2 : bj * BLOCK_SIZE + (j * DIR_ENTRY_SIZE) % BLOCK_SIZE
                  + DIR_ENTRY_SIZE ≤
                  b * BLOCK_SIZE + (s * DIR_ENTRY_SIZE) % BLOCK_SIZE ∨
                b * BLOCK_SIZE + (s * DIR_ENTRY_SIZE) % BLOCK_SIZE +
                  (entrySerialize (entryFromName name inode_id)).length ≤
                  bj * BLOCK_SIZE + (j * DIR_ENTRY_SIZE) % BLOCK_SIZE := by
              rw [hlennew]
              by_cases hLL : j * DIR_ENTRY_SIZE / BLOCK_SIZE =
                  s * DIR_ENTRY_SIZE / BLOCK_SIZE
              · have hbb : bj = b := by
                  rw [← hLj.2.1, hLL, hLi.2.1]
                rw [hbb]
                unfold DIR_ENTRY_SIZE BLOCK_SIZE at *
                omega
              · have hbb : bj ≠ b := by
                  rw [← hLj.2.1, ← hLi.2.1]
                  exact hwf.2.2.2 _ hLj.1 _ hLi.1 hLL
                    (by rw [hLj.2.1]; exact hLj.2.2)
                    (by rw [hLi.2.1]; exact hLi.2.2)
                unfold DIR_ENTRY_SIZE BLOCK_SIZE at *
                rcases Nat.lt_or_ge bj b with h | h
                · left
                  have : bj + 1 ≤ b := h
                  omega
                · right
                  have : b + 1 ≤ bj := by omega
                  omega
            rw [readBytes_writeBytes_disjoint _ _ _ _ _ hdis2]
    · obtain ⟨bss, hrs, hus⟩ := hlive s le_rfl (by omega)
      rw [hrs]
      simp only
      rw [if_neg (by rw [hus]; exact Bool.false_ne_true)]
      exact ih (s + 1) fs dir name inode_id i hlay hwf hname
        (fun k hk => hrange k (List.mem_cons_of_mem _ hk))
        (by omega) (by omega)
        (fun k hk1 hk2 => hlive k (by omega) hk2) hfree

/-- C7: `dir_add_entry` rejects an empty name or one longer than 12
bytes with `InvalidName`; fails with `AlreadyExists` when a live entry
with the name is present; otherwise writes the new entry into the
lowest-index free (tombstone) slot when one exists, leaving the
directory's `file_size` unchanged and all other slots untouched; and
only when every slot is live appends a new slot, growing `file_size`
by exactly 16 (filesystem.rs `dir_add_entry`). -/
theorem c7_add_entry_slot_policy :
    (∀ (fs : FS) (dir : Inode) (name : List Nat) (inode_id : Nat),
      name.length = 0 ∨ name.length > DIR_NAME_LEN →
      dir_add_entry fs dir name inode_id = (fs, dir, .error .invalidName)) ∧
    (∀ (fs : FS) (dir : Inode) (name : List Nat) (inode_id : Nat)
      (x : Nat × DirEntry),
      ¬ (name.length = 0 ∨ name.length > DIR_NAME_LEN) →
      dir_find fs dir name = .ok (some x) →
      dir_add_entry fs dir name inode_id = (fs, dir, .error .alreadyExists)) ∧
    (∀ (fs : FS) (dir : Inode) (name : List Nat) (inode_id i : Nat),
      LayoutWF fs.sb → WFIno fs dir →
      ¬ (name.length = 0 ∨ name.length > DIR_NAME_LEN) →
      dir_find fs dir name = .ok none →
      i < dir_entry_count dir →
      (∀ k, k < i → ∃ bsk,
        read_file_range fs dir (k * DIR_ENTRY_SIZE) DIR_ENTRY_SIZE = .ok bsk ∧
        entryIsUnused (entryDeserialize bsk) = false) →
      (∃ bsi, read_file_range fs dir (i * DIR_ENTRY_SIZE) DIR_ENTRY_SIZE =
        .ok bsi ∧ entryIsUnused (entryDeserialize bsi) = true) →
      (dir_add_entry fs dir name inode_id).2.1 = dir ∧
      (dir_add_entry fs dir name inode_id).2.2 = .ok () ∧
      (dir_add_entry fs dir name inode_id).2.1.file_size = dir.file_size ∧
      read_file_range (dir_add_entry fs dir name inode_id).1 dir
        (i * DIR_ENTRY_SIZE) DIR_ENTRY_SIZE =
        .ok (entrySerialize (entryFromName name inode_id)) ∧
      (∀ j, (j + 1) * DIR_ENTRY_SIZE ≤ dir.file_size → j ≠ i →
        read_file_range (dir_add_entry fs dir name inode_id).1 dir
          (j * DIR_ENTRY_SIZE) DIR_ENTRY_SIZE =
        read_file_range fs dir (j * DIR_ENTRY_SIZE) DIR_ENTRY_SIZE)) ∧
    (∀ (fs : FS) (dir : Inode) (name : List Nat) (inode_id : Nat),
      LayoutWF fs.sb → InoPtrOK fs.sb dir →
      ¬ (name.length = 0 ∨ name.length > DIR_NAME_LEN) →
      dir_find fs dir name = .ok none →
      (∀ k ∈ List.range' 0 (dir_entry_count dir), ∃ bsk,
        read_file_range fs dir (k * DIR_ENTRY_SIZE) DIR_ENTRY_SIZE = .ok bsk ∧
        entryIsUnused (entryDeserialize bsk) = false) →
      (dir_add_entry fs dir name inode_id).2.2 = .ok () →
      (dir_add_entry fs dir name inode_id).2.1.file_size =
        dir.file_size + DIR_ENTRY_SIZE) := by
  refine ⟨?_, ?_, ?_, ?_⟩
  · intro fs dir name inode_id hbad
    unfold dir_add_entry
    rw [if_pos hbad]
  · intro fs dir name inode_id x hgood hfind
    unfold dir_add_entry
    rw [if_neg hgood, hfind]
  · intro fs dir name inode_id i hlay hwf hgood hfind hilt hlive hfree
    have hname : name.length ≤ DIR_NAME_LEN := by
      push_neg at hgood
      omega
    have hrange : ∀ k ∈ List.range' 0 (dir_entry_count dir),
        (k + 1) * DIR_ENTRY_SIZE ≤ dir.file_size := by
      intro k hk
      have hk2 := List.mem_range'_1.mp hk
      unfold dir_entry_count DIR_ENTRY_SIZE at *
      omega
    obtain ⟨fsR, hgo, hpost, hframe⟩ := dir_add_go_spec (dir_entry_count dir)
      0 fs dir name inode_id i hlay hwf hname hrange (Nat.zero_le i)
      (by omega) (fun k _ hk2 => hlive k hk2) hfree
    unfold dir_add_entry
    rw [if_neg hgood, hfind, hgo]
    exact ⟨rfl, rfl, rfl, hpost, hframe⟩
  · intro fs dir name inode_id hlay hptr hgood hfind hall hok
    have hname : name.length ≤ DIR_NAME_LEN := by
      push_neg at hgood
      omega
    have hlennew : (entrySerialize (entryFromName name inode_id)).length
        = 16 := entryFromName_length name inode_id
        (by unfold DIR_NAME_LEN at hname; omega)
    have hnone := dir_add_go_none (List.range' 0 (dir_entry_count dir))
      fs dir name inode_id hall
    unfold dir_add_entry at hok ⊢
    rw [if_neg hgood, hfind, hnone] at hok ⊢
    simp only at hok ⊢
    obtain ⟨e1, e2, e3, e4, e5, e6, e7⟩ := write_file_range_effects fs dir
      dir.file_size (entrySerialize (entryFromName name inode_id)) hlay hptr
    cases hw : write_file_range fs dir dir.file_size
        (entrySerialize (entryFromName name inode_id)) with
    | mk fs1 p =>
      cases p with
      | mk dir1 r =>
        rw [hw] at hok e6
        simp only at hok e6 ⊢
        cases r with
        | error e => simp at hok
        | ok u =>
          cases u
          simp only at hok ⊢
          have hsz1 : dir1.file_size =
              max dir.file_size (dir.file_size + 16) := by
            rw [← hlennew]
            exact e6 rfl
          have hsz2 : dir1.file_size = dir.file_size + DIR_ENTRY_SIZE := by
            rw [hsz1]
            unfold DIR_ENTRY_SIZE
            omega
          cases hwi : fs_write_inode fs1 dir1.id dir1 with
          | ok fs2 =>
            exact hsz2
          | error e =>
            rw [hwi] at hok
            simp at hok

def dirC7 : Inode :=
  { file_size := 32, id := 0, single_directs := [1, 0, 0, 0, 0],
    single_indirect := 0, double_indirect := 0, file_type := 1,
    link_count := 1, _reserved := [0, 0, 0, 0, 0, 0] }

def fsC7 : FS :=
  { img := (writeBytes
      (writeBytes (fun _ => 0) 4096 (entrySerialize (entryFromName [98] 7)))
      4112
      (entrySerialize { name := (List.replicate 12 0),
                        inode_id := DIR_INODE_UNUSED })),
    sb := { fs_size := 40960, magic := [122, 111, 115, 33],
            root_inode_id := 0, bitmap_start := 0, bitmap_count := 1,
            block_start := 1, block_count := 8, inode_start := 0,
            inode_count := 1 },
    data_bitmap := [1], bitmap_dirty := false, cwd_inode := 0,
    cwd_stack := [] }

theorem c7_hr0 : read_file_range fsC7 dirC7 (0 * DIR_ENTRY_SIZE)
    DIR_ENTRY_SIZE = .ok (readBytes fsC7.img
      (1 * BLOCK_SIZE + (0 * DIR_ENTRY_SIZE) % BLOCK_SIZE) DIR_ENTRY_SIZE) :=
  read_file_range_single fsC7 dirC7 _ _ 1 (by decide) (by decide) (by decide)
    (by decide)

theorem c7_hr1 : read_file_range fsC7 dirC7 (1 * DIR_ENTRY_SIZE)
    DIR_ENTRY_SIZE = .ok (readBytes fsC7.img
      (1 * BLOCK_SIZE + (1 * DIR_ENTRY_SIZE) % BLOCK_SIZE) DIR_ENTRY_SIZE) :=
  read_file_range_single fsC7 dirC7 _ _ 1 (by decide) (by decide) (by decide)
    (by decide)

theorem c7_hfind : dir_find fsC7 dirC7 [97] = .ok none := by
  unfold dir_find
  rw [if_neg (by decide)]
  rw [show List.range' 0 (dir_entry_count dirC7) = [0, 1] from rfl]
  unfold dir_find_go
  rw [c7_hr0]
  simp only
  rw [if_neg (by decide)]
  unfold dir_find_go
  rw [c7_hr1]
  simp only
  rw [if_neg (by decide)]
  rfl

def dirC7b : Inode :=
  { file_size := 16, id := 0, single_directs := [1, 0, 0, 0, 0],
    single_indirect := 0, double_indirect := 0, file_type := 1,
    link_count := 1, _reserved := [0, 0, 0, 0, 0, 0] }

def fsC7b : FS :=
  { img := (writeBytes (fun _ => 0) 4096
      (entrySerialize (entryFromName [98] 7))),
    sb := { fs_size := 40960, magic := [122, 111, 115, 33],
            root_inode_id := 0, bitmap_start := 0, bitmap_count := 1,
            block_start := 1, block_count := 8, inode_start := 0,
            inode_count := 1 },
    data_bitmap := [1], bitmap_dirty := false, cwd_inode := 0,
    cwd_stack := [] }

theorem c7b_hr0 : read_file_range fsC7b dirC7b (0 * DIR_ENTRY_SIZE)
    DIR_ENTRY_SIZE = .ok (readBytes fsC7b.img
      (1 * BLOCK_SIZE + (0 * DIR_ENTRY_SIZE) % BLOCK_SIZE) DIR_ENTRY_SIZE) :=
  read_file_range_single fsC7b dirC7b _ _ 1 (by decide) (by decide)
    (by decide) (by decide)

theorem c7b_hfind : dir_find fsC7b dirC7b [97] = .ok none := by
  unfold dir_find
  rw [if_neg (by decide)]
  rw [show List.range' 0 (dir_entry_count dirC7b) = [0] from rfl]
  unfold dir_find_go
  rw [c7b_hr0]
  simp only
  rw [if_neg (by decide)]
  rfl

theorem c7b_hall : ∀ k ∈ List.range' 0 (dir_entry_count dirC7b), ∃ bsk,
    read_file_range fsC7b dirC7b (k * DIR_ENTRY_SIZE) DIR_ENTRY_SIZE =
      .ok bsk ∧ entryIsUnused (entryDeserialize bsk) = false := by
  intro k hk
  rw [show List.range' 0 (dir_entry_count dirC7b) = [0] from rfl] at hk
  have hk0 : k = 0 := by
    simp only [List.mem_cons, List.not_mem_nil, or_false] at hk
    exact hk
  subst hk0
  exact ⟨_, c7b_hr0, by decide⟩

theorem c7b_hok : (dir_add_entry fsC7b dirC7b [97] 5).2.2 = .ok () := by
  unfold dir_add_entry
  rw [if_neg (by decide), c7b_hfind]
  simp only
  rw [show List.range' 0 (dir_entry_count dirC7b) = [0] from rfl]
  rw [dir_add_go_none [0] fsC7b dirC7b [97] 5 (by
    intro k hk
    have hk0 : k = 0 := by
      simp only [List.mem_cons, List.not_mem_nil, or_false] at hk
      exact hk
    subst hk0
    exact ⟨_, c7b_hr0, by decide⟩)]
  simp only
  rw [show entrySerialize (entryFromName [97] 5) =
    [97, 0, 0, 0, 0, 0, 0, 0, 0, 0, 0, 0, 5, 0, 0, 0] from by decide]
  unfold write_file_range
  rw [write_loop_cons_existing fsC7b dirC7b dirC7b.file_size 97
    [0, 0, 0, 0, 0, 0, 0, 0, 0, 0, 0, 5, 0, 0, 0] 1 (by decide) (by decide)]
  rw [show ((97 : Nat) :: [0, 0, 0, 0, 0, 0, 0, 0, 0, 0, 0, 5, 0, 0, 0]).drop
      (min ((97 : Nat) :: [0, 0, 0, 0, 0, 0, 0, 0, 0, 0, 0, 5, 0, 0,
        0]).length (BLOCK_SIZE - dirC7b.file_size % BLOCK_SIZE)) = []
    from by decide]
  rw [write_loop_nil]
  rfl

theorem c7_add_entry_slot_policy_witness :
    dir_add_entry fsC7 dirC7 [] 5 = (fsC7, dirC7, .error .invalidName) ∧
    ((dir_add_entry fsC7 dirC7 [97] 5).2.1 = dirC7 ∧
     (dir_add_entry fsC7 dirC7 [97] 5).2.2 = .ok () ∧
     (dir_add_entry fsC7 dirC7 [97] 5).2.1.file_size = dirC7.file_size ∧
     read_file_range (dir_add_entry fsC7 dirC7 [97] 5).1 dirC7
       (1 * DIR_ENTRY_SIZE) DIR_ENTRY_SIZE =
       .ok (entrySerialize (entryFromName [97] 5)) ∧
     (∀ j, (j + 1) * DIR_ENTRY_SIZE ≤ dirC7.file_size → j ≠ 1 →
       read_file_range (dir_add_entry fsC7 dirC7 [97] 5).1 dirC7
         (j * DIR_ENTRY_SIZE) DIR_ENTRY_SIZE =
       read_file_range fsC7 dirC7 (j * DIR_ENTRY_SIZE) DIR_ENTRY_SIZE)) ∧
    (dir_add_entry fsC7b dirC7b [97] 5).2.1.file_size =
      dirC7b.file_size + DIR_ENTRY_SIZE :=
  ⟨c7_add_entry_slot_policy.1 fsC7 dirC7 [] 5 (Or.inl rfl),
   c7_add_entry_slot_policy.2.2.1 fsC7 dirC7 [97] 5 1 (by decide) (by decide)
     (by decide) c7_hfind (by decide)
     (fun k hk => by
       have hk0 : k = 0 := by omega
       subst hk0
       exact ⟨_, c7_hr0, by decide⟩)
     ⟨_, c7_hr1, by decide⟩,
   c7_add_entry_slot_policy.2.2.2 fsC7b dirC7b [97] 5 (by decide) (by decide)
     (by decide) c7b_hfind c7b_hall c7b_hok⟩

/-- Re-decoding an encoded inode record: the `file_type` byte is exact
and `file_size` comes back reduced modulo 2^64. -/
theorem inode_refrom (ino : Inode) (h5 : ino.single_directs.length = 5)
    (h6 : ino._reserved.length = 6) :
    (inodeFromBytes (inodeToBytes ino)).file_type = ino.file_type ∧
    (inodeFromBytes (inodeToBytes ino)).file_size =
      ino.file_size % 256 ^ 8 := by
  cases ino with
  | mk fs id sd si di ft lc rv =>
    simp only at h5 h6
    obtain ⟨d0, d1, d2, d3, d4, hds⟩ : ∃ a b c d e, sd = [a, b, c, d, e] := by
      match hl : sd, h5 with
      | [a, b, c, d, e], _ => exact ⟨a, b, c, d, e, rfl⟩
    obtain ⟨r0, r1, r2, r3, r4, r5, hrs⟩ :
        ∃ a b c d e f, rv = [a, b, c, d, e, f] := by
      match hl : rv, h6 with
      | [a, b, c, d, e, f], _ => exact ⟨a, b, c, d, e, f, rfl⟩
    subst hds hrs
    refine ⟨rfl, ?_⟩
    show fromLE (toLE 8 fs) = fs % 256 ^ 8
    exact fromLE_toLE_mod 8 fs

/-- §8 invariant: every on-disk inode marked as a directory has a
`file_size` that is a multiple of 16. -/
def DirSizesOK (fs : FS) : Prop :=
  ∀ id, id < fs.sb.inode_count →
    (inodeFromBytes (readBytes fs.img (recOff fs.sb id) 48)).file_type = 1 →
    (inodeFromBytes (readBytes fs.img (recOff fs.sb id) 48)).file_size % 16
      = 0

theorem mod16_of_mod_pow (x : Nat) (h : x % 16 = 0) :
    x % 256 ^ 8 % 16 = 0 := by
  rw [Nat.mod_mod_of_dvd x (by norm_num : (16 : Nat) ∣ 256 ^ 8)]
  exact h

theorem recOff_disjoint (sb : Superblock) (id1 id2 : Nat) (h : id1 ≠ id2) :
    recOff sb id1 + 48 ≤ recOff sb id2 ∨
    recOff sb id2 + 48 ≤ recOff sb id1 := by
  unfold recOff INODE_SIZE
  rcases Nat.lt_or_ge id1 id2 with hlt | hge
  · left
    have : id1 + 1 ≤ id2 := hlt
    have := Nat.mul_le_mul_right 48 this
    omega
  · right
    have : id2 < id1 := by omega
    have h2 : id2 + 1 ≤ id1 := this
    have := Nat.mul_le_mul_right 48 h2
    omega

theorem recOff_in_table (sb : Superblock) (id : Nat) (hlay : LayoutWF sb)
    (hid : id < sb.inode_count) :
    recOff sb id + 48 ≤ sb.block_start * BLOCK_SIZE := by
  have h2 := hlay.2
  have h3 : id + 1 ≤ sb.inode_count := hid
  have := Nat.mul_le_mul_right 48 h3
  unfold recOff INODE_SIZE BLOCK_SIZE at *
  omega

theorem write_inode_preserves_dirsizes (fs : FS) (id0 : Nat) (ino' : Inode)
    (hlay : LayoutWF fs.sb) (hid0 : id0 < fs.sb.inode_count)
    (hcond : ino'.file_type = 1 → ino'.file_size % 16 = 0)
    (h5 : ino'.single_directs.length = 5) (h6 : ino'._reserved.length = 6)
    (hinv : DirSizesOK fs) :
    DirSizesOK { fs with img := (writeBytes fs.img (recOff fs.sb id0)
      (inodeToBytes ino')) } := by
  intro id hid htype
  have hlen48 : (inodeToBytes ino').length = 48 := inodeToBytes_length _ h5 h6
  by_cases heq : id = id0
  · subst heq
    have hself : readBytes (writeBytes fs.img (recOff fs.sb id)
        (inodeToBytes ino')) (recOff fs.sb id) 48 = inodeToBytes ino' := by
      rw [← hlen48]
      exact readBytes_writeBytes_self _ _ _
    rw [hself] at htype ⊢
    obtain ⟨hft, hfs⟩ := inode_refrom ino' h5 h6
    rw [hfs]
    rw [hft] at htype
    exact mod16_of_mod_pow _ (hcond htype)
  · have hdisj : readBytes (writeBytes fs.img (recOff fs.sb id0)
        (inodeToBytes ino')) (recOff fs.sb id) 48 =
        readBytes fs.img (recOff fs.sb id) 48 := by
      apply readBytes_writeBytes_disjoint
      rw [hlen48]
      rcases recOff_disjoint fs.sb id id0 heq with h | h
      · exact Or.inl h
      · exact Or.inr h
    rw [hdisj] at htype ⊢
    exact hinv id hid htype

theorem wfr_preserves_dirsizes (fs : FS) (ino : Inode) (off : Nat)
    (data : List Nat) (hlay : LayoutWF fs.sb) (hptr : InoPtrOK fs.sb ino)
    (hcond : ino.file_type = 1 → ino.file_size % 16 = 0 ∧ off % 16 = 0 ∧
      data.length % 16 = 0)
    (hinv : DirSizesOK fs) :
    DirSizesOK (write_file_range fs ino off data).1 := by
  obtain ⟨e1, e2, e3, e4, e5, e6, e7⟩ :=
    write_file_range_effects fs ino off data hlay hptr
  intro id hid htype
  rw [e1] at hid
  have hrec : recOff (write_file_range fs ino off data).1.sb id =
      recOff fs.sb id := by rw [e1]
  rw [hrec] at htype ⊢
  by_cases heq : id = ino.id
  · subst heq
    rcases e5 hid with hsame | ⟨inoX, hx1, hx2, hx3, hx4, hx5⟩
    · rw [hsame] at htype ⊢
      exact hinv ino.id hid htype
    · rw [hx1] at htype ⊢
      obtain ⟨hft, hfs⟩ := inode_refrom inoX hx4 hx5
      rw [hfs]
      rw [hft, hx3] at htype
      obtain ⟨hs1, hs2, hs3⟩ := hcond htype
      apply mod16_of_mod_pow
      rcases hx2 with h | h <;> rw [h] <;> omega
  · have hdisj : readBytes (write_file_range fs ino off data).1.img
        (recOff fs.sb id) 48 = readBytes fs.img (recOff fs.sb id) 48 := by
      apply readBytes_congr
      intro i hi
      apply e4
      · left
        have := recOff_in_table fs.sb id hlay hid
        omega
      · rcases recOff_disjoint fs.sb id ino.id heq with h | h
        · left
          omega
        · right
          omega
    rw [hdisj] at htype ⊢
    exact hinv id hid htype

theorem dir_add_go_preserves :
    ∀ (is : List Nat) (fs : FS) (dir : Inode) (name : List Nat)
      (inode_id : Nat),
      LayoutWF fs.sb → WFIno fs dir → name.length ≤ DIR_NAME_LEN →
      (dir.file_type = 1 → dir.file_size % 16 = 0) →
      DirSizesOK fs →
      ∀ r, dir_add_go fs dir name inode_id is = some r →
        DirSizesOK r.1 := by
  intro is
  induction is with
  | nil =>
    intro fs dir name inode_id _ _ _ _ hinv r hr
    simp [dir_add_go] at hr
  | cons i is ih =>
    intro fs dir name inode_id hlay hwf hname hdsz hinv r hr
    unfold dir_add_go at hr
    cases hread : read_file_range fs dir (i * DIR_ENTRY_SIZE)
        DIR_ENTRY_SIZE with
    | error e =>
      rw [hread] at hr
      simp only at hr
      rw [← Option.some.inj hr]
      exact hinv
    | ok bs =>
      rw [hread] at hr
      simp only at hr
      by_cases hc : entryIsUnused (entryDeserialize bs) = true
      · rw [if_pos hc] at hr
        have hlennew : (entrySerialize (entryFromName name inode_id)).length
            = 16 := entryFromName_length name inode_id
            (by unfold DIR_NAME_LEN at hname; omega)
        have hcondw : dir.file_type = 1 → dir.file_size % 16 = 0 ∧
            (i * DIR_ENTRY_SIZE) % 16 = 0 ∧
            (entrySerialize (entryFromName name inode_id)).length % 16
              = 0 := by
          intro ht
          refine ⟨hdsz ht, ?_, by rw [hlennew]⟩
          unfold DIR_ENTRY_SIZE
          omega
        have hw1 := wfr_preserves_dirsizes fs dir (i * DIR_ENTRY_SIZE)
          (entrySerialize (entryFromName name inode_id)) hlay hwf.1 hcondw
          hinv
        obtain ⟨e1, e2, e3, e4, e5, e6, e7⟩ := write_file_range_effects fs
          dir (i * DIR_ENTRY_SIZE)
          (entrySerialize (entryFromName name inode_id)) hlay hwf.1
        cases hwstep : write_file_range fs dir (i * DIR_ENTRY_SIZE)
            (entrySerialize (entryFromName name inode_id)) with
        | mk fs1 p =>
          cases p with
          | mk dir1 rr =>
            rw [hwstep] at hr hw1 e1 e2 e3 e7
            simp only at hr hw1 e1 e2 e3 e7
            cases rr with
            | error e =>
              simp only at hr
              rw [← Option.some.inj hr]
              exact hw1
            | ok u =>
              cases u
              simp only at hr
              unfold fs_write_inode at hr
              have hid1 : dir1.id = dir.id := e2.1
              have hid : dir.id < fs.sb.inode_count := hwf.2.1
              rw [if_neg (by rw [hid1, e1]; omega :
                ¬ dir1.id ≥ fs1.sb.inode_count)] at hr
              simp only at hr
              rw [← Option.some.inj hr]
              show DirSizesOK { fs1 with img := (writeBytes fs1.img
                (recOff fs1.sb dir1.id) (inodeToBytes dir1)) }
              apply write_inode_preserves_dirsizes fs1 dir1.id dir1
                (by rw [e1]; exact hlay) (by rw [hid1, e1]; exact hid)
                ?_ e3.1 e3.2.1 hw1
              intro ht
              rw [e2.2.1] at ht
              rcases e7 with h | h <;> rw [h]
              · exact hdsz ht
              · rw [hlennew]
                unfold DIR_ENTRY_SIZE
                omega
      · rw [if_neg hc] at hr
        exact ih fs dir name inode_id hlay hwf hname hdsz hinv r hr

theorem dir_remove_go_preserves :
    ∀ (is : List Nat) (fs : FS) (dir : Inode) (name : List Nat),
      LayoutWF fs.sb → WFIno fs dir →
      (∀ i ∈ is, (i + 1) * DIR_ENTRY_SIZE ≤ dir.file_size) →
      (dir.file_type = 1 → dir.file_size % 16 = 0) →
      DirSizesOK fs →
      DirSizesOK (dir_remove_go fs dir name is).1 := by
  intro is
  induction is with
  | nil =>
    intro fs dir name _ _ _ _ hinv
    exact hinv
  | cons i is ih =>
    intro fs dir name hlay hwf his hdsz hinv
    have hisz : (i + 1) * DIR_ENTRY_SIZE ≤ dir.file_size :=
      his i (List.mem_cons_self _ _)
    unfold dir_remove_go
    simp only
    cases hread : read_file_range fs dir (i * DIR_ENTRY_SIZE)
        DIR_ENTRY_SIZE with
    | error e => exact hinv
    | ok bs =>
      simp only
      by_cases hc : ¬ entryIsUnused (entryDeserialize bs) = true ∧
          entryNameStr (entryDeserialize bs) = name
      · rw [if_pos hc]
        cases hgb : get_block dir ((i * DIR_ENTRY_SIZE) / BLOCK_SIZE) with
        | none =>
          exfalso
          have hbad : read_file_range fs dir (i * DIR_ENTRY_SIZE)
              DIR_ENTRY_SIZE = .error .missingBlock := by
            unfold read_file_range
            rw [if_neg (by unfold DIR_ENTRY_SIZE at *; omega :
              ¬ i * DIR_ENTRY_SIZE + DIR_ENTRY_SIZE > dir.file_size)]
            exact read_loop_none _ _ _ _ (by decide) hgb
          rw [hbad] at hread
          exact Except.noConfusion hread
        | some b =>
          have hfit16 : (i * DIR_ENTRY_SIZE) % BLOCK_SIZE + DIR_ENTRY_SIZE ≤
              BLOCK_SIZE := by
            unfold DIR_ENTRY_SIZE BLOCK_SIZE
            omega
          have hsz16 : i * DIR_ENTRY_SIZE + DIR_ENTRY_SIZE ≤
              dir.file_size := by
            unfold DIR_ENTRY_SIZE at *
            omega
          have hsingle := read_file_range_single fs dir (i * DIR_ENTRY_SIZE)
            DIR_ENTRY_SIZE b (by decide) hfit16 hsz16 hgb
          rw [hread] at hsingle
          have hb16 : bs = readBytes fs.img
              (b * BLOCK_SIZE + (i * DIR_ENTRY_SIZE) % BLOCK_SIZE)
              DIR_ENTRY_SIZE := Except.ok.inj hsingle
          have hlenbs : bs.length = DIR_ENTRY_SIZE := by
            rw [hb16]
            exact readBytes_length _ _ _
          have hlentomb : (entrySerialize { entryDeserialize bs with
              inode_id := DIR_INODE_UNUSED }).length = 16 := by
            apply entrySerialize_length
            show (bs.take 12).length = 12
            rw [List.length_take]
            unfold DIR_ENTRY_SIZE at hlenbs
            omega
          have hcondw : dir.file_type = 1 → dir.file_size % 16 = 0 ∧
              (i * DIR_ENTRY_SIZE) % 16 = 0 ∧
              (entrySerialize { entryDeserialize bs with
                inode_id := DIR_INODE_UNUSED }).length % 16 = 0 := by
            intro ht
            refine ⟨hdsz ht, ?_, by rw [hlentomb]⟩
            unfold DIR_ENTRY_SIZE
            omega
          have hw1 := wfr_preserves_dirsizes fs dir (i * DIR_ENTRY_SIZE)
            (entrySerialize { entryDeserialize bs with
              inode_id := DIR_INODE_UNUSED }) hlay hwf.1 hcondw hinv
          obtain ⟨e1, e2, e3, e4, e5, e6, e7⟩ := write_file_range_effects fs
            dir (i * DIR_ENTRY_SIZE)
            (entrySerialize { entryDeserialize bs with
              inode_id := DIR_INODE_UNUSED }) hlay hwf.1
          cases hwstep : write_file_range fs dir (i * DIR_ENTRY_SIZE)
              (entrySerialize { entryDeserialize bs with
                inode_id := DIR_INODE_UNUSED }) with
          | mk fs1 p =>
            cases p with
            | mk dir1 rr =>
              rw [hwstep] at hw1 e1 e2 e3 e7
              simp only at hw1 e1 e2 e3 e7
              cases rr with
              | error e => exact hw1
              | ok u =>
                cases u
                simp only
                unfold fs_write_inode
                have hid1 : dir1.id = dir.id := e2.1
                have hid : dir.id < fs.sb.inode_count := hwf.2.1
                rw [if_neg (by rw [hid1, e1]; omega :
                  ¬ dir1.id ≥ fs1.sb.inode_count)]
                simp only
                show DirSizesOK { fs1 with img := (writeBytes fs1.img
                  (recOff fs1.sb dir1.id) (inodeToBytes dir1)) }
                apply write_inode_preserves_dirsizes fs1 dir1.id dir1
                  (by rw [e1]; exact hlay) (by rw [hid1, e1]; exact hid)
                  ?_ e3.1 e3.2.1 hw1
                intro ht
                rw [e2.2.1] at ht
                rcases e7 with h | h <;> rw [h]
                · exact hdsz ht
                · rw [hlentomb]
                  unfold DIR_ENTRY_SIZE
                  omega
      · rw [if_neg hc]
        exact ih fs dir name hlay hwf
          (fun x hx => his x (List.mem_cons_of_mem _ hx)) hdsz hinv

/-- The facade mutations exercised by the shell commands. -/
inductive FacadeOp where
  | addEntry (dir : Inode) (name : List Nat) (inode_id : Nat)
  | removeEntry (dir : Inode) (name : List Nat)
  | freeInode (id : Nat)
  | writeFile (ino : Inode) (offset : Nat) (data : List Nat)

def applyOp (fs : FS) : FacadeOp → FS
  | .addEntry dir name inode_id => (dir_add_entry fs dir name inode_id).1
  | .removeEntry dir name => (dir_remove_entry fs dir name).1
  | .freeInode id => (fs_free_inode fs id).1
  | .writeFile ino offset data => (write_file_range fs ino offset data).1

/-- Caller-side sanity for an operation: the in-memory inode argument is
well formed, and a directory argument carries a slot-aligned size (as any
directory read from a `DirSizesOK` disk does); plain file writes go to
non-directory inodes. -/
def OpWF (fs : FS) : FacadeOp → Prop
  | .addEntry dir name _ => WFIno fs dir ∧ name.length ≤ DIR_NAME_LEN ∧
      (dir.file_type = 1 → dir.file_size % 16 = 0)
  | .removeEntry dir _ => WFIno fs dir ∧
      (dir.file_type = 1 → dir.file_size % 16 = 0)
  | .freeInode _ => True
  | .writeFile ino _ _ => InoPtrOK fs.sb ino ∧ ino.file_type ≠ 1

theorem dir_add_entry_preserves (fs : FS) (dir : Inode) (name : List Nat)
    (inode_id : Nat) (hlay : LayoutWF fs.sb) (hwf : WFIno fs dir)
    (hname : name.length ≤ DIR_NAME_LEN)
    (hdsz : dir.file_type = 1 → dir.file_size % 16 = 0)
    (hinv : DirSizesOK fs) :
    DirSizesOK (dir_add_entry fs dir name inode_id).1 := by
  unfold dir_add_entry
  by_cases hbad : name.length = 0 ∨ name.length > DIR_NAME_LEN
  · rw [if_pos hbad]
    exact hinv
  · rw [if_neg hbad]
    cases hfind : dir_find fs dir name with
    | error e => exact hinv
    | ok o =>
      cases o with
      | some x => exact hinv
      | none =>
        simp only
        cases hgo : dir_add_go fs dir name inode_id
            (List.range' 0 (dir_entry_count dir)) with
        | some r =>
          exact dir_add_go_preserves _ fs dir name inode_id hlay hwf hname
            hdsz hinv r hgo
        | none =>
          simp only
          have hlennew : (entrySerialize (entryFromName name
              inode_id)).length = 16 := entryFromName_length name inode_id
              (by unfold DIR_NAME_LEN at hname; omega)
          have hcondw : dir.file_type = 1 → dir.file_size % 16 = 0 ∧
              dir.file_size % 16 = 0 ∧
              (entrySerialize (entryFromName name inode_id)).length % 16
                = 0 := by
            intro ht
            exact ⟨hdsz ht, hdsz ht, by rw [hlennew]⟩
          have hw1 := wfr_preserves_dirsizes fs dir dir.file_size
            (entrySerialize (entryFromName name inode_id)) hlay hwf.1 hcondw
            hinv
          obtain ⟨e1, e2, e3, e4, e5, e6, e7⟩ := write_file_range_effects
            fs dir dir.file_size
            (entrySerialize (entryFromName name inode_id)) hlay hwf.1
          cases hwstep : write_file_range fs dir dir.file_size
              (entrySerialize (entryFromName name inode_id)) with
          | mk fs1 p =>
            cases p with
            | mk dir1 rr =>
              rw [hwstep] at hw1 e1 e2 e3 e7
              simp only at hw1 e1 e2 e3 e7
              cases rr with
              | error e => exact hw1
              | ok u =>
                cases u
                simp only
                unfold fs_write_inode
                have hid1 : dir1.id = dir.id := e2.1
                have hid : dir.id < fs.sb.inode_count := hwf.2.1
                rw [if_neg (by rw [hid1, e1]; omega :
                  ¬ dir1.id ≥ fs1.sb.inode_count)]
                simp only
                show DirSizesOK { fs1 with img := (writeBytes fs1.img
                  (recOff fs1.sb dir1.id) (inodeToBytes dir1)) }
                apply write_inode_preserves_dirsizes fs1 dir1.id dir1
                  (by rw [e1]; exact hlay) (by rw [hid1, e1]; exact hid)
                  ?_ e3.1 e3.2.1 hw1
                intro ht
                rw [e2.2.1] at ht
                rcases e7 with h | h <;> rw [h]
                · exact hdsz ht
                · rw [hlennew]
                  have := hdsz ht
                  omega

theorem free_inode_loop_img_sb :
    ∀ (l : List Nat) (fs : FS),
      (free_inode_loop fs l).1.img = fs.img ∧
      (free_inode_loop fs l).1.sb = fs.sb := by
  intro l
  induction l with
  | nil => intro fs; exact ⟨rfl, rfl⟩
  | cons d rest ih =>
    intro fs
    unfold free_inode_loop
    by_cases hd : d ≠ 0
    · rw [if_pos hd]
      cases hfb : fs_free_block fs d with
      | error e => exact ⟨rfl, rfl⟩
      | ok fs1 =>
        simp only
        have himg1 : fs1.img = fs.img := by
          unfold fs_free_block at hfb
          cases hfd : free_data_block fs.data_bitmap fs.sb d with
          | error e =>
            rw [hfd] at hfb
            exact Except.noConfusion hfb
          | ok bm =>
            rw [hfd] at hfb
            simp only at hfb
            rw [← Except.ok.inj hfb]
        have hsb1 : fs1.sb = fs.sb := by
          unfold fs_free_block at hfb
          cases hfd : free_data_block fs.data_bitmap fs.sb d with
          | error e =>
            rw [hfd] at hfb
            exact Except.noConfusion hfb
          | ok bm =>
            rw [hfd] at hfb
            simp only at hfb
            rw [← Except.ok.inj hfb]
        obtain ⟨i1, i2⟩ := ih fs1
        exact ⟨by rw [i1, himg1], by rw [i2, hsb1]⟩
    · rw [if_neg hd]
      exact ih fs

theorem dirsizes_of_eq (fs1 fs : FS) (himg : fs1.img = fs.img)
    (hsb : fs1.sb = fs.sb) (hinv : DirSizesOK fs) : DirSizesOK fs1 := by
  intro id hid htype
  rw [himg, hsb] at htype ⊢
  rw [hsb] at hid
  exact hinv id hid htype

theorem fs_free_inode_preserves (fs : FS) (id0 : Nat)
    (hlay : LayoutWF fs.sb) (hinv : DirSizesOK fs) :
    DirSizesOK (fs_free_inode fs id0).1 := by
  unfold fs_free_inode
  cases hread : fs_read_inode fs id0 with
  | error e => exact hinv
  | ok ino =>
    simp only
    have hid0 : id0 < fs.sb.inode_count := by
      by_contra hcon
      push_neg at hcon
      unfold fs_read_inode at hread
      rw [if_pos (by omega : id0 ≥ fs.sb.inode_count)] at hread
      exact Except.noConfusion hread
    have hino5 : ino.single_directs.length = 5 := by
      unfold fs_read_inode at hread
      rw [if_neg (by omega : ¬ id0 ≥ fs.sb.inode_count)] at hread
      rw [← Except.ok.inj hread]
      simp [inodeFromBytes]
    have hino6 : ino._reserved.length = 6 := by
      unfold fs_read_inode at hread
      rw [if_neg (by omega : ¬ id0 ≥ fs.sb.inode_count)] at hread
      rw [← Except.ok.inj hread]
      simp [inodeFromBytes]
    obtain ⟨l1, l2⟩ := free_inode_loop_img_sb ino.single_directs fs
    have hinv1 : DirSizesOK (free_inode_loop fs ino.single_directs).1 :=
      dirsizes_of_eq _ fs l1 l2 hinv
    cases hloop : free_inode_loop fs ino.single_directs with
    | mk fs1 rr =>
      rw [hloop] at l1 l2 hinv1
      simp only at l1 l2 hinv1
      cases rr with
      | error e => exact hinv1
      | ok u =>
        cases u
        simp only
        unfold fs_write_inode
        rw [if_neg (by rw [l2]; omega : ¬ id0 ≥ fs1.sb.inode_count)]
        simp only
        show DirSizesOK { fs1 with img := (writeBytes fs1.img
          (recOff fs1.sb id0) (inodeToBytes { ino with
            single_directs := (ino.single_directs.map (fun _ => 0)),
            file_size := 0, file_type := 0, link_count := 0 })) }
        apply write_inode_preserves_dirsizes fs1 id0
          { ino with
            single_directs := (ino.single_directs.map (fun _ => 0)),
            file_size := 0, file_type := 0, link_count := 0 }
          (by rw [l2]; exact hlay) (by rw [l2]; exact hid0)
          (by intro ht; simp at ht) (by simp [hino5]) (by exact hino6) hinv1

theorem dir_remove_entry_preserves (fs : FS) (dir : Inode)
    (name : List Nat) (hlay : LayoutWF fs.sb) (hwf : WFIno fs dir)
    (hdsz : dir.file_type = 1 → dir.file_size % 16 = 0)
    (hinv : DirSizesOK fs) :
    DirSizesOK (dir_remove_entry fs dir name).1 := by
  unfold dir_remove_entry
  apply dir_remove_go_preserves _ fs dir name hlay hwf ?_ hdsz hinv
  intro i hi
  have hi2 := List.mem_range'_1.mp hi
  unfold dir_entry_count DIR_ENTRY_SIZE at *
  omega

/-- C9: from a freshly formatted image the root directory starts with
`file_type = 1` and `file_size = 0` (a multiple of 16), and every facade
operation — adding or removing a directory entry, freeing an inode, or a
plain file write — preserves the invariant that every on-disk inode with
`file_type = 1` has a `file_size` that is a multiple of 16
(commands/format.rs root-inode init, filesystem.rs `dir_add_entry` /
`dir_remove_entry` / `free_inode` / `write_file_range`). -/
theorem c9_dir_size_slot_invariant :
    (∀ root_id : Nat, (format_root_inode root_id).file_type = 1 ∧
      (format_root_inode root_id).file_size = 0 ∧
      (format_root_inode root_id).file_size % 16 = 0) ∧
    (∀ (fs : FS) (op : FacadeOp), LayoutWF fs.sb → OpWF fs op →
      DirSizesOK fs → DirSizesOK (applyOp fs op)) := by
  refine ⟨fun root_id => ⟨rfl, rfl, rfl⟩, ?_⟩
  intro fs op hlay hop hinv
  cases op with
  | addEntry dir name inode_id =>
    exact dir_add_entry_preserves fs dir name inode_id hlay hop.1 hop.2.1
      hop.2.2 hinv
  | removeEntry dir name =>
    exact dir_remove_entry_preserves fs dir name hlay hop.1 hop.2 hinv
  | freeInode id => exact fs_free_inode_preserves fs id hlay hinv
  | writeFile ino offset data =>
    exact wfr_preserves_dirsizes fs ino offset data hlay hop.1
      (fun ht => absurd ht hop.2) hinv

theorem c9_dir_size_slot_invariant_witness :
    ((format_root_inode 0).file_type = 1 ∧
     (format_root_inode 0).file_size = 0 ∧
     (format_root_inode 0).file_size % 16 = 0) ∧
    (LayoutWF fsC8.sb ∧ OpWF fsC8 (.freeInode 0) ∧ DirSizesOK fsC8) ∧
    DirSizesOK (applyOp fsC8 (.freeInode 0)) := by
  have hinv : DirSizesOK fsC8 := by
    intro id hid htype
    rw [show fsC8.sb.inode_count = 1 from rfl] at hid
    have h0 : id = 0 := by omega
    subst h0
    exact absurd htype (by decide)
  exact ⟨c9_dir_size_slot_invariant.1 0,
    ⟨by decide, trivial, hinv⟩,
    c9_dir_size_slot_invariant.2 fsC8 (.freeInode 0) (by decide) trivial
      hinv⟩

theorem dir_find_go_found :
    ∀ (cnt s : Nat) (fs : FS) (dir : Inode) (name : List Nat) (i : Nat)
      (bsi : List Nat),
      s ≤ i → i < s + cnt →
      (∀ k, s ≤ k → k < i → ∃ bsk,
        read_file_range fs dir (k * DIR_ENTRY_SIZE) DIR_ENTRY_SIZE =
          .ok bsk ∧
        ¬ (¬ entryIsUnused (entryDeserialize bsk) = true ∧
          entryNameStr (entryDeserialize bsk) = name)) →
      read_file_range fs dir (i * DIR_ENTRY_SIZE) DIR_ENTRY_SIZE =
        .ok bsi →
      (¬ entryIsUnused (entryDeserialize bsi) = true ∧
        entryNameStr (entryDeserialize bsi) = name) →
      dir_find_go fs dir name (List.range' s cnt) =
        .ok (some (i, entryDeserialize bsi)) := by
  intro cnt
  induction cnt with
  | zero =>
    intro s fs dir name i bsi hsi hicnt _ _ _
    omega
  | succ cnt ih =>
    intro s fs dir name i bsi hsi hicnt hmiss hri hhit
    have hstep : List.range' s (cnt + 1) = s :: List.range' (s + 1) cnt := rfl
    rw [hstep]
    unfold dir_find_go
    by_cases hseqi : s = i
    · subst hseqi
      rw [hri]
      simp only
      rw [if_pos hhit]
    · obtain ⟨bss, hrs, hnots⟩ := hmiss s le_rfl (by omega)
      rw [hrs]
      simp only
      rw [if_neg hnots]
      exact ih (s + 1) fs dir name i bsi (by omega) (by omega)
        (fun k hk1 hk2 => hmiss k (by omega) hk2) hri hhit

def chainEntry (j : Nat) : DirEntry :=
  { name := ([97 + j] ++ List.replicate 11 0), inode_id := j + 1 }

def chainIno (n id : Nat) : Inode :=
  if id = 0 then
    { file_size := 16 * (n + 1), id := 0, single_directs := [1, 0, 0, 0, 0],
      single_indirect := 0, double_indirect := 0, file_type := 1,
      link_count := 1, _reserved := [0, 0, 0, 0, 0, 0] }
  else if id ≤ n then
    { file_size := 1, id := id, single_directs := [1 + id, 0, 0, 0, 0],
      single_indirect := 0, double_indirect := 0, file_type := 2,
      link_count := 1, _reserved := [0, 0, 0, 0, 0, 0] }
  else
    { file_size := 0, id := id, single_directs := [0, 0, 0, 0, 0],
      single_indirect := 0, double_indirect := 0, file_type := 0,
      link_count := 1, _reserved := [0, 0, 0, 0, 0, 0] }

def chainSb (n : Nat) : Superblock :=
  { fs_size := (n + 2) * 4096, magic := [122, 111, 115, 33],
    root_inode_id := 0, bitmap_start := 0, bitmap_count := 1,
    block_start := 1, block_count := n + 2, inode_start := 0,
    inode_count := n + 2 }

def chainImg (n : Nat) : Image := fun a =>
  if a < 48 * (n + 2) then
    (inodeToBytes (chainIno n (a / 48))).getD (a % 48) 0
  else if 4096 ≤ a ∧ a < 4096 + 16 * (n + 1) then
    (entrySerialize (chainEntry ((a - 4096) / 16))).getD ((a - 4096) % 16) 0
  else if 2 * 4096 ≤ a ∧ a < (n + 2) * 4096 ∧ a % 4096 = 0 then
    97 + (a / 4096 - 1)
  else 0

def chainFS (n : Nat) : FS :=
  { img := chainImg n, sb := chainSb n, data_bitmap := [255, 255, 255],
    bitmap_dirty := false, cwd_inode := 0, cwd_stack := [] }

theorem chainIno_bounded (n id : Nat) (hn : n ≤ 17) (hid : id < n + 2) :
    InodeBounded (chainIno n id) := by
  unfold chainIno InodeBounded
  by_cases h0 : id = 0
  · rw [if_pos h0]
    refine ⟨by norm_num; omega, by norm_num, rfl, ?_, by norm_num,
      by norm_num, by norm_num, by norm_num, rfl⟩
    intro d hd
    simp only [List.mem_cons, List.not_mem_nil, or_false] at hd
    rcases hd with h | h | h | h | h <;> rw [h] <;> norm_num
  · rw [if_neg h0]
    by_cases h1 : id ≤ n
    · rw [if_pos h1]
      refine ⟨by norm_num, by norm_num; omega, rfl, ?_, by norm_num,
        by norm_num, by norm_num, by norm_num, rfl⟩
      intro d hd
      simp only [List.mem_cons, List.not_mem_nil, or_false] at hd
      rcases hd with h | h | h | h | h <;> rw [h] <;> norm_num
      omega
    · rw [if_neg h1]
      refine ⟨by norm_num, by norm_num; omega, rfl, ?_, by norm_num,
        by norm_num, by norm_num, by norm_num, rfl⟩
      intro d hd
      simp only [List.mem_cons, List.not_mem_nil, or_false] at hd
      rcases hd with h | h | h | h | h <;> rw [h] <;> norm_num

theorem chainIno_len5 (n id : Nat) : (chainIno n id).single_directs.length = 5 := by
  unfold chainIno
  split
  · rfl
  · split <;> rfl

theorem chainIno_len6 (n id : Nat) : (chainIno n id)._reserved.length = 6 := by
  unfold chainIno
  split
  · rfl
  · split <;> rfl

theorem chain_read_inode (n id : Nat) (hn : n ≤ 17) (hid : id < n + 2) :
    fs_read_inode (chainFS n) id = .ok (chainIno n id) := by
  unfold fs_read_inode
  rw [if_neg (by show ¬ id ≥ n + 2; omega :
    ¬ id ≥ (chainFS n).sb.inode_count)]
  have hbytes : readBytes (chainFS n).img (recOff (chainFS n).sb id) 48 =
      inodeToBytes (chainIno n id) := by
    show readBytes (chainImg n) (recOff (chainSb n) id) 48 = _
    have hro : recOff (chainSb n) id = id * 48 := by
      show 0 * BLOCK_SIZE + id * INODE_SIZE = id * 48
      unfold BLOCK_SIZE INODE_SIZE
      omega
    rw [hro]
    apply readBytes_eq_list
    · exact inodeToBytes_length _ (chainIno_len5 n id) (chainIno_len6 n id)
    · intro i hi
      show chainImg n (id * 48 + i) = _
      unfold chainImg
      rw [if_pos (by omega : id * 48 + i < 48 * (n + 2))]
      rw [show (id * 48 + i) / 48 = id from by omega]
      rw [show (id * 48 + i) % 48 = i from by omega]
  rw [hbytes, inode_from_to _ (chainIno_bounded n id hn hid)]

theorem chain_slot (n j : Nat) (hn : n ≤ 17) (hj : j < n + 1) :
    read_file_range (chainFS n) (chainIno n 0) (j * DIR_ENTRY_SIZE)
      DIR_ENTRY_SIZE = .ok (entrySerialize (chainEntry j)) := by
  have hgb : get_block (chainIno n 0) (j * DIR_ENTRY_SIZE / BLOCK_SIZE) =
      some 1 := by
    rw [show j * DIR_ENTRY_SIZE / BLOCK_SIZE = 0 from by
      unfold DIR_ENTRY_SIZE BLOCK_SIZE; omega]
    rfl
  rw [read_file_range_single (chainFS n) (chainIno n 0) (j * DIR_ENTRY_SIZE)
    DIR_ENTRY_SIZE 1 (by decide)
    (by unfold DIR_ENTRY_SIZE BLOCK_SIZE; omega)
    (by show j * DIR_ENTRY_SIZE + DIR_ENTRY_SIZE ≤ 16 * (n + 1);
        unfold DIR_ENTRY_SIZE; omega) hgb]
  have hlen16 : (entrySerialize (chainEntry j)).length = 16 := by
    apply entrySerialize_length
    show ([97 + j] ++ List.replicate 11 0).length = 12
    simp
  congr 1
  apply readBytes_eq_list
  · exact hlen16
  · intro i hi
    have hi16 : i < 16 := hi
    show chainImg n (1 * BLOCK_SIZE + j * DIR_ENTRY_SIZE % BLOCK_SIZE + i) = _
    unfold chainImg DIR_ENTRY_SIZE BLOCK_SIZE
    rw [if_neg (by omega), if_pos (by omega :
      4096 ≤ 1 * 4096 + j * 16 % 4096 + i ∧
        1 * 4096 + j * 16 % 4096 + i < 4096 + 16 * (n + 1))]
    rw [show (1 * 4096 + j * 16 % 4096 + i - 4096) / 16 = j from by omega]
    rw [show (1 * 4096 + j * 16 % 4096 + i - 4096) % 16 = i from by omega]

theorem chainEntry_round (k : Nat) (hk : k ≤ 18) :
    entryDeserialize (entrySerialize (chainEntry k)) = chainEntry k := by
  apply entry_deserialize_serialize
  · simp [chainEntry]
  · show k + 1 < 256 ^ 4
    norm_num
    omega

theorem chainEntry_name (k : Nat) :
    entryNameStr (chainEntry k) = [97 + k] := by
  unfold entryNameStr chainEntry
  show ((97 + k) :: List.replicate 11 0).takeWhile (fun b => b ≠ 0) = _
  rw [List.takeWhile_cons]
  rw [if_pos (by simp)]
  rfl

theorem chainEntry_live (k : Nat) (hk : k ≤ 18) :
    ¬ entryIsUnused (chainEntry k) = true := by
  unfold entryIsUnused chainEntry DIR_INODE_UNUSED
  simp only [decide_eq_true_eq]
  omega

theorem chain_dir_find (n k : Nat) (hn : n ≤ 17) (hk : k < n + 1) :
    dir_find (chainFS n) (chainIno n 0) [97 + k] =
      .ok (some (k, chainEntry k)) := by
  unfold dir_find
  rw [if_neg (fun h => h rfl)]
  rw [show dir_entry_count (chainIno n 0) = n + 1 from by
    show 16 * (n + 1) / DIR_ENTRY_SIZE = n + 1
    unfold DIR_ENTRY_SIZE
    omega]
  rw [show (some (k, chainEntry k) : Option (Nat × DirEntry)) =
    some (k, entryDeserialize (entrySerialize (chainEntry k))) from by
    rw [chainEntry_round k (by omega)]]
  apply dir_find_go_found (n + 1) 0 (chainFS n) (chainIno n 0) [97 + k] k
    (entrySerialize (chainEntry k)) (Nat.zero_le k) (by omega)
    ?_ (chain_slot n k hn hk) ?_
  · intro kk _ hkk
    refine ⟨entrySerialize (chainEntry kk), chain_slot n kk hn (by omega), ?_⟩
    rw [chainEntry_round kk (by omega)]
    intro hc
    have := hc.2
    rw [chainEntry_name kk] at this
    have h1 : 97 + kk = 97 + k := by
      injection this
    omega
  · rw [chainEntry_round k (by omega)]
    exact ⟨chainEntry_live k (by omega), chainEntry_name k⟩

theorem chainIno_symlink (n k : Nat) (hk1 : 1 ≤ k) (hk2 : k ≤ n) :
    chainIno n k =
      { file_size := 1, id := k, single_directs := [1 + k, 0, 0, 0, 0],
        single_indirect := 0, double_indirect := 0, file_type := 2,
        link_count := 1, _reserved := [0, 0, 0, 0, 0, 0] } := by
  unfold chainIno
  rw [if_neg (by omega), if_pos hk2]

theorem chainIno_file (n k : Nat) (hk : n < k) :
    chainIno n k =
      { file_size := 0, id := k, single_directs := [0, 0, 0, 0, 0],
        single_indirect := 0, double_indirect := 0, file_type := 0,
        link_count := 1, _reserved := [0, 0, 0, 0, 0, 0] } := by
  unfold chainIno
  rw [if_neg (by omega), if_neg (by omega)]

theorem chain_readlink (n k : Nat) (hn : n ≤ 17) (hk1 : 1 ≤ k)
    (hk2 : k ≤ n) :
    readlink_target (chainFS n) k = .ok [97 + k] := by
  unfold readlink_target
  rw [chain_read_inode n k hn (by omega)]
  simp only
  rw [chainIno_symlink n k hk1 hk2]
  rw [if_neg (fun h => h rfl)]
  rw [read_file_range_single (chainFS n)
    { file_size := 1, id := k, single_directs := ([1 + k, 0, 0, 0, 0]),
      single_indirect := 0, double_indirect := 0, file_type := 2,
      link_count := 1, _reserved := ([0, 0, 0, 0, 0, 0]) } 0 1 (1 + k)
    (by decide) (by decide) (by show 0 + 1 ≤ 1; omega)
    ((get_block_some_iff _ _ _).mpr ⟨by decide, rfl, by omega⟩)]
  congr 1
  apply readBytes_eq_list
  · rfl
  · intro i hi
    have hi0 : i = 0 := by omega
    subst hi0
    show chainImg n ((1 + k) * BLOCK_SIZE + 0 % BLOCK_SIZE + 0) = 97 + k
    unfold chainImg BLOCK_SIZE
    rw [if_neg (by omega), if_neg (by omega :
      ¬ (4096 ≤ (1 + k) * 4096 + 0 % 4096 + 0 ∧
        (1 + k) * 4096 + 0 % 4096 + 0 < 4096 + 16 * (n + 1)))]
    rw [if_pos (by
      refine ⟨by omega, by omega, ?_⟩
      omega)]
    rw [show ((1 + k) * 4096 + 0 % 4096 + 0) / 4096 - 1 = k from by omega]

theorem pathComponents_single (c : Nat) (h : ¬ c = 47) :
    pathComponents [c] = [[c]] := by
  have h1 : splitSlash [c] = [[c]] := by
    unfold splitSlash
    rw [if_neg h]
    rfl
  unfold pathComponents
  rw [h1, List.filter_cons]
  rw [if_pos (by simp)]
  rfl

theorem chain_step (n k : Nat) (hn : n ≤ 17) (hk : k < n) (hd : k ≤ 16) :
    resolveComps (chainFS n) 0 [] [[97 + k]] k 16 =
      resolveComps (chainFS n) 0 [] [[97 + (k + 1)]] (k + 1) 16 := by
  conv_lhs => rw [resolveComps]
  rw [if_neg (by omega : ¬ k > 16)]
  simp only
  rw [if_neg (by simp; omega : ¬ ([97 + k] : List Nat) = [46])]
  rw [if_neg (by simp : ¬ ([97 + k] : List Nat) = [46, 46])]
  rw [chain_read_inode n 0 hn (by omega)]
  simp only
  rw [if_neg (fun h => h rfl)]
  rw [chain_dir_find n k hn (by omega)]
  simp only
  rw [show (chainEntry k).inode_id = k + 1 from rfl]
  rw [chain_read_inode n (k + 1) hn (by omega)]
  simp only
  rw [chainIno_symlink n (k + 1) (by omega) (by omega)]
  rw [if_pos rfl]
  rw [chain_readlink n (k + 1) hn (by omega) (by omega)]
  simp only
  rw [pathComponents_single (97 + (k + 1)) (by omega)]
  rw [if_neg (by simp; omega :
    ¬ ([97 + (k + 1)] : List Nat).head? = some 47)]
  rw [List.append_nil]

theorem chain_last (n : Nat) (hn : n ≤ 16) :
    resolveComps (chainFS n) 0 [] [[97 + n]] n 16 = .ok (n + 1, [0]) := by
  rw [resolveComps]
  rw [if_neg (by omega : ¬ n > 16)]
  simp only
  rw [if_neg (by simp; omega : ¬ ([97 + n] : List Nat) = [46])]
  rw [if_neg (by simp : ¬ ([97 + n] : List Nat) = [46, 46])]
  rw [chain_read_inode n 0 (by omega) (by omega)]
  simp only
  rw [if_neg (fun h => h rfl)]
  rw [chain_dir_find n n (by omega) (by omega)]
  simp only
  rw [show (chainEntry n).inode_id = n + 1 from rfl]
  rw [chain_read_inode n (n + 1) (by omega) (by omega)]
  simp only
  rw [chainIno_file n (n + 1) (by omega)]
  rw [if_neg (fun h => by simp at h)]
  rw [resolveComps]
  rw [if_neg (by omega : ¬ n > 16)]

theorem chain_all (n : Nat) (hn : n ≤ 16) :
    resolveComps (chainFS n) 0 [] [[97]] 0 16 = .ok (n + 1, [0]) := by
  suffices h : ∀ m k, k + m = n →
      resolveComps (chainFS n) 0 [] [[97 + k]] k 16 = .ok (n + 1, [0]) by
    exact h n 0 (by omega)
  intro m
  induction m with
  | zero =>
    intro k hk
    have hkn : k = n := by omega
    subst hkn
    exact chain_last k hn
  | succ m ih =>
    intro k hk
    rw [chain_step n k (by omega) (by omega) (by omega)]
    exact ih (k + 1) (by omega)

theorem chain17_all :
    resolveComps (chainFS 17) 0 [] [[97]] 0 16 = .error .symlinkLoop := by
  suffices h : ∀ m k, k + m = 17 →
      resolveComps (chainFS 17) 0 [] [[97 + k]] k 16 =
        .error .symlinkLoop by
    exact h 17 0 (by omega)
  intro m
  induction m with
  | zero =>
    intro k hk
    have hkn : k = 17 := by omega
    subst hkn
    rw [resolveComps]
    rw [if_pos (by omega : 17 > 16)]
  | succ m ih =>
    intro k hk
    rw [chain_step 17 k (by omega) (by omega) (by omega)]
    exact ih (k + 1) (by omega)

theorem chain_resolve_path (n : Nat) (hn : n ≤ 16) :
    resolve_path (chainFS n) [47, 97] = .ok (n + 1) := by
  unfold resolve_path resolve_path_with_stack
  rw [if_neg (by decide : ¬ ([47, 97] : List Nat) = [])]
  simp only
  rw [show pathComponents [47, 97] = [[97]] from rfl]
  rw [show (if ([47, 97] : List Nat).head? = some 47 then
      (chainFS n).sb.root_inode_id else (chainFS n).cwd_inode) = 0 from rfl]
  rw [show (if ([47, 97] : List Nat).head? = some 47 then ([] : List Nat)
      else (chainFS n).cwd_stack) = [] from rfl]
  rw [chain_all n hn]

theorem chain17_resolve_path :
    resolve_path (chainFS 17) [47, 97] = .error .symlinkLoop := by
  unfold resolve_path resolve_path_with_stack
  rw [if_neg (by decide : ¬ ([47, 97] : List Nat) = [])]
  simp only
  rw [show pathComponents [47, 97] = [[97]] from rfl]
  rw [show (if ([47, 97] : List Nat).head? = some 47 then
      (chainFS 17).sb.root_inode_id else (chainFS 17).cwd_inode) = 0
    from rfl]
  rw [show (if ([47, 97] : List Nat).head? = some 47 then ([] : List Nat)
      else (chainFS 17).cwd_stack) = [] from rfl]
  rw [chain17_all]

/-- C6: the resolver bounds symlink expansion by a depth counter with
limit 16 — any call whose depth exceeds the limit fails with
`SymlinkLoop` immediately; over the witness family `chainFS n` (a root
directory, `n` chained single-byte relative symlinks and a final regular
file) a chain of up to 16 symlinks resolves to the final inode, while
the 17-symlink chain fails with `SymlinkLoop` (filesystem.rs
`resolve_components_with_stack`). -/
theorem c6_symlink_depth_limit :
    (∀ (fs : FS) (current : Nat) (parents : List Nat)
      (comps : List (List Nat)) (depth maxDepth : Nat), depth > maxDepth →
      resolveComps fs current parents comps depth maxDepth =
        .error .symlinkLoop) ∧
    (∀ n, n ≤ 16 → resolve_path (chainFS n) [47, 97] = .ok (n + 1)) ∧
    resolve_path (chainFS 17) [47, 97] = .error .symlinkLoop := by
  refine ⟨?_, fun n hn => chain_resolve_path n hn, chain17_resolve_path⟩
  intro fs current parents comps depth maxDepth h
  rw [resolveComps.eq_def]
  rw [if_pos h]

theorem c6_symlink_depth_limit_witness :
    (17 > 16 ∧ resolveComps (chainFS 0) 5 [3] [[97]] 17 16 =
      .error .symlinkLoop) ∧
    ((16 : Nat) ≤ 16 ∧ resolve_path (chainFS 16) [47, 97] = .ok 17) ∧
    resolve_path (chainFS 17) [47, 97] = .error .symlinkLoop :=
  ⟨⟨by omega, c6_symlink_depth_limit.1 (chainFS 0) 5 [3] [[97]] 17 16
      (by omega)⟩,
   ⟨by omega, c6_symlink_depth_limit.2.1 16 (by omega)⟩,
   c6_symlink_depth_limit.2.2⟩
